import Mathlib

/-!
# Two-level TLB (`src/tlb.c`)

A shallow embedding of the translation lookaside buffer of `src/tlb.c` and
proofs of properties of it.

Conventions of the embedding.

* The global variables of `tlb.c` (`tlb_l1`, `tlb_l2`, the six counters and
  `flag`) are the fields of one record, `tlb_state`, passed through every
  operation. The record also carries the simulated clock of `clock.h`
  (`get_time`, `increment_time`) and the list of calls made so far to the two
  collaborators `page_table_translate` and `dram_access`.
* An array is a list; `slot tlb i` reads `tlb[i]`, `List.set` writes it. A
  pointer to an entry of an array is the index of that entry; `NULL` is `none`.
* `constants.h` is not part of the sources: the sizes, the latencies and the
  page-size bit width are the fields of `config`.
* `va_t` and `pa_dram_t` are 64-bit unsigned integers: they are naturals, and
  the operations that can leave the 64-bit range (`<<`, `-`, `~`) are reduced
  modulo `2 ^ 64`.
* The six event counters are `uint64_t`: they are naturals and `++` is reduced
  modulo `2 ^ 64`. `flag` is an `int`: it is an integer and `flag += 1` is
  reduced to the 32-bit two's complement range by `int_wrap`, which is what the
  compiled program does when the addition overflows.
* The clock belongs to `clock.h`, which is not part of the sources; it is a
  natural number, and so is the `last_access` stamp copied from it.
* `log_dbg` has no effect on the state and is left out.
-/

namespace TLB

/-! ## Data model -/

/-- Modelled from the spec: the type `op_t` of the missing headers, an access
type that is a read or a write. -/
inductive op_t where
  | OP_READ
  | OP_WRITE
  deriving DecidableEq, Repr

/-- Write test, the source's `#define OP_IS_WRITE(o) ((o) == OP_WRITE)`. -/
def OP_IS_WRITE (o : op_t) : Bool :=
  decide (o = op_t.OP_WRITE)

/-- One slot of a level, the source's `tlb_entry_t`. -/
structure tlb_entry_t where
  valid : Bool
  dirty : Bool
  last_access : Nat
  virtual_page_number : Nat
  physical_page_number : Nat
  deriving DecidableEq, Repr

/-- The all-zero entry that `memset(.., 0, ..)` writes. -/
def zero_entry : tlb_entry_t :=
  { valid := false, dirty := false, last_access := 0,
    virtual_page_number := 0, physical_page_number := 0 }

/-- The compile-time constants of the missing `constants.h`, taken as parameters. -/
structure config where
  TLB_L1_SIZE : Nat
  TLB_L2_SIZE : Nat
  TLB_L1_LATENCY_NS : Nat
  TLB_L2_LATENCY_NS : Nat
  PAGE_SIZE_BITS : Nat
  deriving DecidableEq, Repr

/-- Modelled from the spec: the macro `PAGE_OFFSET_MASK` of `constants.h`,
which is not part of the sources; the spec calls it the page-offset mask
derived from the page-size bit width, that is the low `PAGE_SIZE_BITS` bits. -/
def PAGE_OFFSET_MASK (cfg : config) : Nat :=
  2 ^ cfg.PAGE_SIZE_BITS - 1

/-- Number of values of a 64-bit unsigned integer. -/
def WORD : Nat := 2 ^ 64

/-- The value an `int` takes when the result of an addition is `x`: `x` itself
in the range `-2 ^ 31 .. 2 ^ 31 - 1`, and the 32-bit two's complement
wrap-around of `x` outside it. -/
def int_wrap (x : Int) : Int :=
  (x + 2 ^ 31) % 2 ^ 32 - 2 ^ 31

/-- The two arrays; `tlb == tlb_l1` in the source is `lvl = level.L1` here. -/
inductive level where
  | L1
  | L2
  deriving DecidableEq, Repr

/-- A call made to one of the two collaborators. -/
inductive call where
  | page_table_translate (virtual_address : Nat) (op : op_t)
  | dram_access (physical_address : Nat) (op : op_t)
  deriving DecidableEq, Repr

/-- What the collaborators do when called: the address the page table returns,
and the clock value each call leaves behind, given the clock value it found. -/
structure collaborators where
  page_table_translate : Nat → op_t → Nat
  page_table_clock : Nat → op_t → Nat → Nat
  dram_clock : Nat → op_t → Nat → Nat

/-- The global state of `tlb.c`, with the clock and the log of collaborator
calls. The counters hold `uint64_t` values and `flag` an `int` value; the
statements that change them wrap as the machine types do. -/
structure tlb_state where
  tlb_l1 : List tlb_entry_t
  tlb_l2 : List tlb_entry_t
  tlb_l1_hits : Nat
  tlb_l1_misses : Nat
  tlb_l1_invalidations : Nat
  tlb_l2_hits : Nat
  tlb_l2_misses : Nat
  tlb_l2_invalidations : Nat
  flag : Int
  time : Nat
  calls : List call
  deriving DecidableEq, Repr

/-- Read of `tlb[i]`. -/
def slot (tlb : List tlb_entry_t) (i : Nat) : tlb_entry_t :=
  tlb.getD i zero_entry

/-- The array a level denotes. -/
def level_array (lvl : level) (s : tlb_state) : List tlb_entry_t :=
  match lvl with
  | level.L1 => s.tlb_l1
  | level.L2 => s.tlb_l2

/-- Replace the array of a level. -/
def set_level_array (lvl : level) (s : tlb_state) (tlb : List tlb_entry_t) : tlb_state :=
  match lvl with
  | level.L1 => { s with tlb_l1 := tlb }
  | level.L2 => { s with tlb_l2 := tlb }

/-- The `size` argument that goes with each array. -/
def level_size (cfg : config) (lvl : level) : Nat :=
  match lvl with
  | level.L1 => cfg.TLB_L1_SIZE
  | level.L2 => cfg.TLB_L2_SIZE

/-! ## Accessors and clock -/

def get_total_tlb_l1_hits (s : tlb_state) : Nat := s.tlb_l1_hits
def get_total_tlb_l1_misses (s : tlb_state) : Nat := s.tlb_l1_misses
def get_total_tlb_l1_invalidations (s : tlb_state) : Nat := s.tlb_l1_invalidations
def get_total_tlb_l2_hits (s : tlb_state) : Nat := s.tlb_l2_hits
def get_total_tlb_l2_misses (s : tlb_state) : Nat := s.tlb_l2_misses
def get_total_tlb_l2_invalidations (s : tlb_state) : Nat := s.tlb_l2_invalidations

/-- Modelled from the spec: `get_time` of the missing `clock.h`, the current
simulated time. -/
def get_time (s : tlb_state) : Nat := s.time

/-- Modelled from the spec: `increment_time` of the missing `clock.h`, which
advances the simulated time by a duration. -/
def increment_time (ns : Nat) (s : tlb_state) : tlb_state :=
  { s with time := s.time + ns }

/-! ## Initialisation -/

/-- The source's `tlb_init`: both arrays zeroed, the six counters zeroed, `flag = 1`. -/
def tlb_init (cfg : config) (s : tlb_state) : tlb_state :=
  { s with
    tlb_l1 := List.replicate cfg.TLB_L1_SIZE zero_entry
    tlb_l2 := List.replicate cfg.TLB_L2_SIZE zero_entry
    tlb_l1_hits := 0, tlb_l1_misses := 0, tlb_l1_invalidations := 0
    tlb_l2_hits := 0, tlb_l2_misses := 0, tlb_l2_invalidations := 0
    flag := 1 }

/-! ## Helper functions -/

/-- The loop `for (; i < i + remaining; i++) if (p i) return i;` with `none`
when it runs to the end. -/
def scan_from (p : Nat → Bool) : Nat → Nat → Option Nat
  | 0, _ => none
  | k + 1, i => if p i then some i else scan_from p k (i + 1)

/-- The source's `find_entry`: the first `i < size` with `tlb[i]` valid and
holding `vpn`. -/
def find_entry (tlb : List tlb_entry_t) (size : Nat) (vpn : Nat) : Option Nat :=
  scan_from (fun i => (slot tlb i).valid && decide ((slot tlb i).virtual_page_number = vpn)) size 0

/-- The LRU loop of `evict_entry`, from index `i` for `remaining` steps, carrying
`idx`, `oldest` and `flag`; every step runs `flag += 1` on the `int`. -/
def lru_scan (tlb : List tlb_entry_t) : Nat → Nat → Nat → Nat → Int → Nat × Int
  | 0, _, idx, _, flag => (idx, flag)
  | k + 1, i, idx, oldest, flag =>
    if (slot tlb i).last_access < oldest then
      lru_scan tlb k (i + 1) i (slot tlb i).last_access (int_wrap (flag + 1))
    else
      lru_scan tlb k (i + 1) idx oldest (int_wrap (flag + 1))

/-- The dirty propagation of `evict_entry`: for an L1 victim that is valid and
dirty, the L2 entry of the same page, when there is one, becomes dirty. -/
def propagate_dirty (cfg : config) (lvl : level) (victim : tlb_entry_t) (s : tlb_state) :
    tlb_state :=
  if decide (lvl = level.L1) && victim.valid then
    if victim.dirty then
      match find_entry s.tlb_l2 cfg.TLB_L2_SIZE victim.virtual_page_number with
      | some j => { s with tlb_l2 := s.tlb_l2.set j { slot s.tlb_l2 j with dirty := true } }
      | none => s
    else s
  else s

/-- The source's `evict_entry`: the index of the returned slot and the state
left behind. -/
def evict_entry (cfg : config) (lvl : level) (s : tlb_state) : Nat × tlb_state :=
  let tlb := level_array lvl s
  let size := level_size cfg lvl
  match scan_from (fun i => !(slot tlb i).valid) size 0 with
  | some i => (i, s)
  | none =>
    let r := lru_scan tlb (size - 1) 1 0 (slot tlb 0).last_access s.flag
    let idx := r.1
    let s1 := { s with flag := r.2 }
    let s2 := propagate_dirty cfg lvl (slot tlb idx) s1
    let tlb2 := level_array lvl s2
    (idx, set_level_array lvl s2 (tlb2.set idx { slot tlb2 idx with valid := false }))

/-- The source's `insert_entry`. -/
def insert_entry (cfg : config) (lvl : level) (vpn : Nat) (pa : Nat) (op : op_t)
    (s : tlb_state) : tlb_state :=
  let r := evict_entry cfg lvl s
  let s1 := r.2
  set_level_array lvl s1
    ((level_array lvl s1).set r.1
      { valid := true
        dirty := OP_IS_WRITE op
        last_access := get_time s1
        virtual_page_number := vpn
        physical_page_number := pa >>> cfg.PAGE_SIZE_BITS })

/-! ## Invalidation -/

/-- The body of the `if` in the loops of `tlb_invalidate`:
`if (tlb[i].dirty) tlb[i].dirty = false; tlb[i].valid = false;`. -/
def invalidate_slot (tlb : List tlb_entry_t) (i : Nat) : List tlb_entry_t :=
  let t1 := if (slot tlb i).dirty then tlb.set i { slot tlb i with dirty := false } else tlb
  t1.set i { slot t1 i with valid := false }

/-- One of the two loops of `tlb_invalidate`, from index `i` for `remaining`
steps, carrying the array and the invalidation counter (a `uint64_t`). -/
def invalidate_scan (vpn : Nat) :
    Nat → Nat → List tlb_entry_t → Nat → List tlb_entry_t × Nat
  | 0, _, tlb, count => (tlb, count)
  | k + 1, i, tlb, count =>
    if (slot tlb i).valid && decide ((slot tlb i).virtual_page_number = vpn) then
      invalidate_scan vpn k (i + 1) (invalidate_slot tlb i) ((count + 1) % WORD)
    else
      invalidate_scan vpn k (i + 1) tlb count

/-- The source's `tlb_invalidate`. -/
def tlb_invalidate (cfg : config) (virtual_page_number : Nat) (s : tlb_state) : tlb_state :=
  let s1 := increment_time cfg.TLB_L1_LATENCY_NS s
  let r1 := invalidate_scan virtual_page_number cfg.TLB_L1_SIZE 0 s1.tlb_l1 s1.tlb_l1_invalidations
  let s2 := { s1 with tlb_l1 := r1.1, tlb_l1_invalidations := r1.2 }
  let s3 := increment_time cfg.TLB_L2_LATENCY_NS s2
  let r2 := invalidate_scan virtual_page_number cfg.TLB_L2_SIZE 0 s3.tlb_l2 s3.tlb_l2_invalidations
  { s3 with tlb_l2 := r2.1, tlb_l2_invalidations := r2.2 }

/-! ## Translation -/

/-- The statements `e->last_access = get_time(); if (OP_IS_WRITE(op)) e->dirty = true;`
on the entry at index `i`. -/
def touch (tlb : List tlb_entry_t) (i : Nat) (now : Nat) (op : op_t) : List tlb_entry_t :=
  let t1 := tlb.set i { slot tlb i with last_access := now }
  if OP_IS_WRITE op then t1.set i { slot t1 i with dirty := true } else t1

/-- The call `page_table_translate(virtual_address, op)`: the returned address
and the state after it. -/
def call_page_table (c : collaborators) (virtual_address : Nat) (op : op_t) (s : tlb_state) :
    Nat × tlb_state :=
  (c.page_table_translate virtual_address op,
   { s with
     time := c.page_table_clock virtual_address op s.time
     calls := s.calls ++ [call.page_table_translate virtual_address op] })

/-- The call `dram_access(pa, op)`. -/
def call_dram (c : collaborators) (pa : Nat) (op : op_t) (s : tlb_state) : tlb_state :=
  { s with
    time := c.dram_clock pa op s.time
    calls := s.calls ++ [call.dram_access pa op] }

/-- The L1-hit branch of `tlb_translate`, `i` being the index `find_entry` returned. -/
def translate_l1_hit (cfg : config) (vpn offset : Nat) (op : op_t) (i : Nat) (s : tlb_state) :
    Nat × tlb_state :=
  let s1 := { s with tlb_l1_hits := (s.tlb_l1_hits + 1) % WORD }
  let s2 := { s1 with tlb_l1 := touch s1.tlb_l1 i (get_time s1) op }
  let s3 :=
    match find_entry s2.tlb_l2 cfg.TLB_L2_SIZE vpn with
    | some j => { s2 with tlb_l2 := touch s2.tlb_l2 j (get_time s2) op }
    | none => s2
  ((((slot s3.tlb_l1 i).physical_page_number <<< cfg.PAGE_SIZE_BITS) % WORD) ||| offset, s3)

/-- The L2-hit branch of `tlb_translate`, `j` being the index `find_entry` returned. -/
def translate_l2_hit (cfg : config) (vpn offset : Nat) (op : op_t) (j : Nat) (s : tlb_state) :
    Nat × tlb_state :=
  let s1 := { s with tlb_l2_hits := (s.tlb_l2_hits + 1) % WORD }
  let s2 := { s1 with tlb_l2 := touch s1.tlb_l2 j (get_time s1) op }
  let pa_from_l2 := ((slot s2.tlb_l2 j).physical_page_number <<< cfg.PAGE_SIZE_BITS) % WORD
  let r := evict_entry cfg level.L1 s2
  let s3 := r.2
  let s4 :=
    { s3 with
      tlb_l1 := s3.tlb_l1.set r.1
        { valid := true
          dirty := (slot s3.tlb_l2 j).dirty || OP_IS_WRITE op
          last_access := get_time s3
          virtual_page_number := vpn
          physical_page_number := pa_from_l2 >>> cfg.PAGE_SIZE_BITS } }
  ((((slot s4.tlb_l2 j).physical_page_number <<< cfg.PAGE_SIZE_BITS) % WORD) ||| offset, s4)

/-- The expression `pa & ~PAGE_OFFSET_MASK`, on 64 bits. -/
def page_align (cfg : config) (pa : Nat) : Nat :=
  pa &&& ((WORD - 1) ^^^ PAGE_OFFSET_MASK cfg)

/-- The write-back statement of the double-miss branch:
`if (flag == TLB_L2_SIZE && OP_IS_WRITE(op)) { ... dram_access(evicted_pa, OP_WRITE); }`. -/
def write_back (cfg : config) (c : collaborators) (op : op_t) (pfn_number : Nat)
    (s : tlb_state) : tlb_state :=
  if decide (s.flag = (cfg.TLB_L2_SIZE : Int)) && OP_IS_WRITE op then
    let evicted_pfn := (pfn_number + WORD - cfg.TLB_L2_SIZE % WORD) % WORD
    let evicted_pa := (evicted_pfn <<< cfg.PAGE_SIZE_BITS) % WORD
    call_dram c evicted_pa op_t.OP_WRITE s
  else s

/-- The double-miss branch of `tlb_translate`. -/
def translate_miss (cfg : config) (c : collaborators) (virtual_address vpn : Nat) (op : op_t)
    (s : tlb_state) : Nat × tlb_state :=
  let r := call_page_table c virtual_address op s
  let pa := r.1
  let s1 := r.2
  let page_aligned_pa := page_align cfg pa
  let pfn_number := page_aligned_pa >>> cfg.PAGE_SIZE_BITS
  let s2 := insert_entry cfg level.L2 vpn page_aligned_pa op s1
  let s3 := write_back cfg c op pfn_number s2
  let s4 := insert_entry cfg level.L1 vpn page_aligned_pa op s3
  (pa, { s4 with flag := 1 })

/-- The source's `tlb_translate`: the returned physical address and the state
left behind. -/
def tlb_translate (cfg : config) (c : collaborators) (virtual_address : Nat) (op : op_t)
    (s : tlb_state) : Nat × tlb_state :=
  let vpn := virtual_address >>> cfg.PAGE_SIZE_BITS
  let offset := virtual_address &&& PAGE_OFFSET_MASK cfg
  let s1 := increment_time cfg.TLB_L1_LATENCY_NS s
  match find_entry s1.tlb_l1 cfg.TLB_L1_SIZE vpn with
  | some i => translate_l1_hit cfg vpn offset op i s1
  | none =>
    let s2 := { s1 with tlb_l1_misses := (s1.tlb_l1_misses + 1) % WORD }
    let s3 := increment_time cfg.TLB_L2_LATENCY_NS s2
    match find_entry s3.tlb_l2 cfg.TLB_L2_SIZE vpn with
    | some j => translate_l2_hit cfg vpn offset op j s3
    | none =>
      translate_miss cfg c virtual_address vpn op
        { s3 with tlb_l2_misses := (s3.tlb_l2_misses + 1) % WORD }

/-! ## Predicates used in the statements -/

/-- The slot at index `i` is valid and holds `vpn`. -/
def matches_vpn (tlb : List tlb_entry_t) (vpn : Nat) (i : Nat) : Prop :=
  (slot tlb i).valid = true ∧ (slot tlb i).virtual_page_number = vpn

instance (tlb : List tlb_entry_t) (vpn i : Nat) : Decidable (matches_vpn tlb vpn i) := by
  unfold matches_vpn
  infer_instance

/-- Two arrays agree on the valid flag and the page number of every slot. -/
def same_tags (a b : List tlb_entry_t) : Prop :=
  ∀ m, (slot a m).valid = (slot b m).valid ∧
    (slot a m).virtual_page_number = (slot b m).virtual_page_number

/-- Every slot of the level is valid: the level is at full capacity. -/
def is_full (tlb : List tlb_entry_t) (size : Nat) : Prop :=
  ∀ i, i < size → (slot tlb i).valid = true

instance (tlb : List tlb_entry_t) (size : Nat) : Decidable (is_full tlb size) := by
  unfold is_full
  infer_instance

/-- The entry `tlb_invalidate` leaves in a slot it clears. -/
def cleared (e : tlb_entry_t) : tlb_entry_t :=
  { e with dirty := false, valid := false }

/-- Number of slots below `size` that are valid and hold `vpn`. -/
def matching_slots (tlb : List tlb_entry_t) (size vpn : Nat) : Nat :=
  ((List.range size).filter (fun i => decide (matches_vpn tlb vpn i))).length

/-- No two distinct slots of the array are both valid with the same page number:
two valid slots that hold the same page number are the same slot. -/
def unique_vpn (tlb : List tlb_entry_t) : Prop :=
  ∀ i, i < tlb.length → ∀ j, j < tlb.length →
    (slot tlb i).valid = true → (slot tlb j).valid = true →
    (slot tlb i).virtual_page_number = (slot tlb j).virtual_page_number → i = j

instance (tlb : List tlb_entry_t) : Decidable (unique_vpn tlb) := by
  unfold unique_vpn
  infer_instance

/-- Every valid slot of `b` is a valid slot of `a` with the same page number. -/
def shrinks (a b : List tlb_entry_t) : Prop :=
  ∀ m, (slot b m).valid = true →
    (slot a m).valid = true ∧ (slot b m).virtual_page_number = (slot a m).virtual_page_number

/-- The invariant behind uniqueness: the arrays have their declared sizes and
page numbers are unique in each. -/
def tlb_inv (cfg : config) (s : tlb_state) : Prop :=
  s.tlb_l1.length = cfg.TLB_L1_SIZE ∧ s.tlb_l2.length = cfg.TLB_L2_SIZE ∧
    unique_vpn s.tlb_l1 ∧ unique_vpn s.tlb_l2

/-- The level holds a valid entry for `vpn` with frame number `F`: some slot
below `size` is valid and holds `vpn`, and the valid slots that hold `vpn` have
frame number `F`. -/
def holds_entry (tlb : List tlb_entry_t) (size vpn F : Nat) : Prop :=
  (∃ i, i < size ∧ matches_vpn tlb vpn i) ∧
    ∀ i, i < size → matches_vpn tlb vpn i → (slot tlb i).physical_page_number = F

instance (tlb : List tlb_entry_t) (size vpn F : Nat) : Decidable (holds_entry tlb size vpn F) := by
  unfold holds_entry
  infer_instance

/-- The level holds no valid entry for `vpn`. -/
def holds_none (tlb : List tlb_entry_t) (size vpn : Nat) : Prop :=
  ∀ i, i < size → ¬ matches_vpn tlb vpn i

instance (tlb : List tlb_entry_t) (size vpn : Nat) : Decidable (holds_none tlb size vpn) := by
  unfold holds_none
  infer_instance

/-- Every frame number held in the array is that of a 64-bit physical address:
shifted left by the page-size bit width it stays below `2 ^ 64`. -/
def frames_fit (cfg : config) (tlb : List tlb_entry_t) : Prop :=
  ∀ m, (slot tlb m).physical_page_number <<< cfg.PAGE_SIZE_BITS < WORD

/-- Cross-level coherence of two arrays: a valid slot of the first and a valid
slot of the second that hold the same page number have the same frame number
and the same dirty flag. -/
def coherent (l1 l2 : List tlb_entry_t) : Prop :=
  ∀ i j, (slot l1 i).valid = true → (slot l2 j).valid = true →
    (slot l1 i).virtual_page_number = (slot l2 j).virtual_page_number →
    (slot l1 i).physical_page_number = (slot l2 j).physical_page_number ∧
      (slot l1 i).dirty = (slot l2 j).dirty

/-- The states the program can be in: `tlb_init` run from any state, followed by
any number of `tlb_translate` and `tlb_invalidate` calls, the collaborators
answering each call in any way. -/
inductive reachable (cfg : config) : tlb_state → Prop where
  | init (s : tlb_state) : reachable cfg (tlb_init cfg s)
  | translate (c : collaborators) (virtual_address : Nat) (op : op_t) (s : tlb_state) :
      reachable cfg s → reachable cfg (tlb_translate cfg c virtual_address op s).2
  | invalidate (virtual_page_number : Nat) (s : tlb_state) :
      reachable cfg s → reachable cfg (tlb_invalidate cfg virtual_page_number s)

/-- The value of `flag` after its `int` value `flag` has gone through `k`
executions of `flag += 1`. -/
def flag_after (k : Nat) (flag : Int) : Int :=
  if k = 0 then flag else int_wrap (flag + k)

/-- The value of a `uint64_t` counter after its value `count` has gone through
`k` executions of `++`. -/
def counter_after (k : Nat) (count : Nat) : Nat :=
  if k = 0 then count else (count + k) % WORD

/-! ## States between the lookups of `tlb_translate` -/

/-- The state in which the L2 lookup of `tlb_translate` runs. -/
def after_l1_miss (cfg : config) (s : tlb_state) : tlb_state :=
  increment_time cfg.TLB_L2_LATENCY_NS
    { increment_time cfg.TLB_L1_LATENCY_NS s with tlb_l1_misses := (s.tlb_l1_misses + 1) % WORD }

/-- The state in which the page-table fallback of `tlb_translate` runs. -/
def after_l2_miss (cfg : config) (s : tlb_state) : tlb_state :=
  { after_l1_miss cfg s with tlb_l2_misses := (s.tlb_l2_misses + 1) % WORD }

/-- The state of a double miss after `insert_entry(tlb_l2, ...)`. -/
def miss_l2_installed (cfg : config) (c : collaborators) (va vpn : Nat) (op : op_t)
    (s : tlb_state) : tlb_state :=
  insert_entry cfg level.L2 vpn (page_align cfg (c.page_table_translate va op)) op
    (call_page_table c va op s).2

/-- The state of a double miss after the write-back statement. -/
def miss_written_back (cfg : config) (c : collaborators) (va vpn : Nat) (op : op_t)
    (s : tlb_state) : tlb_state :=
  write_back cfg c op (page_align cfg (c.page_table_translate va op) >>> cfg.PAGE_SIZE_BITS)
    (miss_l2_installed cfg c va vpn op s)

/-- The state in which the L2-hit branch calls `evict_entry(tlb_l1, ...)`: the
hit counted and the L2 entry at index `j` touched. -/
def l2_hit_touched (op : op_t) (j : Nat) (s : tlb_state) : tlb_state :=
  { s with tlb_l2_hits := (s.tlb_l2_hits + 1) % WORD, tlb_l2 := touch s.tlb_l2 j s.time op }

/-! ## Sequences of operations -/

/-- One call made by the user of the TLB, with the collaborators' behaviour
during that call. -/
inductive operation where
  | translate (c : collaborators) (virtual_address : Nat) (op : op_t)
  | invalidate (virtual_page_number : Nat)

/-- The state after one operation. -/
def step (cfg : config) (o : operation) (s : tlb_state) : tlb_state :=
  match o with
  | operation.translate c virtual_address op => (tlb_translate cfg c virtual_address op s).2
  | operation.invalidate virtual_page_number => tlb_invalidate cfg virtual_page_number s

/-- The state after a sequence of operations, the first of the list first. -/
def run (cfg : config) : List operation → tlb_state → tlb_state
  | [], s => s
  | o :: os, s => run cfg os (step cfg o s)

/-! ## Counters -/

/-- The six statistics counters, in the order L1 hits, L1 misses, L1
invalidations, L2 hits, L2 misses, L2 invalidations. -/
def counters (s : tlb_state) : List Nat :=
  [get_total_tlb_l1_hits s, get_total_tlb_l1_misses s, get_total_tlb_l1_invalidations s,
   get_total_tlb_l2_hits s, get_total_tlb_l2_misses s, get_total_tlb_l2_invalidations s]

/-- Every counter of `t` is at least the same counter of `s`. -/
def counters_le (s t : tlb_state) : Prop :=
  s.tlb_l1_hits ≤ t.tlb_l1_hits ∧ s.tlb_l1_misses ≤ t.tlb_l1_misses ∧
  s.tlb_l1_invalidations ≤ t.tlb_l1_invalidations ∧
  s.tlb_l2_hits ≤ t.tlb_l2_hits ∧ s.tlb_l2_misses ≤ t.tlb_l2_misses ∧
  s.tlb_l2_invalidations ≤ t.tlb_l2_invalidations

/-- The most events one call can count on one counter: one hit or miss, or one
invalidation per slot of a level. -/
def max_events (cfg : config) : Nat :=
  max 1 (max cfg.TLB_L1_SIZE cfg.TLB_L2_SIZE)

/-- Every counter of `s` can count `n` more events before the `uint64_t` wraps. -/
def counters_room (n : Nat) (s : tlb_state) : Prop :=
  s.tlb_l1_hits + n < WORD ∧ s.tlb_l1_misses + n < WORD ∧
  s.tlb_l1_invalidations + n < WORD ∧
  s.tlb_l2_hits + n < WORD ∧ s.tlb_l2_misses + n < WORD ∧
  s.tlb_l2_invalidations + n < WORD

instance (n : Nat) (s : tlb_state) : Decidable (counters_room n s) := by
  unfold counters_room
  infer_instance

instance (s t : tlb_state) : Decidable (counters_le s t) := by
  unfold counters_le
  infer_instance

/-- The counters hold `uint64_t` values and `flag` holds an `int` value. -/
def machine_values (s : tlb_state) : Prop :=
  (s.tlb_l1_hits < WORD ∧ s.tlb_l1_misses < WORD ∧ s.tlb_l1_invalidations < WORD ∧
    s.tlb_l2_hits < WORD ∧ s.tlb_l2_misses < WORD ∧ s.tlb_l2_invalidations < WORD) ∧
  -(2 ^ 31) ≤ s.flag ∧ s.flag < 2 ^ 31

/-! ## Example configuration and states -/

/-- A configuration with two L1 slots, four L2 slots and 4 KiB pages. -/
def example_config : config :=
  { TLB_L1_SIZE := 2, TLB_L2_SIZE := 4, TLB_L1_LATENCY_NS := 1, TLB_L2_LATENCY_NS := 2,
    PAGE_SIZE_BITS := 12 }

/-- Collaborators whose page table maps page `n` to frame `n + 16`, keeping the
page offset, and whose calls take 100 ns (page table) and 50 ns (DRAM). -/
def example_collaborators : collaborators :=
  { page_table_translate := fun va _ => va + 0x10000
    page_table_clock := fun _ _ t => t + 100
    dram_clock := fun _ _ t => t + 50 }

/-- Collaborators whose page table answers every request with the start of
frame 5, whatever the page offset of the request. -/
def frame_start_collaborators : collaborators :=
  { page_table_translate := fun _ _ => 0x5000
    page_table_clock := fun _ _ t => t
    dram_clock := fun _ _ t => t }

/-- A state before `tlb_init`: empty arrays, arbitrary counters. -/
def example_boot : tlb_state :=
  { tlb_l1 := [], tlb_l2 := [], tlb_l1_hits := 7, tlb_l1_misses := 7, tlb_l1_invalidations := 7,
    tlb_l2_hits := 7, tlb_l2_misses := 7, tlb_l2_invalidations := 7, flag := 9, time := 0,
    calls := [] }

/-- The state after `tlb_init` and one read of address `0x1234`: page 1 is in
both levels, with frame 17. -/
def example_warm : tlb_state :=
  (tlb_translate example_config example_collaborators 0x1234 op_t.OP_READ
    (tlb_init example_config example_boot)).2

/-- A state with a full L1 whose least recently used entry (slot 0, page 1) is
dirty, and an L2 that holds page 1 clean in slot 1. -/
def example_full : tlb_state :=
  { tlb_l1 :=
      [{ valid := true, dirty := true, last_access := 3, virtual_page_number := 1,
         physical_page_number := 17 },
       { valid := true, dirty := false, last_access := 5, virtual_page_number := 2,
         physical_page_number := 18 }]
    tlb_l2 :=
      [{ valid := true, dirty := false, last_access := 5, virtual_page_number := 2,
         physical_page_number := 18 },
       { valid := true, dirty := false, last_access := 3, virtual_page_number := 1,
         physical_page_number := 17 },
       zero_entry, zero_entry]
    tlb_l1_hits := 0, tlb_l1_misses := 2, tlb_l1_invalidations := 0
    tlb_l2_hits := 0, tlb_l2_misses := 2, tlb_l2_invalidations := 0
    flag := 1, time := 6, calls := [] }

/-- A state whose L1 is empty and whose L2 holds page 1 dirty, with frame 17. -/
def example_l2_only : tlb_state :=
  { tlb_l1 := [zero_entry, zero_entry]
    tlb_l2 :=
      [{ valid := true, dirty := true, last_access := 3, virtual_page_number := 1,
         physical_page_number := 17 },
       zero_entry, zero_entry, zero_entry]
    tlb_l1_hits := 0, tlb_l1_misses := 1, tlb_l1_invalidations := 1
    tlb_l2_hits := 0, tlb_l2_misses := 1, tlb_l2_invalidations := 0
    flag := 1, time := 6, calls := [] }

/-- The state `example_warm` with the L1 hit counter at `UINT64_MAX`, the
largest value of a `uint64_t`. -/
def example_saturated : tlb_state :=
  { example_warm with tlb_l1_hits := 2 ^ 64 - 1 }

/-- The state `example_full` with `flag` at `INT_MAX`, the largest value of an
`int`. -/
def example_flag_max : tlb_state :=
  { example_full with flag := 2 ^ 31 - 1 }

/-- The state after `tlb_init` and reads of pages 3, 4, 1 and 2, four double
misses: L2 is full with the four pages, L1 holds pages 1 and 2, page 1 being
the least recently used, and `flag` is 1. -/
def example_cycle_start : tlb_state :=
  run example_config
    [operation.translate example_collaborators 0x3000 op_t.OP_READ,
     operation.translate example_collaborators 0x4000 op_t.OP_READ,
     operation.translate example_collaborators 0x1000 op_t.OP_READ,
     operation.translate example_collaborators 0x2000 op_t.OP_READ]
    (tlb_init example_config example_boot)

/-! ## Double misses in a sequence of operations -/

/-- The translation of `virtual_address` in state `s` is a double miss: neither
level holds a valid entry for its page. -/
def double_miss (cfg : config) (virtual_address : Nat) (s : tlb_state) : Prop :=
  holds_none s.tlb_l1 cfg.TLB_L1_SIZE (virtual_address >>> cfg.PAGE_SIZE_BITS) ∧
    holds_none s.tlb_l2 cfg.TLB_L2_SIZE (virtual_address >>> cfg.PAGE_SIZE_BITS)

instance (cfg : config) (virtual_address : Nat) (s : tlb_state) :
    Decidable (double_miss cfg virtual_address s) := by
  unfold double_miss
  infer_instance

/-- The operation is a translation that double-misses in state `s`. -/
def is_double_miss (cfg : config) (o : operation) (s : tlb_state) : Prop :=
  match o with
  | operation.translate _ virtual_address _ => double_miss cfg virtual_address s
  | operation.invalidate _ => False

/-- No operation of the sequence, run from `s`, is a double miss: `flag` is
not reset along the way. -/
def no_double_miss (cfg : config) : List operation → tlb_state → Prop
  | [], _ => True
  | o :: os, s => ¬ is_double_miss cfg o s ∧ no_double_miss cfg os (step cfg o s)

/-! ## Inclusion of L1 in L2 -/

/-- Number of invalid slots of an array. -/
def free_count (tlb : List tlb_entry_t) : Nat :=
  tlb.countP (fun e => !e.valid)

/-- The page read at step `k` of the cycle 1, 2, 3, 1, 2, 3, ... -/
def cycle_page (k : Nat) : Nat :=
  k % 3 + 1

/-- The address read at step `k` of the cycle: the start of page `cycle_page k`
for 4 KiB pages. -/
def cycle_va (k : Nat) : Nat :=
  cycle_page k <<< 12

/-- The `n` reads of the cycle from step `k` on. -/
def promotions : Nat → Nat → List operation
  | _, 0 => []
  | k, n + 1 =>
    operation.translate example_collaborators (cycle_va k) op_t.OP_READ :: promotions (k + 1) n

/-- The states met along the cycle under `example_config`, before step `k + 2`:
L2 is full and holds pages 1, 2 and 3 but not page 9; L1 holds the pages of
steps `k + 1` and `k`, the page of step `k` being the least recently used. -/
def cycle_inv (k : Nat) (s : tlb_state) : Prop :=
  tlb_inv example_config s ∧
  is_full s.tlb_l2 example_config.TLB_L2_SIZE ∧
  ¬ holds_none s.tlb_l2 example_config.TLB_L2_SIZE 1 ∧
  ¬ holds_none s.tlb_l2 example_config.TLB_L2_SIZE 2 ∧
  ¬ holds_none s.tlb_l2 example_config.TLB_L2_SIZE 3 ∧
  holds_none s.tlb_l2 example_config.TLB_L2_SIZE 9 ∧
  ∃ i, i < 2 ∧ ∃ j, j < 2 ∧ i ≠ j ∧
    matches_vpn s.tlb_l1 (cycle_page (k + 1)) i ∧ matches_vpn s.tlb_l1 (cycle_page k) j ∧
    (slot s.tlb_l1 j).last_access < (slot s.tlb_l1 i).last_access ∧
    (slot s.tlb_l1 i).last_access ≤ s.time

/-! # Theorems -/

/-! ## Reading and writing slots -/

theorem slot_set (tlb : List tlb_entry_t) (i j : Nat) (e : tlb_entry_t) :
    slot (tlb.set i e) j = if i = j ∧ i < tlb.length then e else slot tlb j := by
  unfold slot
  simp only [List.getD_eq_getElem?_getD, List.getElem?_set]
  by_cases hij : i = j
  · subst hij
    by_cases hi : i < tlb.length
    · simp [hi]
    · simp [hi, List.getElem?_eq_none (Nat.le_of_not_lt hi)]
  · simp [hij]

theorem slot_valid_lt {tlb : List tlb_entry_t} {i : Nat} (h : (slot tlb i).valid = true) :
    i < tlb.length := by
  by_contra hlt
  have : slot tlb i = zero_entry := by
    unfold slot
    exact List.getD_eq_default _ _ (Nat.le_of_not_lt hlt)
  rw [this] at h
  simp [zero_entry] at h

theorem slot_set_self {tlb : List tlb_entry_t} {i : Nat} (e : tlb_entry_t) (h : i < tlb.length) :
    slot (tlb.set i e) i = e := by
  simp [slot_set, h]

theorem slot_set_ne {tlb : List tlb_entry_t} {i j : Nat} (e : tlb_entry_t) (h : i ≠ j) :
    slot (tlb.set i e) j = slot tlb j := by
  simp [slot_set, h]

theorem slot_replicate (n i : Nat) : slot (List.replicate n zero_entry) i = zero_entry := by
  unfold slot
  by_cases h : i < n
  · rw [List.getD_eq_getElem _ _ (by simpa using h)]
    simp
  · exact List.getD_eq_default _ _ (by simpa using h)

/-! ## The scanning loop -/

theorem scan_from_some {p : Nat → Bool} {k i j : Nat} (h : scan_from p k i = some j) :
    i ≤ j ∧ j < i + k ∧ p j = true ∧ ∀ m, i ≤ m → m < j → p m = false := by
  induction k generalizing i with
  | zero => simp [scan_from] at h
  | succ k ih =>
    unfold scan_from at h
    by_cases hp : p i = true
    · simp only [hp, if_true, Option.some.injEq] at h
      subst h
      exact ⟨le_refl _, by omega, hp, fun m h1 h2 => by omega⟩
    · have hpf : p i = false := by simpa using hp
      simp only [hpf, Bool.false_eq_true, if_false] at h
      obtain ⟨h1, h2, h3, h4⟩ := ih h
      refine ⟨by omega, by omega, h3, fun m hm1 hm2 => ?_⟩
      by_cases hmi : m = i
      · subst hmi
        simpa using hp
      · exact h4 m (by omega) hm2

theorem scan_from_none {p : Nat → Bool} {k i : Nat} :
    scan_from p k i = none ↔ ∀ m, i ≤ m → m < i + k → p m = false := by
  induction k generalizing i with
  | zero =>
    simp only [scan_from, true_iff]
    intro m h1 h2
    omega
  | succ k ih =>
    unfold scan_from
    by_cases hp : p i = true
    · simp only [hp, if_true]
      constructor
      · intro h
        cases h
      · intro h
        have := h i (le_refl _) (by omega)
        rw [hp] at this
        cases this
    · have hpf : p i = false := by simpa using hp
      simp only [hpf, Bool.false_eq_true, if_false]
      rw [ih]
      constructor
      · intro h m h1 h2
        by_cases hmi : m = i
        · subst hmi
          simpa using hp
        · exact h m (by omega) (by omega)
      · intro h m h1 h2
        exact h m (by omega) (by omega)

theorem scan_from_first {p : Nat → Bool} {k i j : Nat} (h1 : i ≤ j) (h2 : j < i + k)
    (h3 : p j = true) (h4 : ∀ m, i ≤ m → m < j → p m = false) : scan_from p k i = some j := by
  cases hs : scan_from p k i with
  | none =>
    have := (scan_from_none.mp hs) j h1 h2
    rw [h3] at this
    cases this
  | some j' =>
    obtain ⟨a1, a2, a3, a4⟩ := scan_from_some hs
    rcases Nat.lt_trichotomy j j' with hlt | heq | hgt
    · have := a4 j h1 hlt
      rw [h3] at this
      cases this
    · rw [heq]
    · have := h4 j' a1 hgt
      rw [a3] at this
      cases this

theorem scan_from_congr {p q : Nat → Bool} {k i : Nat}
    (h : ∀ m, i ≤ m → m < i + k → p m = q m) : scan_from p k i = scan_from q k i := by
  induction k generalizing i with
  | zero => rfl
  | succ k ih =>
    unfold scan_from
    rw [h i (le_refl _) (by omega), ih (fun m h1 h2 => h m (by omega) (by omega))]

/-! ## Lookup -/

theorem find_entry_some {tlb : List tlb_entry_t} {size vpn i : Nat}
    (h : find_entry tlb size vpn = some i) :
    i < size ∧ matches_vpn tlb vpn i ∧ ∀ m, m < i → ¬ matches_vpn tlb vpn m := by
  obtain ⟨_, h2, h3, h4⟩ := scan_from_some h
  refine ⟨by omega, by simpa [matches_vpn] using h3, fun m hm hmm => ?_⟩
  have := h4 m (Nat.zero_le _) hm
  simp only [matches_vpn] at hmm
  simp [hmm.1, hmm.2] at this

theorem find_entry_none {tlb : List tlb_entry_t} {size vpn : Nat} :
    find_entry tlb size vpn = none ↔ ∀ m, m < size → ¬ matches_vpn tlb vpn m := by
  unfold find_entry
  rw [scan_from_none]
  constructor
  · intro h m hm hmm
    have := h m (Nat.zero_le _) (by omega)
    simp only [matches_vpn] at hmm
    simp [hmm.1, hmm.2] at this
  · intro h m _ hm
    have := h m (by omega)
    simp only [matches_vpn] at this
    by_cases hv : (slot tlb m).valid = true
    · have hne : ¬ (slot tlb m).virtual_page_number = vpn := fun he => this ⟨hv, he⟩
      simp [hne]
    · simp [hv]

theorem find_entry_first {tlb : List tlb_entry_t} {size vpn i : Nat} (h1 : i < size)
    (h2 : matches_vpn tlb vpn i) (h3 : ∀ m, m < i → ¬ matches_vpn tlb vpn m) :
    find_entry tlb size vpn = some i := by
  unfold find_entry
  apply scan_from_first (Nat.zero_le _) (by omega)
  · simp only [matches_vpn] at h2
    simp [h2.1, h2.2]
  · intro m _ hm
    have := h3 m hm
    simp only [matches_vpn] at this
    by_cases hv : (slot tlb m).valid = true
    · have hne : ¬ (slot tlb m).virtual_page_number = vpn := fun he => this ⟨hv, he⟩
      simp [hne]
    · simp [hv]

theorem find_entry_same_tags {a b : List tlb_entry_t} (h : same_tags a b) (size vpn : Nat) :
    find_entry a size vpn = find_entry b size vpn := by
  unfold find_entry
  apply scan_from_congr
  intro m _ _
  rw [(h m).1, (h m).2]

/-! ## Arithmetic of `int` -/

theorem int_wrap_of_range {x : Int} (h1 : -(2 ^ 31) ≤ x) (h2 : x < 2 ^ 31) : int_wrap x = x := by
  unfold int_wrap
  rw [Int.emod_eq_of_lt (by omega) (by omega)]
  omega

theorem int_wrap_range (x : Int) : -(2 ^ 31) ≤ int_wrap x ∧ int_wrap x < 2 ^ 31 := by
  unfold int_wrap
  have h1 := Int.emod_nonneg (x + 2 ^ 31) (show (2 ^ 32 : Int) ≠ 0 by norm_num)
  have h2 := Int.emod_lt_of_pos (x + 2 ^ 31) (show (0 : Int) < 2 ^ 32 by norm_num)
  constructor <;> omega

theorem int_wrap_add (x y : Int) : int_wrap (int_wrap x + y) = int_wrap (x + y) := by
  unfold int_wrap
  congr 1
  rw [show (x + 2 ^ 31) % 2 ^ 32 - 2 ^ 31 + y + 2 ^ 31 = (x + 2 ^ 31) % 2 ^ 32 + y by ring,
    show x + y + 2 ^ 31 = (x + 2 ^ 31) + y by ring, Int.emod_add_cancel_right]
  exact Int.emod_emod_of_dvd _ (dvd_refl _)

theorem flag_after_zero (flag : Int) : flag_after 0 flag = flag := rfl

theorem flag_after_succ (k : Nat) (flag : Int) :
    flag_after k (int_wrap (flag + 1)) = flag_after (k + 1) flag := by
  unfold flag_after
  by_cases hk : k = 0
  · subst hk
    simp
  · rw [if_neg hk, if_neg (Nat.succ_ne_zero k), int_wrap_add]
    congr 1
    push_cast
    ring

/-- Without overflow, `k` steps add `k`. -/
theorem flag_after_of_range {k : Nat} {flag : Int} (h1 : -(2 ^ 31) ≤ flag)
    (h2 : flag + k < 2 ^ 31) : flag_after k flag = flag + k := by
  unfold flag_after
  by_cases hk : k = 0
  · subst hk
    simp
  · rw [if_neg hk]
    exact int_wrap_of_range (by omega) h2

theorem counter_after_zero (count : Nat) : counter_after 0 count = count := rfl

theorem counter_after_one (count : Nat) : counter_after 1 count = (count + 1) % WORD := rfl

theorem counter_after_succ (k : Nat) (count : Nat) :
    counter_after k ((count + 1) % WORD) = counter_after (k + 1) count := by
  unfold counter_after
  by_cases hk : k = 0
  · subst hk
    simp
  · rw [if_neg hk, if_neg (Nat.succ_ne_zero k), Nat.add_mod, Nat.mod_mod, ← Nat.add_mod]
    congr 1
    omega

/-- Without overflow, `k` increments add `k`. -/
theorem counter_after_of_lt {k count : Nat} (h : count + k < WORD) :
    counter_after k count = count + k := by
  unfold counter_after
  by_cases hk : k = 0
  · subst hk
    simp
  · rw [if_neg hk, Nat.mod_eq_of_lt h]

/-! ## Touching an entry -/

theorem touch_length (tlb : List tlb_entry_t) (i now : Nat) (op : op_t) :
    (touch tlb i now op).length = tlb.length := by
  unfold touch
  split <;> simp

theorem slot_touch (tlb : List tlb_entry_t) (i now : Nat) (op : op_t) (m : Nat) :
    slot (touch tlb i now op) m =
      if m = i ∧ i < tlb.length then
        { slot tlb i with last_access := now, dirty := (slot tlb i).dirty || OP_IS_WRITE op }
      else slot tlb m := by
  unfold touch
  by_cases hw : OP_IS_WRITE op = true
  · simp only [hw, if_true, slot_set, List.length_set]
    by_cases h : i = m ∧ i < tlb.length
    · obtain ⟨rfl, h2⟩ := h
      simp [h2]
    · have h' : ¬ (m = i ∧ i < tlb.length) := fun hh => h ⟨hh.1.symm, hh.2⟩
      simp [h, h']
  · have hw' : OP_IS_WRITE op = false := by simpa using hw
    simp only [hw', Bool.false_eq_true, if_false, slot_set, Bool.or_false]
    by_cases h : i = m ∧ i < tlb.length
    · obtain ⟨rfl, h2⟩ := h
      simp [h2]
    · have h' : ¬ (m = i ∧ i < tlb.length) := fun hh => h ⟨hh.1.symm, hh.2⟩
      simp [h, h']

theorem same_tags_touch (tlb : List tlb_entry_t) (i now : Nat) (op : op_t) :
    same_tags (touch tlb i now op) tlb := by
  intro m
  rw [slot_touch]
  split
  · rename_i h
    rw [h.1]
    exact ⟨rfl, rfl⟩
  · exact ⟨rfl, rfl⟩

/-! ## The LRU loop -/

theorem lru_scan_spec (tlb : List tlb_entry_t) (k : Nat) :
    ∀ (i idx oldest : Nat) (flag : Int), idx < i → oldest = (slot tlb idx).last_access →
      (∀ j, j < i → (slot tlb idx).last_access ≤ (slot tlb j).last_access) →
      (∀ j, j < idx → (slot tlb idx).last_access < (slot tlb j).last_access) →
      (lru_scan tlb k i idx oldest flag).1 < i + k ∧
      (∀ j, j < i + k → (slot tlb (lru_scan tlb k i idx oldest flag).1).last_access
          ≤ (slot tlb j).last_access) ∧
      (∀ j, j < (lru_scan tlb k i idx oldest flag).1 →
          (slot tlb (lru_scan tlb k i idx oldest flag).1).last_access
            < (slot tlb j).last_access) ∧
      (lru_scan tlb k i idx oldest flag).2 = flag_after k flag := by
  induction k with
  | zero =>
    intro i idx oldest flag h1 _ h3 h4
    simp only [lru_scan, Nat.add_zero, flag_after_zero, and_true]
    exact ⟨h1, h3, h4⟩
  | succ k ih =>
    intro i idx oldest flag h1 h2 h3 h4
    unfold lru_scan
    by_cases hlt : (slot tlb i).last_access < oldest
    · simp only [hlt, if_true]
      have := ih (i + 1) i (slot tlb i).last_access (int_wrap (flag + 1)) (by omega) rfl
        (fun j hj => by
          by_cases hji : j = i
          · rw [hji]
          · have := h3 j (by omega)
            omega)
        (fun j hj => by
          have := h3 j hj
          omega)
      obtain ⟨a, b, c, d⟩ := this
      refine ⟨by omega, fun j hj => b j (by omega), c, ?_⟩
      rw [d, flag_after_succ]
    · simp only [hlt, if_false]
      have := ih (i + 1) idx oldest (int_wrap (flag + 1)) (by omega) h2
        (fun j hj => by
          by_cases hji : j = i
          · rw [hji]
            omega
          · exact h3 j (by omega))
        h4
      obtain ⟨a, b, c, d⟩ := this
      refine ⟨by omega, fun j hj => b j (by omega), c, ?_⟩
      rw [d, flag_after_succ]

/-- The LRU loop as `evict_entry` starts it, on a level of positive size. -/
theorem lru_scan_start (tlb : List tlb_entry_t) (size : Nat) (flag : Int) (h : 0 < size) :
    (lru_scan tlb (size - 1) 1 0 (slot tlb 0).last_access flag).1 < size ∧
    (∀ j, j < size → (slot tlb (lru_scan tlb (size - 1) 1 0 (slot tlb 0).last_access flag).1).last_access
        ≤ (slot tlb j).last_access) ∧
    (∀ j, j < (lru_scan tlb (size - 1) 1 0 (slot tlb 0).last_access flag).1 →
        (slot tlb (lru_scan tlb (size - 1) 1 0 (slot tlb 0).last_access flag).1).last_access
          < (slot tlb j).last_access) ∧
    (lru_scan tlb (size - 1) 1 0 (slot tlb 0).last_access flag).2 = flag_after (size - 1) flag := by
  have := lru_scan_spec tlb (size - 1) 1 0 (slot tlb 0).last_access flag (by omega) rfl
    (fun j hj => by
      have : j = 0 := by omega
      rw [this])
    (fun j hj => by omega)
  obtain ⟨a, b, c, d⟩ := this
  have e : 1 + (size - 1) = size := by omega
  rw [e] at a b
  exact ⟨a, b, c, d⟩

/-! ## Eviction -/

theorem first_free_none {tlb : List tlb_entry_t} {size : Nat} :
    scan_from (fun i => !(slot tlb i).valid) size 0 = none ↔ is_full tlb size := by
  rw [scan_from_none]
  unfold is_full
  constructor
  · intro h i hi
    have := h i (Nat.zero_le _) (by omega)
    simpa using this
  · intro h m _ hm
    have := h m (by omega)
    simp [this]

theorem first_free_some {tlb : List tlb_entry_t} {size i : Nat}
    (h : scan_from (fun i => !(slot tlb i).valid) size 0 = some i) :
    i < size ∧ (slot tlb i).valid = false ∧ ∀ m, m < i → (slot tlb m).valid = true := by
  obtain ⟨_, h2, h3, h4⟩ := scan_from_some h
  refine ⟨by omega, by simpa using h3, fun m hm => ?_⟩
  have := h4 m (Nat.zero_le _) hm
  simpa using this

@[simp] theorem propagate_dirty_tlb_l1 (cfg : config) (lvl : level) (v : tlb_entry_t) (s : tlb_state) :
    (propagate_dirty cfg lvl v s).tlb_l1 = s.tlb_l1 := by
  unfold propagate_dirty
  split
  · split
    · split <;> rfl
    · rfl
  · rfl

@[simp] theorem propagate_dirty_tlb_l1_hits (cfg : config) (lvl : level) (v : tlb_entry_t) (s : tlb_state) :
    (propagate_dirty cfg lvl v s).tlb_l1_hits = s.tlb_l1_hits := by
  unfold propagate_dirty
  split
  · split
    · split <;> rfl
    · rfl
  · rfl

@[simp] theorem propagate_dirty_tlb_l1_misses (cfg : config) (lvl : level) (v : tlb_entry_t) (s : tlb_state) :
    (propagate_dirty cfg lvl v s).tlb_l1_misses = s.tlb_l1_misses := by
  unfold propagate_dirty
  split
  · split
    · split <;> rfl
    · rfl
  · rfl

@[simp] theorem propagate_dirty_tlb_l1_invalidations (cfg : config) (lvl : level) (v : tlb_entry_t) (s : tlb_state) :
    (propagate_dirty cfg lvl v s).tlb_l1_invalidations = s.tlb_l1_invalidations := by
  unfold propagate_dirty
  split
  · split
    · split <;> rfl
    · rfl
  · rfl

@[simp] theorem propagate_dirty_tlb_l2_hits (cfg : config) (lvl : level) (v : tlb_entry_t) (s : tlb_state) :
    (propagate_dirty cfg lvl v s).tlb_l2_hits = s.tlb_l2_hits := by
  unfold propagate_dirty
  split
  · split
    · split <;> rfl
    · rfl
  · rfl

@[simp] theorem propagate_dirty_tlb_l2_misses (cfg : config) (lvl : level) (v : tlb_entry_t) (s : tlb_state) :
    (propagate_dirty cfg lvl v s).tlb_l2_misses = s.tlb_l2_misses := by
  unfold propagate_dirty
  split
  · split
    · split <;> rfl
    · rfl
  · rfl

@[simp] theorem propagate_dirty_tlb_l2_invalidations (cfg : config) (lvl : level) (v : tlb_entry_t) (s : tlb_state) :
    (propagate_dirty cfg lvl v s).tlb_l2_invalidations = s.tlb_l2_invalidations := by
  unfold propagate_dirty
  split
  · split
    · split <;> rfl
    · rfl
  · rfl

@[simp] theorem propagate_dirty_flag (cfg : config) (lvl : level) (v : tlb_entry_t) (s : tlb_state) :
    (propagate_dirty cfg lvl v s).flag = s.flag := by
  unfold propagate_dirty
  split
  · split
    · split <;> rfl
    · rfl
  · rfl

@[simp] theorem propagate_dirty_time (cfg : config) (lvl : level) (v : tlb_entry_t) (s : tlb_state) :
    (propagate_dirty cfg lvl v s).time = s.time := by
  unfold propagate_dirty
  split
  · split
    · split <;> rfl
    · rfl
  · rfl

@[simp] theorem propagate_dirty_calls (cfg : config) (lvl : level) (v : tlb_entry_t) (s : tlb_state) :
    (propagate_dirty cfg lvl v s).calls = s.calls := by
  unfold propagate_dirty
  split
  · split
    · split <;> rfl
    · rfl
  · rfl

@[simp] theorem propagate_dirty_length (cfg : config) (lvl : level) (v : tlb_entry_t) (s : tlb_state) :
    (propagate_dirty cfg lvl v s).tlb_l2.length = s.tlb_l2.length := by
  unfold propagate_dirty
  split
  · split
    · split <;> simp
    · rfl
  · rfl

theorem propagate_dirty_L2 (cfg : config) (v : tlb_entry_t) (s : tlb_state) :
    propagate_dirty cfg level.L2 v s = s := by
  simp [propagate_dirty]

theorem propagate_dirty_slot (cfg : config) (v : tlb_entry_t) (s : tlb_state) (m : Nat) :
    slot (propagate_dirty cfg level.L1 v s).tlb_l2 m =
      if v.valid = true ∧ v.dirty = true ∧
          find_entry s.tlb_l2 cfg.TLB_L2_SIZE v.virtual_page_number = some m then
        { slot s.tlb_l2 m with dirty := true }
      else slot s.tlb_l2 m := by
  unfold propagate_dirty
  by_cases hv : v.valid = true
  · by_cases hd : v.dirty = true
    · simp only [hv, hd, decide_True, Bool.and_self, if_true, true_and]
      cases hf : find_entry s.tlb_l2 cfg.TLB_L2_SIZE v.virtual_page_number with
      | none => simp
      | some j =>
        have hj := slot_valid_lt (find_entry_some hf).2.1.1
        simp only [slot_set, hj, and_true, Option.some.injEq]
        by_cases hjm : j = m
        · subst hjm
          simp
        · simp [hjm]
    · simp [hv, hd]
  · simp [hv]

theorem evict_entry_free {cfg : config} {lvl : level} {s : tlb_state} {i : Nat}
    (h : scan_from (fun i => !(slot (level_array lvl s) i).valid) (level_size cfg lvl) 0 = some i) :
    evict_entry cfg lvl s = (i, s) := by
  simp [evict_entry, h]

theorem level_array_set (lvl : level) (s : tlb_state) (tlb : List tlb_entry_t) :
    level_array lvl (set_level_array lvl s tlb) = tlb := by
  cases lvl <;> rfl

@[simp] theorem evict_entry_tlb_l1_hits (cfg : config) (lvl : level) (s : tlb_state) :
    (evict_entry cfg lvl s).2.tlb_l1_hits = s.tlb_l1_hits := by
  unfold evict_entry
  simp only
  split
  · rfl
  · cases lvl <;> simp [set_level_array]

@[simp] theorem evict_entry_tlb_l1_misses (cfg : config) (lvl : level) (s : tlb_state) :
    (evict_entry cfg lvl s).2.tlb_l1_misses = s.tlb_l1_misses := by
  unfold evict_entry
  simp only
  split
  · rfl
  · cases lvl <;> simp [set_level_array]

@[simp] theorem evict_entry_tlb_l1_invalidations (cfg : config) (lvl : level) (s : tlb_state) :
    (evict_entry cfg lvl s).2.tlb_l1_invalidations = s.tlb_l1_invalidations := by
  unfold evict_entry
  simp only
  split
  · rfl
  · cases lvl <;> simp [set_level_array]

@[simp] theorem evict_entry_tlb_l2_hits (cfg : config) (lvl : level) (s : tlb_state) :
    (evict_entry cfg lvl s).2.tlb_l2_hits = s.tlb_l2_hits := by
  unfold evict_entry
  simp only
  split
  · rfl
  · cases lvl <;> simp [set_level_array]

@[simp] theorem evict_entry_tlb_l2_misses (cfg : config) (lvl : level) (s : tlb_state) :
    (evict_entry cfg lvl s).2.tlb_l2_misses = s.tlb_l2_misses := by
  unfold evict_entry
  simp only
  split
  · rfl
  · cases lvl <;> simp [set_level_array]

@[simp] theorem evict_entry_tlb_l2_invalidations (cfg : config) (lvl : level) (s : tlb_state) :
    (evict_entry cfg lvl s).2.tlb_l2_invalidations = s.tlb_l2_invalidations := by
  unfold evict_entry
  simp only
  split
  · rfl
  · cases lvl <;> simp [set_level_array]

@[simp] theorem evict_entry_time (cfg : config) (lvl : level) (s : tlb_state) :
    (evict_entry cfg lvl s).2.time = s.time := by
  unfold evict_entry
  simp only
  split
  · rfl
  · cases lvl <;> simp [set_level_array]

@[simp] theorem evict_entry_calls (cfg : config) (lvl : level) (s : tlb_state) :
    (evict_entry cfg lvl s).2.calls = s.calls := by
  unfold evict_entry
  simp only
  split
  · rfl
  · cases lvl <;> simp [set_level_array]

@[simp] theorem evict_entry_length_l1 (cfg : config) (lvl : level) (s : tlb_state) :
    (evict_entry cfg lvl s).2.tlb_l1.length = s.tlb_l1.length := by
  unfold evict_entry
  simp only
  split
  · rfl
  · cases lvl <;> simp [set_level_array, level_array]

@[simp] theorem evict_entry_length_l2 (cfg : config) (lvl : level) (s : tlb_state) :
    (evict_entry cfg lvl s).2.tlb_l2.length = s.tlb_l2.length := by
  unfold evict_entry
  simp only
  split
  · rfl
  · cases lvl <;> simp [set_level_array, level_array]

theorem evict_entry_of_full {cfg : config} {lvl : level} {s : tlb_state}
    (h : is_full (level_array lvl s) (level_size cfg lvl)) :
    (evict_entry cfg lvl s).1 =
      (lru_scan (level_array lvl s) (level_size cfg lvl - 1) 1 0
        (slot (level_array lvl s) 0).last_access s.flag).1 ∧
    (evict_entry cfg lvl s).2.flag = flag_after (level_size cfg lvl - 1) s.flag := by
  have hn := first_free_none.mpr h
  have hf : ∀ k i idx o (f : Int),
      (lru_scan (level_array lvl s) k i idx o f).2 = flag_after k f := by
    intro k
    induction k with
    | zero => intro i idx o f; simp [lru_scan, flag_after_zero]
    | succ k ih =>
      intro i idx o f
      unfold lru_scan
      split <;> rw [ih, flag_after_succ]
  unfold evict_entry
  simp only [hn, true_and]
  cases lvl <;> simp [set_level_array, hf]

theorem evict_entry_lt {cfg : config} {lvl : level} {s : tlb_state} (h : 0 < level_size cfg lvl) :
    (evict_entry cfg lvl s).1 < level_size cfg lvl := by
  cases hs : scan_from (fun i => !(slot (level_array lvl s) i).valid) (level_size cfg lvl) 0 with
  | some i =>
    rw [evict_entry_free hs]
    exact (first_free_some hs).1
  | none =>
    rw [(evict_entry_of_full (first_free_none.mp hs)).1]
    exact (lru_scan_start _ _ _ h).1

/-- The slots of the level `evict_entry` works on: the returned slot is invalid,
nothing else is written. -/
theorem evict_entry_slot (cfg : config) (lvl : level) (s : tlb_state) (m : Nat) :
    slot (level_array lvl (evict_entry cfg lvl s).2) m =
      if m = (evict_entry cfg lvl s).1 then { slot (level_array lvl s) m with valid := false }
      else slot (level_array lvl s) m := by
  cases hs : scan_from (fun i => !(slot (level_array lvl s) i).valid) (level_size cfg lvl) 0 with
  | some i =>
    rw [evict_entry_free hs]
    simp only
    have hi := (first_free_some hs).2.1
    by_cases hm : m = i
    · subst hm
      simp only [if_true]
      cases he : slot (level_array lvl s) m
      rw [he] at hi
      simp only at hi
      simp [hi]
    · simp [hm]
  | none =>
    unfold evict_entry
    simp only [hs]
    cases lvl
    · simp only [set_level_array, level_array, propagate_dirty_tlb_l1, slot_set]
      by_cases hm : (lru_scan s.tlb_l1 (level_size cfg level.L1 - 1) 1 0 (slot s.tlb_l1 0).last_access s.flag).1 = m
      · by_cases hl : m < s.tlb_l1.length
        · simp [hm, hl]
        · have hz : slot s.tlb_l1 m = zero_entry := by
            unfold slot
            exact List.getD_eq_default _ _ (Nat.le_of_not_lt hl)
          simp [hm, hl, hz, zero_entry]
      · have hm' : ¬ m = (lru_scan s.tlb_l1 (level_size cfg level.L1 - 1) 1 0 (slot s.tlb_l1 0).last_access s.flag).1 :=
          fun h => hm h.symm
        simp [hm, hm']
    · simp only [set_level_array, level_array, propagate_dirty_L2, slot_set]
      by_cases hm : (lru_scan s.tlb_l2 (level_size cfg level.L2 - 1) 1 0 (slot s.tlb_l2 0).last_access s.flag).1 = m
      · by_cases hl : m < s.tlb_l2.length
        · simp [hm, hl]
        · have hz : slot s.tlb_l2 m = zero_entry := by
            unfold slot
            exact List.getD_eq_default _ _ (Nat.le_of_not_lt hl)
          simp [hm, hl, hz, zero_entry]
      · have hm' : ¬ m = (lru_scan s.tlb_l2 (level_size cfg level.L2 - 1) 1 0 (slot s.tlb_l2 0).last_access s.flag).1 :=
          fun h => hm h.symm
        simp [hm, hm']

theorem evict_entry_L2_tlb_l1 (cfg : config) (s : tlb_state) :
    (evict_entry cfg level.L2 s).2.tlb_l1 = s.tlb_l1 := by
  unfold evict_entry
  simp only
  split
  · rfl
  · simp [set_level_array, propagate_dirty_L2]

/-- The L2 slots after `evict_entry` on L1: only the dirty propagation writes L2. -/
theorem evict_entry_L1_slot_l2 (cfg : config) (s : tlb_state) (m : Nat) :
    slot (evict_entry cfg level.L1 s).2.tlb_l2 m =
      if is_full s.tlb_l1 cfg.TLB_L1_SIZE ∧
          (slot s.tlb_l1 (evict_entry cfg level.L1 s).1).valid = true ∧
          (slot s.tlb_l1 (evict_entry cfg level.L1 s).1).dirty = true ∧
          find_entry s.tlb_l2 cfg.TLB_L2_SIZE
            (slot s.tlb_l1 (evict_entry cfg level.L1 s).1).virtual_page_number = some m then
        { slot s.tlb_l2 m with dirty := true }
      else slot s.tlb_l2 m := by
  cases hs : scan_from (fun i => !(slot (level_array level.L1 s) i).valid)
      (level_size cfg level.L1) 0 with
  | some i =>
    rw [evict_entry_free hs]
    have hnf : ¬ is_full s.tlb_l1 cfg.TLB_L1_SIZE := by
      intro hf
      have := first_free_none.mpr hf
      simp only [level_array, level_size] at hs
      rw [hs] at this
      cases this
    simp [hnf]
  | none =>
    have hf : is_full s.tlb_l1 cfg.TLB_L1_SIZE := first_free_none.mp hs
    unfold evict_entry
    simp only [hs]
    simp only [set_level_array, level_array, propagate_dirty_slot, hf, true_and]

/-! ## Insertion -/

@[simp] theorem insert_entry_tlb_l1_hits (cfg : config) (lvl : level) (vpn pa : Nat) (op : op_t)
    (s : tlb_state) : (insert_entry cfg lvl vpn pa op s).tlb_l1_hits = s.tlb_l1_hits := by
  cases lvl <;> simp [insert_entry, set_level_array]

@[simp] theorem insert_entry_tlb_l1_misses (cfg : config) (lvl : level) (vpn pa : Nat) (op : op_t)
    (s : tlb_state) : (insert_entry cfg lvl vpn pa op s).tlb_l1_misses = s.tlb_l1_misses := by
  cases lvl <;> simp [insert_entry, set_level_array]

@[simp] theorem insert_entry_tlb_l1_invalidations (cfg : config) (lvl : level) (vpn pa : Nat)
    (op : op_t) (s : tlb_state) :
    (insert_entry cfg lvl vpn pa op s).tlb_l1_invalidations = s.tlb_l1_invalidations := by
  cases lvl <;> simp [insert_entry, set_level_array]

@[simp] theorem insert_entry_tlb_l2_hits (cfg : config) (lvl : level) (vpn pa : Nat) (op : op_t)
    (s : tlb_state) : (insert_entry cfg lvl vpn pa op s).tlb_l2_hits = s.tlb_l2_hits := by
  cases lvl <;> simp [insert_entry, set_level_array]

@[simp] theorem insert_entry_tlb_l2_misses (cfg : config) (lvl : level) (vpn pa : Nat) (op : op_t)
    (s : tlb_state) : (insert_entry cfg lvl vpn pa op s).tlb_l2_misses = s.tlb_l2_misses := by
  cases lvl <;> simp [insert_entry, set_level_array]

@[simp] theorem insert_entry_tlb_l2_invalidations (cfg : config) (lvl : level) (vpn pa : Nat)
    (op : op_t) (s : tlb_state) :
    (insert_entry cfg lvl vpn pa op s).tlb_l2_invalidations = s.tlb_l2_invalidations := by
  cases lvl <;> simp [insert_entry, set_level_array]

@[simp] theorem insert_entry_time (cfg : config) (lvl : level) (vpn pa : Nat) (op : op_t)
    (s : tlb_state) : (insert_entry cfg lvl vpn pa op s).time = s.time := by
  cases lvl <;> simp [insert_entry, set_level_array]

@[simp] theorem insert_entry_calls (cfg : config) (lvl : level) (vpn pa : Nat) (op : op_t)
    (s : tlb_state) : (insert_entry cfg lvl vpn pa op s).calls = s.calls := by
  cases lvl <;> simp [insert_entry, set_level_array]

@[simp] theorem insert_entry_flag (cfg : config) (lvl : level) (vpn pa : Nat) (op : op_t)
    (s : tlb_state) : (insert_entry cfg lvl vpn pa op s).flag = (evict_entry cfg lvl s).2.flag := by
  cases lvl <;> simp [insert_entry, set_level_array]

@[simp] theorem insert_entry_length_l1 (cfg : config) (lvl : level) (vpn pa : Nat) (op : op_t)
    (s : tlb_state) : (insert_entry cfg lvl vpn pa op s).tlb_l1.length = s.tlb_l1.length := by
  cases lvl <;> simp [insert_entry, set_level_array, level_array]

@[simp] theorem insert_entry_length_l2 (cfg : config) (lvl : level) (vpn pa : Nat) (op : op_t)
    (s : tlb_state) : (insert_entry cfg lvl vpn pa op s).tlb_l2.length = s.tlb_l2.length := by
  cases lvl <;> simp [insert_entry, set_level_array, level_array]

theorem insert_entry_L2_tlb_l1 (cfg : config) (vpn pa : Nat) (op : op_t) (s : tlb_state) :
    (insert_entry cfg level.L2 vpn pa op s).tlb_l1 = s.tlb_l1 := by
  simp [insert_entry, set_level_array, evict_entry_L2_tlb_l1]

theorem insert_entry_L1_tlb_l2 (cfg : config) (vpn pa : Nat) (op : op_t) (s : tlb_state) :
    (insert_entry cfg level.L1 vpn pa op s).tlb_l2 = (evict_entry cfg level.L1 s).2.tlb_l2 := by
  simp [insert_entry, set_level_array]

theorem level_array_length (lvl : level) (cfg : config) (s : tlb_state) :
    (level_array lvl (evict_entry cfg lvl s).2).length = (level_array lvl s).length := by
  cases lvl <;> simp [level_array]

/-- The slots of the level `insert_entry` works on: the slot `evict_entry`
returned holds the new entry, every other slot is as before. -/
theorem insert_entry_slot (cfg : config) (lvl : level) (vpn pa : Nat) (op : op_t) (s : tlb_state)
    (m : Nat) (h : (evict_entry cfg lvl s).1 < (level_array lvl s).length) :
    slot (level_array lvl (insert_entry cfg lvl vpn pa op s)) m =
      if m = (evict_entry cfg lvl s).1 then
        { valid := true, dirty := OP_IS_WRITE op, last_access := s.time,
          virtual_page_number := vpn, physical_page_number := pa >>> cfg.PAGE_SIZE_BITS }
      else slot (level_array lvl s) m := by
  unfold insert_entry
  simp only [level_array_set, slot_set, level_array_length, h, and_true, get_time,
    evict_entry_time]
  by_cases hm : (evict_entry cfg lvl s).1 = m
  · simp [hm]
  · have hm' : ¬ m = (evict_entry cfg lvl s).1 := fun hh => hm hh.symm
    simp only [hm, hm', if_false]
    rw [evict_entry_slot]
    simp [hm']

/-! ## The write-back statement -/

@[simp] theorem write_back_tlb_l1 (cfg : config) (c : collaborators) (op : op_t) (pfn : Nat)
    (s : tlb_state) : (write_back cfg c op pfn s).tlb_l1 = s.tlb_l1 := by
  unfold write_back
  split <;> rfl

@[simp] theorem write_back_tlb_l2 (cfg : config) (c : collaborators) (op : op_t) (pfn : Nat)
    (s : tlb_state) : (write_back cfg c op pfn s).tlb_l2 = s.tlb_l2 := by
  unfold write_back
  split <;> rfl

@[simp] theorem write_back_tlb_l1_hits (cfg : config) (c : collaborators) (op : op_t) (pfn : Nat)
    (s : tlb_state) : (write_back cfg c op pfn s).tlb_l1_hits = s.tlb_l1_hits := by
  unfold write_back
  split <;> rfl

@[simp] theorem write_back_tlb_l1_misses (cfg : config) (c : collaborators) (op : op_t) (pfn : Nat)
    (s : tlb_state) : (write_back cfg c op pfn s).tlb_l1_misses = s.tlb_l1_misses := by
  unfold write_back
  split <;> rfl

@[simp] theorem write_back_tlb_l1_invalidations (cfg : config) (c : collaborators) (op : op_t) (pfn : Nat)
    (s : tlb_state) : (write_back cfg c op pfn s).tlb_l1_invalidations = s.tlb_l1_invalidations := by
  unfold write_back
  split <;> rfl

@[simp] theorem write_back_tlb_l2_hits (cfg : config) (c : collaborators) (op : op_t) (pfn : Nat)
    (s : tlb_state) : (write_back cfg c op pfn s).tlb_l2_hits = s.tlb_l2_hits := by
  unfold write_back
  split <;> rfl

@[simp] theorem write_back_tlb_l2_misses (cfg : config) (c : collaborators) (op : op_t) (pfn : Nat)
    (s : tlb_state) : (write_back cfg c op pfn s).tlb_l2_misses = s.tlb_l2_misses := by
  unfold write_back
  split <;> rfl

@[simp] theorem write_back_tlb_l2_invalidations (cfg : config) (c : collaborators) (op : op_t) (pfn : Nat)
    (s : tlb_state) : (write_back cfg c op pfn s).tlb_l2_invalidations = s.tlb_l2_invalidations := by
  unfold write_back
  split <;> rfl

@[simp] theorem write_back_flag (cfg : config) (c : collaborators) (op : op_t) (pfn : Nat)
    (s : tlb_state) : (write_back cfg c op pfn s).flag = s.flag := by
  unfold write_back
  split <;> rfl

/-! ## Invalidation -/

theorem matches_vpn_lt {tlb : List tlb_entry_t} {vpn i : Nat} (h : matches_vpn tlb vpn i) :
    i < tlb.length :=
  slot_valid_lt h.1

theorem invalidate_slot_length (tlb : List tlb_entry_t) (i : Nat) :
    (invalidate_slot tlb i).length = tlb.length := by
  unfold invalidate_slot
  split <;> simp

theorem slot_invalidate_slot (tlb : List tlb_entry_t) (i m : Nat) :
    slot (invalidate_slot tlb i) m =
      if m = i ∧ i < tlb.length then cleared (slot tlb i) else slot tlb m := by
  unfold invalidate_slot
  by_cases hmi : i = m
  · subst hmi
    by_cases hl : i < tlb.length
    · by_cases hd : (slot tlb i).dirty = true
      · simp [hd, slot_set, hl, cleared]
      · have hd' : (slot tlb i).dirty = false := by simpa using hd
        simp [hd', slot_set, hl, cleared]
    · by_cases hd : (slot tlb i).dirty = true
      · simp [hd, slot_set, hl]
      · have hd' : (slot tlb i).dirty = false := by simpa using hd
        simp [hd', slot_set, hl]
  · have hmi' : ¬ m = i := fun h => hmi h.symm
    by_cases hd : (slot tlb i).dirty = true
    · simp [hd, slot_set, hmi, hmi']
    · have hd' : (slot tlb i).dirty = false := by simpa using hd
      simp [hd', slot_set, hmi, hmi']

theorem range_shift {i k m : Nat} {P : Prop} :
    (i + 1 ≤ m ∧ m < i + 1 + k ∧ P) ↔ (i ≤ m ∧ m < i + (k + 1) ∧ P) ∧ m ≠ i := by
  constructor
  · rintro ⟨h1, h2, h3⟩
    exact ⟨⟨by omega, by omega, h3⟩, by omega⟩
  · rintro ⟨⟨h1, h2, h3⟩, h4⟩
    exact ⟨by omega, by omega, h3⟩

theorem invalidate_scan_spec (vpn : Nat) (k : Nat) :
    ∀ (i : Nat) (tlb : List tlb_entry_t) (count : Nat),
      (∀ m, slot (invalidate_scan vpn k i tlb count).1 m =
        if i ≤ m ∧ m < i + k ∧ matches_vpn tlb vpn m then cleared (slot tlb m) else slot tlb m) ∧
      (invalidate_scan vpn k i tlb count).1.length = tlb.length ∧
      (invalidate_scan vpn k i tlb count).2 =
        counter_after
          ((List.range' i k).filter (fun m => decide (matches_vpn tlb vpn m))).length count := by
  induction k with
  | zero =>
    intro i tlb count
    refine ⟨fun m => ?_, rfl, by simp [invalidate_scan, counter_after_zero]⟩
    have : ¬ (i ≤ m ∧ m < i + 0 ∧ matches_vpn tlb vpn m) := fun h => by omega
    rw [if_neg this]
    rfl
  | succ k ih =>
    intro i tlb count
    by_cases hm : matches_vpn tlb vpn i
    · have hlt := matches_vpn_lt hm
      have hcond : ((slot tlb i).valid && decide ((slot tlb i).virtual_page_number = vpn)) = true := by
        simp [hm.1, hm.2]
      have ht2 : ∀ m, slot (invalidate_slot tlb i) m =
          if m = i then cleared (slot tlb i) else slot tlb m := by
        intro m
        rw [slot_invalidate_slot]
        simp [hlt]
      have hmatch : ∀ m, m ≠ i →
          (matches_vpn (invalidate_slot tlb i) vpn m ↔ matches_vpn tlb vpn m) := by
        intro m hmi
        unfold matches_vpn
        rw [ht2 m]
        simp [hmi]
      have hstep : invalidate_scan vpn (k + 1) i tlb count =
          invalidate_scan vpn k (i + 1) (invalidate_slot tlb i) ((count + 1) % WORD) := by
        rw [invalidate_scan]
        simp only [hcond, if_true]
      rw [hstep]
      obtain ⟨a, b, c⟩ := ih (i + 1) (invalidate_slot tlb i) ((count + 1) % WORD)
      refine ⟨fun m => ?_, ?_, ?_⟩
      · rw [a m, ht2 m]
        by_cases hmi : m = i
        · subst hmi
          have h1 : ¬ (m + 1 ≤ m ∧ m < m + 1 + k ∧ matches_vpn (invalidate_slot tlb m) vpn m) :=
            fun h => by omega
          have h2 : (m ≤ m ∧ m < m + (k + 1) ∧ matches_vpn tlb vpn m) := ⟨le_refl _, by omega, hm⟩
          rw [if_neg h1, if_pos h2]
          simp
        · have h3 : (i + 1 ≤ m ∧ m < i + 1 + k ∧ matches_vpn (invalidate_slot tlb i) vpn m) ↔
              (i ≤ m ∧ m < i + (k + 1) ∧ matches_vpn tlb vpn m) := by
            rw [hmatch m hmi, range_shift]
            exact ⟨fun h => h.1, fun h => ⟨h, hmi⟩⟩
          simp only [h3, hmi, if_false]
      · rw [b, invalidate_slot_length]
      · rw [c, List.range'_succ, List.filter_cons]
        simp only [hm, decide_True, if_true, List.length_cons]
        have : (List.range' (i + 1) k).filter
              (fun m => decide (matches_vpn (invalidate_slot tlb i) vpn m)) =
            (List.range' (i + 1) k).filter (fun m => decide (matches_vpn tlb vpn m)) := by
          apply List.filter_congr
          intro x hx
          have hx' := List.mem_range'_1.mp hx
          have := hmatch x (by omega)
          simp only [this]
        rw [this, counter_after_succ]
    · have hcond : ((slot tlb i).valid && decide ((slot tlb i).virtual_page_number = vpn)) = false := by
        unfold matches_vpn at hm
        by_cases hv : (slot tlb i).valid = true
        · have : ¬ (slot tlb i).virtual_page_number = vpn := fun h => hm ⟨hv, h⟩
          simp [this]
        · simp [hv]
      have hstep : invalidate_scan vpn (k + 1) i tlb count =
          invalidate_scan vpn k (i + 1) tlb count := by
        rw [invalidate_scan]
        simp only [hcond, Bool.false_eq_true, if_false]
      rw [hstep]
      obtain ⟨a, b, c⟩ := ih (i + 1) tlb count
      refine ⟨fun m => ?_, b, ?_⟩
      · rw [a m]
        by_cases hmi : m = i
        · subst hmi
          have h1 : ¬ (m + 1 ≤ m ∧ m < m + 1 + k ∧ matches_vpn tlb vpn m) := fun h => by omega
          have h2 : ¬ (m ≤ m ∧ m < m + (k + 1) ∧ matches_vpn tlb vpn m) := fun h => hm h.2.2
          rw [if_neg h1, if_neg h2]
        · have h3 : (i + 1 ≤ m ∧ m < i + 1 + k ∧ matches_vpn tlb vpn m) ↔
              (i ≤ m ∧ m < i + (k + 1) ∧ matches_vpn tlb vpn m) := by
            rw [range_shift]
            exact ⟨fun h => h.1, fun h => ⟨h, hmi⟩⟩
          simp only [h3]
      · rw [c, List.range'_succ, List.filter_cons]
        simp [hm]

/-! ## Uniqueness of page numbers -/

theorem shrinks_refl (a : List tlb_entry_t) : shrinks a a :=
  fun _ h => ⟨h, rfl⟩

theorem shrinks_trans {a b c : List tlb_entry_t} (h1 : shrinks a b) (h2 : shrinks b c) :
    shrinks a c := by
  intro m hm
  obtain ⟨x, y⟩ := h2 m hm
  obtain ⟨x', y'⟩ := h1 m x
  exact ⟨x', y.trans y'⟩

theorem shrinks_of_same_tags {a b : List tlb_entry_t} (h : same_tags b a) : shrinks a b := by
  intro m hm
  rw [← (h m).1, ← (h m).2]
  exact ⟨hm, rfl⟩

theorem unique_vpn_shrinks {a b : List tlb_entry_t} (hs : shrinks a b) (hu : unique_vpn a) :
    unique_vpn b := by
  intro i _ j _ hi hj heq
  obtain ⟨ai, vi⟩ := hs i hi
  obtain ⟨aj, vj⟩ := hs j hj
  rw [vi, vj] at heq
  exact hu i (slot_valid_lt ai) j (slot_valid_lt aj) ai aj heq

theorem find_entry_none_shrinks {a b : List tlb_entry_t} {size vpn : Nat} (hs : shrinks a b)
    (h : find_entry a size vpn = none) : find_entry b size vpn = none := by
  rw [find_entry_none] at h ⊢
  intro m hm hmm
  obtain ⟨x, y⟩ := hs m hmm.1
  exact h m hm ⟨x, y ▸ hmm.2⟩

/-- Writing an entry for a page the level does not hold keeps page numbers unique. -/
theorem unique_vpn_set {a b : List tlb_entry_t} {size vpn k : Nat} (e : tlb_entry_t)
    (hs : shrinks a b) (hu : unique_vpn a) (hlen : a.length ≤ size)
    (hmiss : find_entry a size vpn = none) (he : e.virtual_page_number = vpn) :
    unique_vpn (b.set k e) := by
  rw [find_entry_none] at hmiss
  have key : ∀ m, m ≠ k → (slot (b.set k e) m).valid = true →
      (slot a m).valid = true ∧
        (slot (b.set k e) m).virtual_page_number = (slot a m).virtual_page_number := by
    intro m hmk hv
    rw [slot_set_ne e (fun h => hmk h.symm)] at hv ⊢
    exact hs m hv
  have hk : (slot (b.set k e) k).valid = true → (slot (b.set k e) k).virtual_page_number = vpn := by
    intro hv
    rw [slot_set] at hv ⊢
    by_cases hl : k < b.length
    · simp [hl, he]
    · simp only [hl, and_false, if_false] at hv
      exact absurd (slot_valid_lt hv) hl
  intro i _ j _ hi hj heq
  by_cases hik : i = k
  · by_cases hjk : j = k
    · rw [hik, hjk]
    · exfalso
      subst hik
      obtain ⟨aj, vj⟩ := key j hjk hj
      rw [hk hi, vj] at heq
      exact hmiss j (lt_of_lt_of_le (slot_valid_lt aj) hlen) ⟨aj, heq.symm⟩
  · by_cases hjk : j = k
    · exfalso
      subst hjk
      obtain ⟨ai, vi⟩ := key i hik hi
      rw [hk hj, vi] at heq
      exact hmiss i (lt_of_lt_of_le (slot_valid_lt ai) hlen) ⟨ai, heq⟩
    · obtain ⟨ai, vi⟩ := key i hik hi
      obtain ⟨aj, vj⟩ := key j hjk hj
      rw [vi, vj] at heq
      exact hu i (slot_valid_lt ai) j (slot_valid_lt aj) ai aj heq

theorem shrinks_evict_entry (cfg : config) (lvl : level) (s : tlb_state) :
    shrinks (level_array lvl s) (level_array lvl (evict_entry cfg lvl s).2) := by
  intro m hm
  rw [evict_entry_slot] at hm ⊢
  by_cases h : m = (evict_entry cfg lvl s).1
  · simp [h] at hm
  · simp only [h, if_false] at hm ⊢
    exact ⟨hm, trivial⟩

theorem same_tags_evict_entry_L1_l2 (cfg : config) (s : tlb_state) :
    same_tags (evict_entry cfg level.L1 s).2.tlb_l2 s.tlb_l2 := by
  intro m
  rw [evict_entry_L1_slot_l2]
  split <;> exact ⟨rfl, rfl⟩

theorem shrinks_invalidate_scan (vpn k i : Nat) (tlb : List tlb_entry_t) (count : Nat) :
    shrinks tlb (invalidate_scan vpn k i tlb count).1 := by
  intro m hm
  rw [(invalidate_scan_spec vpn k i tlb count).1 m] at hm ⊢
  split at hm
  · simp [cleared] at hm
  · rename_i h
    rw [if_neg h]
    exact ⟨hm, rfl⟩

theorem unique_vpn_replicate (n : Nat) : unique_vpn (List.replicate n zero_entry) := by
  intro i _ j _ hi
  rw [slot_replicate] at hi
  simp [zero_entry] at hi

theorem tlb_inv_init (cfg : config) (s : tlb_state) : tlb_inv cfg (tlb_init cfg s) := by
  refine ⟨?_, ?_, ?_, ?_⟩
  · simp [tlb_init]
  · simp [tlb_init]
  · exact unique_vpn_replicate _
  · exact unique_vpn_replicate _

theorem tlb_inv_invalidate (cfg : config) (vpn : Nat) (s : tlb_state) (h : tlb_inv cfg s) :
    tlb_inv cfg (tlb_invalidate cfg vpn s) := by
  obtain ⟨h1, h2, h3, h4⟩ := h
  refine ⟨?_, ?_, ?_, ?_⟩
  · simp only [tlb_invalidate, increment_time]
    rw [(invalidate_scan_spec _ _ _ _ _).2.1, h1]
  · simp only [tlb_invalidate, increment_time]
    rw [(invalidate_scan_spec _ _ _ _ _).2.1, h2]
  · simp only [tlb_invalidate, increment_time]
    exact unique_vpn_shrinks (shrinks_invalidate_scan _ _ _ _ _) h3
  · simp only [tlb_invalidate, increment_time]
    exact unique_vpn_shrinks (shrinks_invalidate_scan _ _ _ _ _) h4

theorem tlb_inv_l1_hit (cfg : config) (vpn offset : Nat) (op : op_t) (i : Nat) (s : tlb_state)
    (h : tlb_inv cfg s) : tlb_inv cfg (translate_l1_hit cfg vpn offset op i s).2 := by
  obtain ⟨h1, h2, h3, h4⟩ := h
  unfold translate_l1_hit
  simp only
  split
  · refine ⟨?_, ?_, ?_, ?_⟩
    · simp only [touch_length, h1]
    · simp only [touch_length, h2]
    · exact unique_vpn_shrinks (shrinks_of_same_tags (same_tags_touch _ _ _ _)) h3
    · exact unique_vpn_shrinks (shrinks_of_same_tags (same_tags_touch _ _ _ _)) h4
  · refine ⟨?_, h2, ?_, h4⟩
    · simp only [touch_length, h1]
    · exact unique_vpn_shrinks (shrinks_of_same_tags (same_tags_touch _ _ _ _)) h3

theorem tlb_inv_l2_hit (cfg : config) (vpn offset : Nat) (op : op_t) (j : Nat) (s : tlb_state)
    (hmiss : find_entry s.tlb_l1 cfg.TLB_L1_SIZE vpn = none)
    (h : tlb_inv cfg s) : tlb_inv cfg (translate_l2_hit cfg vpn offset op j s).2 := by
  obtain ⟨h1, h2, h3, h4⟩ := h
  unfold translate_l2_hit
  simp only
  refine ⟨?_, ?_, ?_, ?_⟩
  · simp [h1]
  · simp [touch_length, h2]
  · have hs := shrinks_evict_entry cfg level.L1
      { s with tlb_l2_hits := (s.tlb_l2_hits + 1) % WORD,
               tlb_l2 :=
                 touch s.tlb_l2 j (get_time { s with tlb_l2_hits := (s.tlb_l2_hits + 1) % WORD }) op }
    exact unique_vpn_set _ hs h3 (le_of_eq h1) hmiss rfl
  · have ht := same_tags_evict_entry_L1_l2 cfg
      { s with tlb_l2_hits := (s.tlb_l2_hits + 1) % WORD,
               tlb_l2 :=
                 touch s.tlb_l2 j (get_time { s with tlb_l2_hits := (s.tlb_l2_hits + 1) % WORD }) op }
    exact unique_vpn_shrinks
      (shrinks_trans (shrinks_of_same_tags (same_tags_touch _ _ _ _)) (shrinks_of_same_tags ht)) h4

theorem tlb_inv_insert_L2 (cfg : config) (vpn pa : Nat) (op : op_t) (s : tlb_state)
    (hmiss : find_entry s.tlb_l2 cfg.TLB_L2_SIZE vpn = none) (h : tlb_inv cfg s) :
    tlb_inv cfg (insert_entry cfg level.L2 vpn pa op s) := by
  obtain ⟨h1, h2, h3, h4⟩ := h
  refine ⟨by simp [h1], by simp [h2], ?_, ?_⟩
  · rw [insert_entry_L2_tlb_l1]
    exact h3
  · have hs := shrinks_evict_entry cfg level.L2 s
    exact unique_vpn_set _ hs h4 (le_of_eq h2) hmiss rfl

theorem tlb_inv_insert_L1 (cfg : config) (vpn pa : Nat) (op : op_t) (s : tlb_state)
    (hmiss : find_entry s.tlb_l1 cfg.TLB_L1_SIZE vpn = none) (h : tlb_inv cfg s) :
    tlb_inv cfg (insert_entry cfg level.L1 vpn pa op s) := by
  obtain ⟨h1, h2, h3, h4⟩ := h
  refine ⟨by simp [h1], by simp [h2], ?_, ?_⟩
  · have hs := shrinks_evict_entry cfg level.L1 s
    exact unique_vpn_set _ hs h3 (le_of_eq h1) hmiss rfl
  · rw [insert_entry_L1_tlb_l2]
    exact unique_vpn_shrinks (shrinks_of_same_tags (same_tags_evict_entry_L1_l2 cfg s)) h4

theorem tlb_inv_congr {cfg : config} {s t : tlb_state} (h1 : t.tlb_l1 = s.tlb_l1)
    (h2 : t.tlb_l2 = s.tlb_l2) (h : tlb_inv cfg s) : tlb_inv cfg t := by
  unfold tlb_inv at h ⊢
  rw [h1, h2]
  exact h

theorem tlb_inv_miss (cfg : config) (c : collaborators) (va vpn : Nat) (op : op_t)
    (s : tlb_state) (hm1 : find_entry s.tlb_l1 cfg.TLB_L1_SIZE vpn = none)
    (hm2 : find_entry s.tlb_l2 cfg.TLB_L2_SIZE vpn = none) (h : tlb_inv cfg s) :
    tlb_inv cfg (translate_miss cfg c va vpn op s).2 := by
  unfold translate_miss
  simp only
  apply tlb_inv_congr (s := insert_entry cfg level.L1 vpn _ op _) rfl rfl
  apply tlb_inv_insert_L1
  · rw [write_back_tlb_l1, insert_entry_L2_tlb_l1]
    exact hm1
  · apply tlb_inv_congr (s := insert_entry cfg level.L2 vpn _ op (call_page_table c va op s).2)
      (write_back_tlb_l1 _ _ _ _ _) (write_back_tlb_l2 _ _ _ _ _)
    exact tlb_inv_insert_L2 _ _ _ _ _ hm2 (tlb_inv_congr (s := s) rfl rfl h)

theorem tlb_inv_translate (cfg : config) (c : collaborators) (va : Nat) (op : op_t)
    (s : tlb_state) (h : tlb_inv cfg s) : tlb_inv cfg (tlb_translate cfg c va op s).2 := by
  unfold tlb_translate
  simp only
  split
  · exact tlb_inv_l1_hit _ _ _ _ _ _ (tlb_inv_congr (s := s) rfl rfl h)
  · rename_i hm1
    split
    · exact tlb_inv_l2_hit _ _ _ _ _ _ hm1 (tlb_inv_congr (s := s) rfl rfl h)
    · rename_i hm2
      exact tlb_inv_miss _ _ _ _ _ _ hm1 hm2 (tlb_inv_congr (s := s) rfl rfl h)

theorem tlb_inv_reachable {cfg : config} {s : tlb_state} (h : reachable cfg s) : tlb_inv cfg s := by
  induction h with
  | init s => exact tlb_inv_init cfg s
  | translate c va op s _ ih => exact tlb_inv_translate cfg c va op s ih
  | invalidate v s _ ih => exact tlb_inv_invalidate cfg v s ih

/-! ## Address arithmetic -/

theorem testBit_of_lt_word {x i : Nat} (hx : x < 2 ^ 64) (hi : 64 ≤ i) : x.testBit i = false := by
  apply Nat.testBit_lt_two_pow
  exact lt_of_lt_of_le hx (Nat.pow_le_pow_right (by decide) hi)

/-- Clearing the offset bits of `frame << b | offset` gives back `frame << b`. -/
theorem page_aligned_part (x va b : Nat) (hva : va < 2 ^ 64) :
    (((x <<< b) % 2 ^ 64) ||| (va &&& (2 ^ b - 1))) &&& ((2 ^ 64 - 1) ^^^ (2 ^ b - 1))
      = (x <<< b) % 2 ^ 64 := by
  apply Nat.eq_of_testBit_eq
  intro i
  simp only [Nat.testBit_and, Nat.testBit_or, Nat.testBit_xor, Nat.testBit_mod_two_pow,
    Nat.testBit_shiftLeft, Nat.testBit_two_pow_sub_one]
  by_cases h64 : i < 64
  · by_cases hb : i < b
    · have : ¬ i ≥ b := by omega
      simp [h64, hb, this]
    · simp [h64, hb]
  · have := testBit_of_lt_word hva (Nat.le_of_not_lt h64)
    simp [h64, this]

/-! ## The three branches of `tlb_translate` -/

theorem tlb_translate_l1_hit {cfg : config} {c : collaborators} {va : Nat} {op : op_t}
    {s : tlb_state} {i : Nat}
    (h : find_entry s.tlb_l1 cfg.TLB_L1_SIZE (va >>> cfg.PAGE_SIZE_BITS) = some i) :
    tlb_translate cfg c va op s =
      translate_l1_hit cfg (va >>> cfg.PAGE_SIZE_BITS) (va &&& PAGE_OFFSET_MASK cfg) op i
        (increment_time cfg.TLB_L1_LATENCY_NS s) := by
  unfold tlb_translate
  simp only [increment_time, h]

theorem tlb_translate_l2_hit {cfg : config} {c : collaborators} {va : Nat} {op : op_t}
    {s : tlb_state} {j : Nat}
    (h1 : find_entry s.tlb_l1 cfg.TLB_L1_SIZE (va >>> cfg.PAGE_SIZE_BITS) = none)
    (h2 : find_entry s.tlb_l2 cfg.TLB_L2_SIZE (va >>> cfg.PAGE_SIZE_BITS) = some j) :
    tlb_translate cfg c va op s =
      translate_l2_hit cfg (va >>> cfg.PAGE_SIZE_BITS) (va &&& PAGE_OFFSET_MASK cfg) op j
        (after_l1_miss cfg s) := by
  unfold tlb_translate
  simp only [increment_time, h1, h2, after_l1_miss]

theorem tlb_translate_miss {cfg : config} {c : collaborators} {va : Nat} {op : op_t}
    {s : tlb_state}
    (h1 : find_entry s.tlb_l1 cfg.TLB_L1_SIZE (va >>> cfg.PAGE_SIZE_BITS) = none)
    (h2 : find_entry s.tlb_l2 cfg.TLB_L2_SIZE (va >>> cfg.PAGE_SIZE_BITS) = none) :
    tlb_translate cfg c va op s =
      translate_miss cfg c va (va >>> cfg.PAGE_SIZE_BITS) op (after_l2_miss cfg s) := by
  unfold tlb_translate
  simp only [increment_time, h1, h2, after_l2_miss, after_l1_miss]

@[simp] theorem after_l1_miss_tlb_l1 (cfg : config) (s : tlb_state) :
    (after_l1_miss cfg s).tlb_l1 = s.tlb_l1 := rfl

@[simp] theorem after_l1_miss_tlb_l2 (cfg : config) (s : tlb_state) :
    (after_l1_miss cfg s).tlb_l2 = s.tlb_l2 := rfl

@[simp] theorem after_l2_miss_tlb_l1 (cfg : config) (s : tlb_state) :
    (after_l2_miss cfg s).tlb_l1 = s.tlb_l1 := rfl

@[simp] theorem after_l2_miss_tlb_l2 (cfg : config) (s : tlb_state) :
    (after_l2_miss cfg s).tlb_l2 = s.tlb_l2 := rfl

theorem find_entry_of_holds {tlb : List tlb_entry_t} {size vpn : Nat}
    (h : ∃ i, i < size ∧ matches_vpn tlb vpn i) :
    ∃ i, find_entry tlb size vpn = some i := by
  cases hf : find_entry tlb size vpn with
  | some i => exact ⟨i, rfl⟩
  | none =>
    obtain ⟨i, hi, hm⟩ := h
    exact absurd hm (find_entry_none.mp hf i hi)

theorem evict_entry_L1_pfn_l2 (cfg : config) (s : tlb_state) (m : Nat) :
    (slot (evict_entry cfg level.L1 s).2.tlb_l2 m).physical_page_number =
      (slot s.tlb_l2 m).physical_page_number := by
  rw [evict_entry_L1_slot_l2]
  split <;> rfl

/-- The address returned on an L1 hit. -/
theorem translate_l1_hit_result (cfg : config) (vpn offset : Nat) (op : op_t) (i : Nat)
    (s : tlb_state) :
    (translate_l1_hit cfg vpn offset op i s).1 =
      (((slot s.tlb_l1 i).physical_page_number <<< cfg.PAGE_SIZE_BITS) % WORD) ||| offset := by
  have hp : (slot (touch s.tlb_l1 i s.time op) i).physical_page_number =
      (slot s.tlb_l1 i).physical_page_number := by
    rw [slot_touch]
    split <;> rfl
  unfold translate_l1_hit
  simp only [get_time]
  split <;> simp only [hp]

/-- The address returned on an L2 hit. -/
theorem translate_l2_hit_result (cfg : config) (vpn offset : Nat) (op : op_t) (j : Nat)
    (s : tlb_state) :
    (translate_l2_hit cfg vpn offset op j s).1 =
      (((slot s.tlb_l2 j).physical_page_number <<< cfg.PAGE_SIZE_BITS) % WORD) ||| offset := by
  unfold translate_l2_hit
  simp only [get_time, evict_entry_L1_pfn_l2]
  rw [slot_touch]
  split <;> rfl

theorem translate_l1_hit_calls (cfg : config) (vpn offset : Nat) (op : op_t) (i : Nat)
    (s : tlb_state) : (translate_l1_hit cfg vpn offset op i s).2.calls = s.calls := by
  unfold translate_l1_hit
  simp only
  split <;> rfl

theorem translate_l2_hit_calls (cfg : config) (vpn offset : Nat) (op : op_t) (j : Nat)
    (s : tlb_state) : (translate_l2_hit cfg vpn offset op j s).2.calls = s.calls := by
  unfold translate_l2_hit
  simp

theorem evict_entry_of_free_at {cfg : config} {lvl : level} {s : tlb_state} {k : Nat}
    (hk : k < level_size cfg lvl) (hinv : (slot (level_array lvl s) k).valid = false)
    (hbelow : ∀ m, m < k → (slot (level_array lvl s) m).valid = true) :
    evict_entry cfg lvl s = (k, s) := by
  apply evict_entry_free
  apply scan_from_first (Nat.zero_le _) (by omega)
  · simp [hinv]
  · intro m _ hm
    simp [hbelow m hm]

theorem tlb_invalidate_slot_l1 (cfg : config) (v : Nat) (s : tlb_state) (m : Nat) :
    slot (tlb_invalidate cfg v s).tlb_l1 m =
      if m < cfg.TLB_L1_SIZE ∧ matches_vpn s.tlb_l1 v m then cleared (slot s.tlb_l1 m)
      else slot s.tlb_l1 m := by
  simp only [tlb_invalidate, increment_time]
  rw [(invalidate_scan_spec _ _ _ _ _).1 m]
  simp

theorem tlb_invalidate_slot_l2 (cfg : config) (v : Nat) (s : tlb_state) (m : Nat) :
    slot (tlb_invalidate cfg v s).tlb_l2 m =
      if m < cfg.TLB_L2_SIZE ∧ matches_vpn s.tlb_l2 v m then cleared (slot s.tlb_l2 m)
      else slot s.tlb_l2 m := by
  simp only [tlb_invalidate, increment_time]
  rw [(invalidate_scan_spec _ _ _ _ _).1 m]
  simp

theorem tlb_invalidate_count_l1 (cfg : config) (v : Nat) (s : tlb_state) :
    (tlb_invalidate cfg v s).tlb_l1_invalidations =
      counter_after (matching_slots s.tlb_l1 cfg.TLB_L1_SIZE v) s.tlb_l1_invalidations := by
  simp only [tlb_invalidate, increment_time]
  rw [(invalidate_scan_spec _ _ _ _ _).2.2, matching_slots, List.range_eq_range']

theorem tlb_invalidate_count_l2 (cfg : config) (v : Nat) (s : tlb_state) :
    (tlb_invalidate cfg v s).tlb_l2_invalidations =
      counter_after (matching_slots s.tlb_l2 cfg.TLB_L2_SIZE v) s.tlb_l2_invalidations := by
  simp only [tlb_invalidate, increment_time]
  rw [(invalidate_scan_spec _ _ _ _ _).2.2, matching_slots, List.range_eq_range']

theorem cleared_slot_spec (tlb tlb2 : List tlb_entry_t) (size v : Nat)
    (h : ∀ m, slot tlb2 m =
      if m < size ∧ matches_vpn tlb v m then cleared (slot tlb m) else slot tlb m) :
    (∀ i, i < size → ¬ matches_vpn tlb2 v i) ∧
    (∀ i, i < size → matches_vpn tlb v i → slot tlb2 i = cleared (slot tlb i)) ∧
    (∀ i, ¬ matches_vpn tlb v i → slot tlb2 i = slot tlb i) := by
  refine ⟨fun i hi hm => ?_, fun i hi hm => ?_, fun i hm => ?_⟩
  · unfold matches_vpn at hm
    rw [h i] at hm
    by_cases hc : matches_vpn tlb v i
    · simp [hi, hc, cleared] at hm
    · simp only [hc, and_false, if_false] at hm
      exact hc hm
  · rw [h i]
    simp [hi, hm]
  · rw [h i]
    simp [hm]

theorem list_eq_of_slot {a b : List tlb_entry_t} (hlen : a.length = b.length)
    (h : ∀ m, slot a m = slot b m) : a = b := by
  apply List.ext_getElem hlen
  intro n h1 h2
  have := h n
  unfold slot at this
  rw [List.getD_eq_getElem _ _ h1, List.getD_eq_getElem _ _ h2] at this
  exact this

theorem frame_round_trip {F b : Nat} (hF : F <<< b < WORD) : ((F <<< b) % WORD) >>> b = F := by
  rw [Nat.mod_eq_of_lt hF, Nat.shiftLeft_shiftRight]

/-- The L1 array after an L2 hit: the slot `evict_entry` returned holds the
promoted entry. -/
theorem translate_l2_hit_tlb_l1 (cfg : config) (vpn offset : Nat) (op : op_t) (j : Nat)
    (s : tlb_state) :
    (translate_l2_hit cfg vpn offset op j s).2.tlb_l1 =
      (evict_entry cfg level.L1
          { s with tlb_l2_hits := (s.tlb_l2_hits + 1) % WORD, tlb_l2 := touch s.tlb_l2 j s.time op }).2.tlb_l1.set
        (evict_entry cfg level.L1
          { s with tlb_l2_hits := (s.tlb_l2_hits + 1) % WORD, tlb_l2 := touch s.tlb_l2 j s.time op }).1
        { valid := true
          dirty := (slot (evict_entry cfg level.L1
              { s with tlb_l2_hits := (s.tlb_l2_hits + 1) % WORD,
                       tlb_l2 := touch s.tlb_l2 j s.time op }).2.tlb_l2 j).dirty || OP_IS_WRITE op
          last_access := s.time
          virtual_page_number := vpn
          physical_page_number :=
            (((slot (touch s.tlb_l2 j s.time op) j).physical_page_number <<< cfg.PAGE_SIZE_BITS)
              % WORD) >>> cfg.PAGE_SIZE_BITS } := by
  unfold translate_l2_hit
  simp [get_time]

theorem translate_l2_hit_tlb_l2 (cfg : config) (vpn offset : Nat) (op : op_t) (j : Nat)
    (s : tlb_state) :
    (translate_l2_hit cfg vpn offset op j s).2.tlb_l2 =
      (evict_entry cfg level.L1
          { s with tlb_l2_hits := (s.tlb_l2_hits + 1) % WORD, tlb_l2 := touch s.tlb_l2 j s.time op }).2.tlb_l2 := by
  unfold translate_l2_hit
  simp [get_time]

/-- The promoted entry of an L2 hit, slot by slot of L1. -/
theorem translate_l2_hit_slot_l1 (cfg : config) (vpn offset : Nat) (op : op_t) (j : Nat)
    (s : tlb_state) (hn : 1 ≤ cfg.TLB_L1_SIZE) (hlen : s.tlb_l1.length = cfg.TLB_L1_SIZE)
    (hmiss : holds_none s.tlb_l1 cfg.TLB_L1_SIZE vpn) (hj : matches_vpn s.tlb_l2 vpn j) :
    ∃ k, k < cfg.TLB_L1_SIZE ∧
      ∀ m, slot (translate_l2_hit cfg vpn offset op j s).2.tlb_l1 m =
        if m = k then
          { valid := true
            dirty := (slot s.tlb_l2 j).dirty || OP_IS_WRITE op
            last_access := s.time
            virtual_page_number := vpn
            physical_page_number :=
              (((slot s.tlb_l2 j).physical_page_number <<< cfg.PAGE_SIZE_BITS) % WORD)
                >>> cfg.PAGE_SIZE_BITS }
        else slot s.tlb_l1 m := by
  have hk : (evict_entry cfg level.L1
      { s with tlb_l2_hits := (s.tlb_l2_hits + 1) % WORD, tlb_l2 := touch s.tlb_l2 j s.time op }).1
        < cfg.TLB_L1_SIZE :=
    @evict_entry_lt cfg level.L1 _ hn
  refine ⟨_, hk, fun m => ?_⟩
  have hjl := slot_valid_lt hj.1
  rw [translate_l2_hit_tlb_l1, slot_set]
  simp only [evict_entry_length_l1, hlen, hk, and_true]
  by_cases hm : (evict_entry cfg level.L1
      { s with tlb_l2_hits := (s.tlb_l2_hits + 1) % WORD, tlb_l2 := touch s.tlb_l2 j s.time op }).1 = m
  · rw [if_pos hm, if_pos hm.symm]
    have hd : (slot (evict_entry cfg level.L1
        { s with tlb_l2_hits := (s.tlb_l2_hits + 1) % WORD, tlb_l2 := touch s.tlb_l2 j s.time op }).2.tlb_l2 j).dirty
          = ((slot s.tlb_l2 j).dirty || OP_IS_WRITE op) := by
      rw [evict_entry_L1_slot_l2]
      split
      · rename_i hc
        exfalso
        have h1 := (find_entry_some hc.2.2.2).2.1
        have h2 : (slot (touch s.tlb_l2 j s.time op) j).virtual_page_number = vpn := by
          rw [((same_tags_touch _ _ _ _) j).2]
          exact hj.2
        exact hmiss _ hk ⟨hc.2.1, h1.2.symm.trans h2⟩
      · simp only
        rw [slot_touch]
        simp [hjl]
    have hp : (slot (touch s.tlb_l2 j s.time op) j).physical_page_number =
        (slot s.tlb_l2 j).physical_page_number := by
      rw [slot_touch]
      split <;> rfl
    rw [hd, hp]
    simp
  · have hm' : ¬ m = (evict_entry cfg level.L1
        { s with tlb_l2_hits := (s.tlb_l2_hits + 1) % WORD, tlb_l2 := touch s.tlb_l2 j s.time op }).1 :=
      fun h => hm h.symm
    rw [if_neg hm, if_neg hm']
    have := evict_entry_slot cfg level.L1
      { s with tlb_l2_hits := (s.tlb_l2_hits + 1) % WORD, tlb_l2 := touch s.tlb_l2 j s.time op } m
    simp only [level_array] at this
    rw [this, if_neg hm']

/-! ## Counters -/

theorem translate_l1_hit_counters (cfg : config) (vpn offset : Nat) (op : op_t) (i : Nat)
    (s : tlb_state) :
    counters (translate_l1_hit cfg vpn offset op i s).2 =
      [(s.tlb_l1_hits + 1) % WORD, s.tlb_l1_misses, s.tlb_l1_invalidations,
       s.tlb_l2_hits, s.tlb_l2_misses, s.tlb_l2_invalidations] := by
  unfold translate_l1_hit
  simp only
  split <;> rfl

theorem translate_l2_hit_counters (cfg : config) (vpn offset : Nat) (op : op_t) (j : Nat)
    (s : tlb_state) :
    counters (translate_l2_hit cfg vpn offset op j s).2 =
      [s.tlb_l1_hits, s.tlb_l1_misses, s.tlb_l1_invalidations,
       (s.tlb_l2_hits + 1) % WORD, s.tlb_l2_misses, s.tlb_l2_invalidations] := by
  unfold translate_l2_hit
  simp [counters, get_total_tlb_l1_hits, get_total_tlb_l1_misses, get_total_tlb_l1_invalidations,
    get_total_tlb_l2_hits, get_total_tlb_l2_misses, get_total_tlb_l2_invalidations]

theorem translate_miss_counters (cfg : config) (c : collaborators) (va vpn : Nat) (op : op_t)
    (s : tlb_state) :
    counters (translate_miss cfg c va vpn op s).2 =
      [s.tlb_l1_hits, s.tlb_l1_misses, s.tlb_l1_invalidations,
       s.tlb_l2_hits, s.tlb_l2_misses, s.tlb_l2_invalidations] := by
  unfold translate_miss
  simp only [counters, get_total_tlb_l1_hits, get_total_tlb_l1_misses,
    get_total_tlb_l1_invalidations, get_total_tlb_l2_hits, get_total_tlb_l2_misses,
    get_total_tlb_l2_invalidations, insert_entry_tlb_l1_hits, insert_entry_tlb_l1_misses,
    insert_entry_tlb_l1_invalidations, insert_entry_tlb_l2_hits, insert_entry_tlb_l2_misses,
    insert_entry_tlb_l2_invalidations, write_back_tlb_l1_hits, write_back_tlb_l1_misses,
    write_back_tlb_l1_invalidations, write_back_tlb_l2_hits, write_back_tlb_l2_misses,
    write_back_tlb_l2_invalidations, call_page_table]

/-- The counters after `tlb_translate`, by the branch taken. -/
theorem tlb_translate_counters (cfg : config) (c : collaborators) (va : Nat) (op : op_t)
    (s : tlb_state) :
    (¬ holds_none s.tlb_l1 cfg.TLB_L1_SIZE (va >>> cfg.PAGE_SIZE_BITS) →
      counters (tlb_translate cfg c va op s).2 =
        [(s.tlb_l1_hits + 1) % WORD, s.tlb_l1_misses, s.tlb_l1_invalidations,
         s.tlb_l2_hits, s.tlb_l2_misses, s.tlb_l2_invalidations]) ∧
    (holds_none s.tlb_l1 cfg.TLB_L1_SIZE (va >>> cfg.PAGE_SIZE_BITS) →
      ¬ holds_none s.tlb_l2 cfg.TLB_L2_SIZE (va >>> cfg.PAGE_SIZE_BITS) →
      counters (tlb_translate cfg c va op s).2 =
        [s.tlb_l1_hits, (s.tlb_l1_misses + 1) % WORD, s.tlb_l1_invalidations,
         (s.tlb_l2_hits + 1) % WORD, s.tlb_l2_misses, s.tlb_l2_invalidations]) ∧
    (holds_none s.tlb_l1 cfg.TLB_L1_SIZE (va >>> cfg.PAGE_SIZE_BITS) →
      holds_none s.tlb_l2 cfg.TLB_L2_SIZE (va >>> cfg.PAGE_SIZE_BITS) →
      counters (tlb_translate cfg c va op s).2 =
        [s.tlb_l1_hits, (s.tlb_l1_misses + 1) % WORD, s.tlb_l1_invalidations,
         s.tlb_l2_hits, (s.tlb_l2_misses + 1) % WORD, s.tlb_l2_invalidations]) := by
  refine ⟨fun h1 => ?_, fun h1 h2 => ?_, fun h1 h2 => ?_⟩
  · cases hf : find_entry s.tlb_l1 cfg.TLB_L1_SIZE (va >>> cfg.PAGE_SIZE_BITS) with
    | none => exact absurd (find_entry_none.mp hf) h1
    | some i =>
      rw [tlb_translate_l1_hit hf, translate_l1_hit_counters]
      rfl
  · cases hf : find_entry s.tlb_l2 cfg.TLB_L2_SIZE (va >>> cfg.PAGE_SIZE_BITS) with
    | none => exact absurd (find_entry_none.mp hf) h2
    | some j =>
      rw [tlb_translate_l2_hit (find_entry_none.mpr h1) hf, translate_l2_hit_counters]
      rfl
  · rw [tlb_translate_miss (find_entry_none.mpr h1) (find_entry_none.mpr h2),
      translate_miss_counters]
    rfl

theorem tlb_invalidate_counters (cfg : config) (v : Nat) (s : tlb_state) :
    counters (tlb_invalidate cfg v s) =
      [s.tlb_l1_hits, s.tlb_l1_misses,
       counter_after (matching_slots s.tlb_l1 cfg.TLB_L1_SIZE v) s.tlb_l1_invalidations,
       s.tlb_l2_hits, s.tlb_l2_misses,
       counter_after (matching_slots s.tlb_l2 cfg.TLB_L2_SIZE v) s.tlb_l2_invalidations] := by
  simp only [counters, get_total_tlb_l1_invalidations, get_total_tlb_l2_invalidations,
    tlb_invalidate_count_l1, tlb_invalidate_count_l2]
  rfl

theorem counters_le_of_eq {s t : tlb_state} {a b c d e f : Nat}
    (h : counters t = [a, b, c, d, e, f]) (ha : s.tlb_l1_hits ≤ a) (hb : s.tlb_l1_misses ≤ b)
    (hc : s.tlb_l1_invalidations ≤ c) (hd : s.tlb_l2_hits ≤ d) (he : s.tlb_l2_misses ≤ e)
    (hf : s.tlb_l2_invalidations ≤ f) : counters_le s t := by
  simp only [counters, get_total_tlb_l1_hits, get_total_tlb_l1_misses,
    get_total_tlb_l1_invalidations, get_total_tlb_l2_hits, get_total_tlb_l2_misses,
    get_total_tlb_l2_invalidations, List.cons.injEq, and_true] at h
  obtain ⟨h1, h2, h3, h4, h5, h6⟩ := h
  unfold counters_le
  omega

theorem matching_slots_le (tlb : List tlb_entry_t) (size vpn : Nat) :
    matching_slots tlb size vpn ≤ size := by
  unfold matching_slots
  have := List.length_filter_le (fun i => decide (matches_vpn tlb vpn i)) (List.range size)
  rw [List.length_range] at this
  exact this

theorem counter_after_le_add (k count : Nat) : counter_after k count ≤ count + k := by
  unfold counter_after
  split
  · omega
  · exact Nat.mod_le _ _

/-- One operation from a state whose counters have room for the events of one
call: no counter decreases, and the room shrinks by `max_events` at most. -/
theorem counters_step_room (cfg : config) (o : operation) (s : tlb_state) (n : Nat)
    (h : counters_room (n + max_events cfg) s) :
    counters_le s (step cfg o s) ∧ counters_room n (step cfg o s) := by
  have g1 : 1 ≤ max_events cfg := le_max_left _ _
  have g2 : cfg.TLB_L1_SIZE ≤ max_events cfg :=
    le_trans (le_max_left _ _) (le_max_right _ _)
  have g3 : cfg.TLB_L2_SIZE ≤ max_events cfg :=
    le_trans (le_max_right _ _) (le_max_right _ _)
  obtain ⟨r1, r2, r3, r4, r5, r6⟩ := h
  have key : ∀ a b c d e f : Nat, counters (step cfg o s) = [a, b, c, d, e, f] →
      (s.tlb_l1_hits ≤ a ∧ a + n < WORD) → (s.tlb_l1_misses ≤ b ∧ b + n < WORD) →
      (s.tlb_l1_invalidations ≤ c ∧ c + n < WORD) → (s.tlb_l2_hits ≤ d ∧ d + n < WORD) →
      (s.tlb_l2_misses ≤ e ∧ e + n < WORD) → (s.tlb_l2_invalidations ≤ f ∧ f + n < WORD) →
      counters_le s (step cfg o s) ∧ counters_room n (step cfg o s) := by
    intro a b c d e f hc ha hb hc' hd he hf
    simp only [counters, get_total_tlb_l1_hits, get_total_tlb_l1_misses,
      get_total_tlb_l1_invalidations, get_total_tlb_l2_hits, get_total_tlb_l2_misses,
      get_total_tlb_l2_invalidations, List.cons.injEq, and_true] at hc
    obtain ⟨h1, h2, h3, h4, h5, h6⟩ := hc
    unfold counters_le counters_room
    rw [h1, h2, h3, h4, h5, h6]
    exact ⟨⟨ha.1, hb.1, hc'.1, hd.1, he.1, hf.1⟩, ha.2, hb.2, hc'.2, hd.2, he.2, hf.2⟩
  have inc : ∀ x : Nat, x + (n + max_events cfg) < WORD →
      x ≤ (x + 1) % WORD ∧ (x + 1) % WORD + n < WORD := by
    intro x hx
    rw [Nat.mod_eq_of_lt (by omega)]
    omega
  have same : ∀ x : Nat, x + (n + max_events cfg) < WORD → x ≤ x ∧ x + n < WORD := by
    intro x hx
    omega
  cases o with
  | translate c va op =>
    obtain ⟨a, b, d⟩ := tlb_translate_counters cfg c va op s
    by_cases h1 : holds_none s.tlb_l1 cfg.TLB_L1_SIZE (va >>> cfg.PAGE_SIZE_BITS)
    · by_cases h2 : holds_none s.tlb_l2 cfg.TLB_L2_SIZE (va >>> cfg.PAGE_SIZE_BITS)
      · exact key _ _ _ _ _ _ (d h1 h2) (same _ r1) (inc _ r2) (same _ r3) (same _ r4)
          (inc _ r5) (same _ r6)
      · exact key _ _ _ _ _ _ (b h1 h2) (same _ r1) (inc _ r2) (same _ r3) (inc _ r4)
          (same _ r5) (same _ r6)
    · exact key _ _ _ _ _ _ (a h1) (inc _ r1) (same _ r2) (same _ r3) (same _ r4)
        (same _ r5) (same _ r6)
  | invalidate v =>
    have m1 := matching_slots_le s.tlb_l1 cfg.TLB_L1_SIZE v
    have m2 := matching_slots_le s.tlb_l2 cfg.TLB_L2_SIZE v
    have e1 := @counter_after_of_lt (matching_slots s.tlb_l1 cfg.TLB_L1_SIZE v)
      s.tlb_l1_invalidations (by omega)
    have e2 := @counter_after_of_lt (matching_slots s.tlb_l2 cfg.TLB_L2_SIZE v)
      s.tlb_l2_invalidations (by omega)
    refine key _ _ _ _ _ _ (tlb_invalidate_counters cfg v s) (same _ r1) (same _ r2) ?_
      (same _ r4) (same _ r5) ?_
    · rw [e1]
      omega
    · rw [e2]
      omega

/-- Along a run from a state whose counters have room for the events of every
call of the run, no counter decreases. -/
theorem counters_le_run (cfg : config) (os : List operation) :
    ∀ s, counters_room (os.length * max_events cfg) s → counters_le s (run cfg os s) := by
  induction os with
  | nil =>
    intro s _
    unfold counters_le
    simp [run]
  | cons o os ih =>
    intro s h
    have e : (o :: os).length * max_events cfg =
        os.length * max_events cfg + max_events cfg := by
      rw [List.length_cons, Nat.succ_mul]
    rw [e] at h
    obtain ⟨h1, h3⟩ := counters_step_room cfg o s _ h
    have h2 := ih (step cfg o s) h3
    unfold counters_le at h1 h2 ⊢
    simp only [run]
    omega

theorem frame_of_page_aligned (pa b : Nat) (hpa : pa < 2 ^ 64) :
    (pa &&& ((2 ^ 64 - 1) ^^^ (2 ^ b - 1))) >>> b = pa >>> b := by
  apply Nat.eq_of_testBit_eq
  intro i
  simp only [Nat.testBit_shiftRight, Nat.testBit_and, Nat.testBit_xor,
    Nat.testBit_two_pow_sub_one]
  have hb : ¬ b + i < b := by omega
  by_cases h64 : b + i < 64
  · simp [h64, hb]
  · have := testBit_of_lt_word hpa (Nat.le_of_not_lt h64)
    simp [this]

theorem frame_of_page_align (cfg : config) (pa : Nat) (hpa : pa < WORD) :
    page_align cfg pa >>> cfg.PAGE_SIZE_BITS = pa >>> cfg.PAGE_SIZE_BITS :=
  frame_of_page_aligned pa cfg.PAGE_SIZE_BITS hpa

theorem find_entry_replicate (n size vpn : Nat) :
    find_entry (List.replicate n zero_entry) size vpn = none := by
  rw [find_entry_none]
  intro m _ hm
  unfold matches_vpn at hm
  rw [slot_replicate] at hm
  simp [zero_entry] at hm

/-- Insertion into a level whose first free slot is `0`. -/
theorem insert_entry_slot_zero (cfg : config) (lvl : level) (vpn pa : Nat) (op : op_t)
    (s : tlb_state) (hn : 1 ≤ level_size cfg lvl)
    (hlen : (level_array lvl s).length = level_size cfg lvl)
    (h0 : (slot (level_array lvl s) 0).valid = false) :
    evict_entry cfg lvl s = (0, s) ∧
    slot (level_array lvl (insert_entry cfg lvl vpn pa op s)) 0 =
      { valid := true, dirty := OP_IS_WRITE op, last_access := s.time,
        virtual_page_number := vpn, physical_page_number := pa >>> cfg.PAGE_SIZE_BITS } := by
  have he : evict_entry cfg lvl s = (0, s) :=
    evict_entry_of_free_at (by omega) h0 (fun m hm => by omega)
  refine ⟨he, ?_⟩
  rw [insert_entry_slot]
  · simp [he]
  · rw [he, hlen]
    exact hn

theorem write_back_calls (cfg : config) (c : collaborators) (op : op_t) (pfn : Nat)
    (s : tlb_state) :
    (write_back cfg c op pfn s).calls =
      s.calls ++
        if s.flag = (cfg.TLB_L2_SIZE : Int) ∧ op = op_t.OP_WRITE then
          [call.dram_access
            ((((pfn + WORD - cfg.TLB_L2_SIZE % WORD) % WORD) <<< cfg.PAGE_SIZE_BITS) % WORD)
            op_t.OP_WRITE]
        else [] := by
  unfold write_back
  by_cases h : s.flag = (cfg.TLB_L2_SIZE : Int) ∧ op = op_t.OP_WRITE
  · simp [h, OP_IS_WRITE, call_dram]
  · rw [if_neg h]
    have : (decide (s.flag = (cfg.TLB_L2_SIZE : Int)) && OP_IS_WRITE op) = false := by
      simp only [OP_IS_WRITE, Bool.and_eq_false_imp, decide_eq_true_eq, decide_eq_false_iff_not]
      exact fun h1 h2 => h ⟨h1, h2⟩
    simp [this]

/-! ## The double miss -/

theorem translate_miss_fst (cfg : config) (c : collaborators) (va vpn : Nat) (op : op_t)
    (s : tlb_state) : (translate_miss cfg c va vpn op s).1 = c.page_table_translate va op :=
  rfl

theorem translate_miss_tlb_l1 (cfg : config) (c : collaborators) (va vpn : Nat) (op : op_t)
    (s : tlb_state) :
    (translate_miss cfg c va vpn op s).2.tlb_l1 =
      (insert_entry cfg level.L1 vpn (page_align cfg (c.page_table_translate va op)) op
        (miss_written_back cfg c va vpn op s)).tlb_l1 :=
  rfl

theorem translate_miss_tlb_l2 (cfg : config) (c : collaborators) (va vpn : Nat) (op : op_t)
    (s : tlb_state) :
    (translate_miss cfg c va vpn op s).2.tlb_l2 =
      (evict_entry cfg level.L1 (miss_written_back cfg c va vpn op s)).2.tlb_l2 :=
  insert_entry_L1_tlb_l2 cfg vpn (page_align cfg (c.page_table_translate va op)) op
    (miss_written_back cfg c va vpn op s)

theorem translate_miss_flag (cfg : config) (c : collaborators) (va vpn : Nat) (op : op_t)
    (s : tlb_state) : (translate_miss cfg c va vpn op s).2.flag = 1 :=
  rfl

theorem translate_miss_calls (cfg : config) (c : collaborators) (va vpn : Nat) (op : op_t)
    (s : tlb_state) :
    (translate_miss cfg c va vpn op s).2.calls =
      s.calls ++ [call.page_table_translate va op] ++
        if (miss_l2_installed cfg c va vpn op s).flag = (cfg.TLB_L2_SIZE : Int) ∧
            op = op_t.OP_WRITE then
          [call.dram_access
            ((((page_align cfg (c.page_table_translate va op) >>> cfg.PAGE_SIZE_BITS + WORD
              - cfg.TLB_L2_SIZE % WORD) % WORD) <<< cfg.PAGE_SIZE_BITS) % WORD) op_t.OP_WRITE]
        else [] := by
  have h : (translate_miss cfg c va vpn op s).2.calls =
      (miss_written_back cfg c va vpn op s).calls :=
    insert_entry_calls cfg level.L1 vpn (page_align cfg (c.page_table_translate va op)) op
      (miss_written_back cfg c va vpn op s)
  rw [h, miss_written_back, write_back_calls, miss_l2_installed, insert_entry_calls]
  rfl

@[simp] theorem miss_l2_installed_tlb_l1 (cfg : config) (c : collaborators) (va vpn : Nat)
    (op : op_t) (s : tlb_state) : (miss_l2_installed cfg c va vpn op s).tlb_l1 = s.tlb_l1 :=
  insert_entry_L2_tlb_l1 _ _ _ _ _

@[simp] theorem miss_written_back_tlb_l1 (cfg : config) (c : collaborators) (va vpn : Nat)
    (op : op_t) (s : tlb_state) : (miss_written_back cfg c va vpn op s).tlb_l1 = s.tlb_l1 := by
  rw [miss_written_back, write_back_tlb_l1, miss_l2_installed_tlb_l1]

@[simp] theorem miss_written_back_tlb_l2 (cfg : config) (c : collaborators) (va vpn : Nat)
    (op : op_t) (s : tlb_state) :
    (miss_written_back cfg c va vpn op s).tlb_l2 = (miss_l2_installed cfg c va vpn op s).tlb_l2 := by
  rw [miss_written_back, write_back_tlb_l2]

theorem int_one_eq_size (n : Nat) : ((1 : Int) = (n : Int)) ↔ n = 1 := by
  constructor
  · intro h
    exact_mod_cast h.symm
  · intro h
    rw [h]
    rfl

/-- After `tlb_translate`, L1 holds a valid entry for the translated page. -/
theorem tlb_translate_installs_l1 (cfg : config) (c : collaborators) (va : Nat) (op : op_t)
    (s : tlb_state) (hn : 1 ≤ cfg.TLB_L1_SIZE) (hlen : s.tlb_l1.length = cfg.TLB_L1_SIZE) :
    ∃ k, k < cfg.TLB_L1_SIZE ∧
      matches_vpn (tlb_translate cfg c va op s).2.tlb_l1 (va >>> cfg.PAGE_SIZE_BITS) k := by
  cases h1 : find_entry s.tlb_l1 cfg.TLB_L1_SIZE (va >>> cfg.PAGE_SIZE_BITS) with
  | some i =>
    obtain ⟨a, b, _⟩ := find_entry_some h1
    refine ⟨i, a, ?_⟩
    rw [tlb_translate_l1_hit h1]
    have ht : (translate_l1_hit cfg (va >>> cfg.PAGE_SIZE_BITS) (va &&& PAGE_OFFSET_MASK cfg) op i
        (increment_time cfg.TLB_L1_LATENCY_NS s)).2.tlb_l1 =
        touch s.tlb_l1 i (s.time + cfg.TLB_L1_LATENCY_NS) op := by
      unfold translate_l1_hit
      simp only
      split <;> rfl
    rw [ht]
    unfold matches_vpn at b ⊢
    rw [((same_tags_touch _ _ _ _) i).1, ((same_tags_touch _ _ _ _) i).2]
    exact b
  | none =>
    cases h2 : find_entry s.tlb_l2 cfg.TLB_L2_SIZE (va >>> cfg.PAGE_SIZE_BITS) with
    | some j =>
      rw [tlb_translate_l2_hit h1 h2]
      obtain ⟨k, hk, hs⟩ := translate_l2_hit_slot_l1 cfg (va >>> cfg.PAGE_SIZE_BITS)
        (va &&& PAGE_OFFSET_MASK cfg) op j (after_l1_miss cfg s) hn hlen
        (find_entry_none.mp h1) (find_entry_some h2).2.1
      refine ⟨k, hk, ?_⟩
      unfold matches_vpn
      rw [hs k]
      simp
    | none =>
      rw [tlb_translate_miss h1 h2, translate_miss_tlb_l1]
      have hk : (evict_entry cfg level.L1 (miss_written_back cfg c va (va >>> cfg.PAGE_SIZE_BITS) op
          (after_l2_miss cfg s))).1 < cfg.TLB_L1_SIZE :=
        @evict_entry_lt cfg level.L1 _ hn
      refine ⟨_, hk, ?_⟩
      have := insert_entry_slot cfg level.L1 (va >>> cfg.PAGE_SIZE_BITS)
        (page_align cfg (c.page_table_translate va op)) op
        (miss_written_back cfg c va (va >>> cfg.PAGE_SIZE_BITS) op (after_l2_miss cfg s))
        (evict_entry cfg level.L1 (miss_written_back cfg c va (va >>> cfg.PAGE_SIZE_BITS) op
          (after_l2_miss cfg s))).1
        (by
          simp only [level_array, miss_written_back_tlb_l1, after_l2_miss_tlb_l1, hlen]
          exact hk)
      simp only [level_array, if_true] at this
      unfold matches_vpn
      rw [this]
      exact ⟨rfl, rfl⟩

/-- A 64-bit address is its frame number shifted back, with its page offset. -/
theorem address_reassemble (pa b : Nat) (hpa : pa < 2 ^ 64) :
    (((pa >>> b) <<< b) % 2 ^ 64) ||| (pa &&& (2 ^ b - 1)) = pa := by
  apply Nat.eq_of_testBit_eq
  intro i
  simp only [Nat.testBit_or, Nat.testBit_and, Nat.testBit_mod_two_pow, Nat.testBit_shiftLeft,
    Nat.testBit_shiftRight, Nat.testBit_two_pow_sub_one]
  by_cases h64 : i < 64
  · by_cases hb : i < b
    · have : ¬ i ≥ b := by omega
      simp [h64, hb, this]
    · have hge : i ≥ b := by omega
      have : b + (i - b) = i := by omega
      simp [h64, hb, hge, this]
  · have := testBit_of_lt_word hpa (Nat.le_of_not_lt h64)
    simp [h64, this]

/-- The L1 array after the first translation that follows `tlb_init`. -/
theorem cold_miss_l1 (cfg : config) (c : collaborators) (va : Nat) (op : op_t) (s0 : tlb_state)
    (hn1 : 1 ≤ cfg.TLB_L1_SIZE) :
    (tlb_translate cfg c va op (tlb_init cfg s0)).1 = c.page_table_translate va op ∧
    slot (tlb_translate cfg c va op (tlb_init cfg s0)).2.tlb_l1 0 =
      { valid := true, dirty := OP_IS_WRITE op,
        last_access := (miss_written_back cfg c va (va >>> cfg.PAGE_SIZE_BITS) op
          (after_l2_miss cfg (tlb_init cfg s0))).time,
        virtual_page_number := va >>> cfg.PAGE_SIZE_BITS,
        physical_page_number :=
          page_align cfg (c.page_table_translate va op) >>> cfg.PAGE_SIZE_BITS } := by
  have hm1 : find_entry (tlb_init cfg s0).tlb_l1 cfg.TLB_L1_SIZE (va >>> cfg.PAGE_SIZE_BITS)
      = none := find_entry_replicate _ _ _
  have hm2 : find_entry (tlb_init cfg s0).tlb_l2 cfg.TLB_L2_SIZE (va >>> cfg.PAGE_SIZE_BITS)
      = none := find_entry_replicate _ _ _
  rw [tlb_translate_miss hm1 hm2]
  obtain ⟨_, i1⟩ := insert_entry_slot_zero cfg level.L1 (va >>> cfg.PAGE_SIZE_BITS)
    (page_align cfg (c.page_table_translate va op)) op
    (miss_written_back cfg c va (va >>> cfg.PAGE_SIZE_BITS) op
      (after_l2_miss cfg (tlb_init cfg s0))) hn1
    (by simp [level_array, level_size, tlb_init])
    (by
      simp only [level_array, miss_written_back_tlb_l1]
      show (slot (List.replicate cfg.TLB_L1_SIZE zero_entry) 0).valid = false
      rw [slot_replicate]
      rfl)
  simp only [level_array] at i1
  refine ⟨rfl, ?_⟩
  rw [translate_miss_tlb_l1]
  exact i1

/-! ## Frame numbers stay in range -/

theorem shift_back_le (y b : Nat) : (y >>> b) <<< b ≤ y := by
  rw [Nat.shiftRight_eq_div_pow, Nat.shiftLeft_eq]
  exact Nat.div_mul_le_self y (2 ^ b)

theorem page_align_lt (cfg : config) (pa : Nat) (hb : cfg.PAGE_SIZE_BITS ≤ 64) :
    page_align cfg pa < WORD := by
  unfold page_align
  have h1 : (WORD - 1) ^^^ PAGE_OFFSET_MASK cfg < 2 ^ 64 := by
    apply Nat.xor_lt_two_pow
    · unfold WORD
      omega
    · unfold PAGE_OFFSET_MASK
      have : 2 ^ cfg.PAGE_SIZE_BITS ≤ 2 ^ 64 := Nat.pow_le_pow_right (by decide) hb
      have : 0 < 2 ^ cfg.PAGE_SIZE_BITS := Nat.two_pow_pos _
      omega
  exact lt_of_le_of_lt Nat.and_le_right h1

theorem frames_fit_replicate (cfg : config) (n : Nat) :
    frames_fit cfg (List.replicate n zero_entry) := by
  intro m
  rw [slot_replicate]
  simp [zero_entry, WORD]

theorem frames_fit_of_pfn {cfg : config} {a b : List tlb_entry_t}
    (h : ∀ m, (slot b m).physical_page_number = (slot a m).physical_page_number)
    (ha : frames_fit cfg a) : frames_fit cfg b := by
  intro m
  rw [h m]
  exact ha m

theorem frames_fit_set {cfg : config} {a : List tlb_entry_t} (k : Nat) (e : tlb_entry_t)
    (ha : frames_fit cfg a) (he : e.physical_page_number <<< cfg.PAGE_SIZE_BITS < WORD) :
    frames_fit cfg (a.set k e) := by
  intro m
  rw [slot_set]
  split
  · exact he
  · exact ha m

theorem touch_pfn (tlb : List tlb_entry_t) (i now : Nat) (op : op_t) (m : Nat) :
    (slot (touch tlb i now op) m).physical_page_number = (slot tlb m).physical_page_number := by
  rw [slot_touch]
  split
  · rename_i h
    rw [h.1]
  · rfl

theorem evict_entry_pfn (cfg : config) (lvl : level) (s : tlb_state) (m : Nat) :
    (slot (level_array lvl (evict_entry cfg lvl s).2) m).physical_page_number =
      (slot (level_array lvl s) m).physical_page_number := by
  rw [evict_entry_slot]
  split <;> rfl

theorem insert_entry_level_array (cfg : config) (lvl : level) (vpn pa : Nat) (op : op_t)
    (s : tlb_state) :
    level_array lvl (insert_entry cfg lvl vpn pa op s) =
      (level_array lvl (evict_entry cfg lvl s).2).set (evict_entry cfg lvl s).1
        { valid := true, dirty := OP_IS_WRITE op, last_access := s.time,
          virtual_page_number := vpn, physical_page_number := pa >>> cfg.PAGE_SIZE_BITS } := by
  unfold insert_entry
  simp only [level_array_set, get_time, evict_entry_time]

theorem frames_fit_insert_entry (cfg : config) (lvl : level) (vpn pa : Nat) (op : op_t)
    (s : tlb_state) (hpa : pa < WORD) (h : frames_fit cfg (level_array lvl s)) :
    frames_fit cfg (level_array lvl (insert_entry cfg lvl vpn pa op s)) := by
  rw [insert_entry_level_array]
  apply frames_fit_set
  · exact frames_fit_of_pfn (evict_entry_pfn cfg lvl s) h
  · exact lt_of_le_of_lt (shift_back_le _ _) hpa

theorem translate_l1_hit_tlb_l1 (cfg : config) (vpn offset : Nat) (op : op_t) (i : Nat)
    (s : tlb_state) :
    (translate_l1_hit cfg vpn offset op i s).2.tlb_l1 = touch s.tlb_l1 i s.time op := by
  unfold translate_l1_hit
  simp only
  split <;> rfl

theorem translate_l1_hit_tlb_l2 (cfg : config) (vpn offset : Nat) (op : op_t) (i : Nat)
    (s : tlb_state) :
    (translate_l1_hit cfg vpn offset op i s).2.tlb_l2 =
      match find_entry s.tlb_l2 cfg.TLB_L2_SIZE vpn with
      | some j => touch s.tlb_l2 j s.time op
      | none => s.tlb_l2 := by
  unfold translate_l1_hit
  simp only
  cases find_entry s.tlb_l2 cfg.TLB_L2_SIZE vpn <;> rfl

theorem frames_fit_invalidate_scan (cfg : config) (vpn k i : Nat) (tlb : List tlb_entry_t)
    (count : Nat) (h : frames_fit cfg tlb) :
    frames_fit cfg (invalidate_scan vpn k i tlb count).1 := by
  apply frames_fit_of_pfn _ h
  intro m
  rw [(invalidate_scan_spec vpn k i tlb count).1 m]
  split <;> rfl

/-- In every reachable state the frame numbers held in both levels are those of
64-bit physical addresses (for a page-size bit width of at most 64). -/
theorem frames_fit_reachable (cfg : config) (hb : cfg.PAGE_SIZE_BITS ≤ 64) {s : tlb_state}
    (h : reachable cfg s) : frames_fit cfg s.tlb_l1 ∧ frames_fit cfg s.tlb_l2 := by
  induction h with
  | init s => exact ⟨frames_fit_replicate cfg _, frames_fit_replicate cfg _⟩
  | invalidate v s _ ih =>
    exact ⟨frames_fit_invalidate_scan cfg _ _ _ _ _ ih.1,
      frames_fit_invalidate_scan cfg _ _ _ _ _ ih.2⟩
  | translate c va op s _ ih =>
    obtain ⟨ih1, ih2⟩ := ih
    cases h1 : find_entry s.tlb_l1 cfg.TLB_L1_SIZE (va >>> cfg.PAGE_SIZE_BITS) with
    | some i =>
      rw [tlb_translate_l1_hit h1, translate_l1_hit_tlb_l1, translate_l1_hit_tlb_l2]
      refine ⟨frames_fit_of_pfn (touch_pfn _ _ _ _) ih1, ?_⟩
      split
      · exact frames_fit_of_pfn (touch_pfn _ _ _ _) ih2
      · exact ih2
    | none =>
      cases h2 : find_entry s.tlb_l2 cfg.TLB_L2_SIZE (va >>> cfg.PAGE_SIZE_BITS) with
      | some j =>
        rw [tlb_translate_l2_hit h1 h2, translate_l2_hit_tlb_l1, translate_l2_hit_tlb_l2]
        constructor
        · apply frames_fit_set
          · have := evict_entry_pfn cfg level.L1
              { after_l1_miss cfg s with
                tlb_l2_hits := ((after_l1_miss cfg s).tlb_l2_hits + 1) % WORD,
                tlb_l2 := touch (after_l1_miss cfg s).tlb_l2 j (after_l1_miss cfg s).time op }
            exact frames_fit_of_pfn this ih1
          · exact lt_of_le_of_lt (shift_back_le _ _) (Nat.mod_lt _ (by decide))
        · apply frames_fit_of_pfn (evict_entry_L1_pfn_l2 cfg _)
          exact frames_fit_of_pfn (touch_pfn _ _ _ _) ih2
      | none =>
        rw [tlb_translate_miss h1 h2, translate_miss_tlb_l1, translate_miss_tlb_l2]
        have hl2 : frames_fit cfg (miss_l2_installed cfg c va (va >>> cfg.PAGE_SIZE_BITS) op
            (after_l2_miss cfg s)).tlb_l2 :=
          frames_fit_insert_entry cfg level.L2 _ _ op (call_page_table c va op (after_l2_miss cfg s)).2
            (page_align_lt cfg _ hb) ih2
        constructor
        · apply frames_fit_insert_entry cfg level.L1 _ _ op _ (page_align_lt cfg _ hb)
          simp only [level_array, miss_written_back_tlb_l1, after_l2_miss_tlb_l1]
          exact ih1
        · apply frames_fit_of_pfn (evict_entry_L1_pfn_l2 cfg _)
          rw [miss_written_back_tlb_l2]
          exact hl2

/-! ## Clock -/

theorem write_back_time (cfg : config) (c : collaborators) (op : op_t) (pfn : Nat)
    (s : tlb_state) :
    (write_back cfg c op pfn s).time =
      if s.flag = (cfg.TLB_L2_SIZE : Int) ∧ op = op_t.OP_WRITE then
        c.dram_clock
          ((((pfn + WORD - cfg.TLB_L2_SIZE % WORD) % WORD) <<< cfg.PAGE_SIZE_BITS) % WORD)
          op_t.OP_WRITE s.time
      else s.time := by
  unfold write_back
  by_cases h : s.flag = (cfg.TLB_L2_SIZE : Int) ∧ op = op_t.OP_WRITE
  · simp [h, OP_IS_WRITE, call_dram]
  · rw [if_neg h]
    have : (decide (s.flag = (cfg.TLB_L2_SIZE : Int)) && OP_IS_WRITE op) = false := by
      simp only [OP_IS_WRITE, Bool.and_eq_false_imp, decide_eq_true_eq, decide_eq_false_iff_not]
      exact fun h1 h2 => h ⟨h1, h2⟩
    simp [this]

theorem translate_l1_hit_time (cfg : config) (vpn offset : Nat) (op : op_t) (i : Nat)
    (s : tlb_state) : (translate_l1_hit cfg vpn offset op i s).2.time = s.time := by
  unfold translate_l1_hit
  simp only
  cases find_entry s.tlb_l2 cfg.TLB_L2_SIZE vpn <;> rfl

theorem translate_l2_hit_time (cfg : config) (vpn offset : Nat) (op : op_t) (j : Nat)
    (s : tlb_state) : (translate_l2_hit cfg vpn offset op j s).2.time = s.time := by
  unfold translate_l2_hit
  simp

theorem translate_miss_time (cfg : config) (c : collaborators) (va vpn : Nat) (op : op_t)
    (s : tlb_state) :
    (translate_miss cfg c va vpn op s).2.time =
      if (miss_l2_installed cfg c va vpn op s).flag = (cfg.TLB_L2_SIZE : Int) ∧
          op = op_t.OP_WRITE then
        c.dram_clock
          ((((page_align cfg (c.page_table_translate va op) >>> cfg.PAGE_SIZE_BITS + WORD
            - cfg.TLB_L2_SIZE % WORD) % WORD) <<< cfg.PAGE_SIZE_BITS) % WORD) op_t.OP_WRITE
          (c.page_table_clock va op s.time)
      else c.page_table_clock va op s.time := by
  have h : (translate_miss cfg c va vpn op s).2.time =
      (miss_written_back cfg c va vpn op s).time :=
    insert_entry_time cfg level.L1 vpn (page_align cfg (c.page_table_translate va op)) op
      (miss_written_back cfg c va vpn op s)
  have h2 : (miss_l2_installed cfg c va vpn op s).time = c.page_table_clock va op s.time := by
    rw [miss_l2_installed, insert_entry_time]
    rfl
  rw [h, miss_written_back, write_back_time, h2]

theorem tlb_invalidate_time (cfg : config) (v : Nat) (s : tlb_state) :
    (tlb_invalidate cfg v s).time = s.time + cfg.TLB_L1_LATENCY_NS + cfg.TLB_L2_LATENCY_NS :=
  rfl

theorem after_l2_miss_time (cfg : config) (s : tlb_state) :
    (after_l2_miss cfg s).time = s.time + cfg.TLB_L1_LATENCY_NS + cfg.TLB_L2_LATENCY_NS :=
  rfl

theorem evict_entry_L1_la_l2 (cfg : config) (s : tlb_state) (m : Nat) :
    (slot (evict_entry cfg level.L1 s).2.tlb_l2 m).last_access = (slot s.tlb_l2 m).last_access := by
  rw [evict_entry_L1_slot_l2]
  split <;> rfl

theorem touch_la_self (tlb : List tlb_entry_t) (i now : Nat) (op : op_t)
    (h : i < tlb.length) : (slot (touch tlb i now op) i).last_access = now := by
  rw [slot_touch]
  simp [h]

/-! ## The L1 hit -/

theorem slot_touch_at (tlb : List tlb_entry_t) (i now : Nat) (op : op_t) (m : Nat)
    (h : i < tlb.length) :
    slot (touch tlb i now op) m =
      if m = i then
        { slot tlb i with last_access := now, dirty := (slot tlb i).dirty || OP_IS_WRITE op }
      else slot tlb m := by
  rw [slot_touch]
  simp [h]

theorem translate_l1_hit_flag (cfg : config) (vpn offset : Nat) (op : op_t) (i : Nat)
    (s : tlb_state) : (translate_l1_hit cfg vpn offset op i s).2.flag = s.flag := by
  unfold translate_l1_hit
  simp only
  cases find_entry s.tlb_l2 cfg.TLB_L2_SIZE vpn <;> rfl

/-! ## The write-back address -/

/-- The wrapped subtraction of the write-back statement is subtraction modulo `2 ^ 64`. -/
theorem evicted_pfn_eq (pfn size : Nat) :
    (((pfn + WORD - size % WORD) % WORD : Nat) : Int) = ((pfn : Int) - (size : Int)) % (WORD : Int) := by
  unfold WORD
  norm_num
  omega

/-! ## Flag -/

theorem tlb_invalidate_flag (cfg : config) (v : Nat) (s : tlb_state) :
    (tlb_invalidate cfg v s).flag = s.flag :=
  rfl

theorem evict_entry_counters (cfg : config) (lvl : level) (s : tlb_state) :
    counters (evict_entry cfg lvl s).2 = counters s := by
  simp [counters, get_total_tlb_l1_hits, get_total_tlb_l1_misses, get_total_tlb_l1_invalidations,
    get_total_tlb_l2_hits, get_total_tlb_l2_misses, get_total_tlb_l2_invalidations]

/-! ## Flag along operations -/

theorem not_full_iff {tlb : List tlb_entry_t} {size : Nat} :
    ¬ is_full tlb size ↔ ∃ i, scan_from (fun i => !(slot tlb i).valid) size 0 = some i := by
  constructor
  · intro h
    cases hs : scan_from (fun i => !(slot tlb i).valid) size 0 with
    | none => exact absurd (first_free_none.mp hs) h
    | some i => exact ⟨i, rfl⟩
  · rintro ⟨i, hi⟩ hf
    rw [first_free_none.mpr hf] at hi
    cases hi

theorem evict_entry_flag (cfg : config) (lvl : level) (s : tlb_state) :
    (evict_entry cfg lvl s).2.flag =
      if is_full (level_array lvl s) (level_size cfg lvl) then
        flag_after (level_size cfg lvl - 1) s.flag
      else s.flag := by
  by_cases hf : is_full (level_array lvl s) (level_size cfg lvl)
  · rw [if_pos hf]
    exact (evict_entry_of_full hf).2
  · rw [if_neg hf]
    obtain ⟨i, hi⟩ := not_full_iff.mp hf
    rw [evict_entry_free hi]

theorem translate_l2_hit_flag (cfg : config) (vpn offset : Nat) (op : op_t) (j : Nat)
    (s : tlb_state) :
    (translate_l2_hit cfg vpn offset op j s).2.flag =
      if is_full s.tlb_l1 cfg.TLB_L1_SIZE then flag_after (cfg.TLB_L1_SIZE - 1) s.flag
      else s.flag := by
  have h : (translate_l2_hit cfg vpn offset op j s).2.flag =
      (evict_entry cfg level.L1
        { s with tlb_l2_hits := (s.tlb_l2_hits + 1) % WORD,
                 tlb_l2 := touch s.tlb_l2 j s.time op }).2.flag := by
    unfold translate_l2_hit
    simp [get_time]
  rw [h, evict_entry_flag]
  rfl

theorem miss_l2_installed_flag (cfg : config) (c : collaborators) (va vpn : Nat) (op : op_t)
    (s : tlb_state) :
    (miss_l2_installed cfg c va vpn op s).flag =
      if is_full s.tlb_l2 cfg.TLB_L2_SIZE then flag_after (cfg.TLB_L2_SIZE - 1) s.flag
      else s.flag := by
  rw [miss_l2_installed, insert_entry_flag, evict_entry_flag]
  rfl

/-- The flag after `tlb_translate`, by the branch taken. -/
theorem tlb_translate_flag (cfg : config) (c : collaborators) (va : Nat) (op : op_t)
    (s : tlb_state) :
    (¬ holds_none s.tlb_l1 cfg.TLB_L1_SIZE (va >>> cfg.PAGE_SIZE_BITS) →
      (tlb_translate cfg c va op s).2.flag = s.flag) ∧
    (holds_none s.tlb_l1 cfg.TLB_L1_SIZE (va >>> cfg.PAGE_SIZE_BITS) →
      ¬ holds_none s.tlb_l2 cfg.TLB_L2_SIZE (va >>> cfg.PAGE_SIZE_BITS) →
      (tlb_translate cfg c va op s).2.flag =
        if is_full s.tlb_l1 cfg.TLB_L1_SIZE then flag_after (cfg.TLB_L1_SIZE - 1) s.flag
        else s.flag) ∧
    (holds_none s.tlb_l1 cfg.TLB_L1_SIZE (va >>> cfg.PAGE_SIZE_BITS) →
      holds_none s.tlb_l2 cfg.TLB_L2_SIZE (va >>> cfg.PAGE_SIZE_BITS) →
      (tlb_translate cfg c va op s).2.flag = 1) := by
  refine ⟨fun h1 => ?_, fun h1 h2 => ?_, fun h1 h2 => ?_⟩
  · cases hf : find_entry s.tlb_l1 cfg.TLB_L1_SIZE (va >>> cfg.PAGE_SIZE_BITS) with
    | none => exact absurd (find_entry_none.mp hf) h1
    | some i =>
      rw [tlb_translate_l1_hit hf, translate_l1_hit_flag]
      rfl
  · cases hf : find_entry s.tlb_l2 cfg.TLB_L2_SIZE (va >>> cfg.PAGE_SIZE_BITS) with
    | none => exact absurd (find_entry_none.mp hf) h2
    | some j =>
      rw [tlb_translate_l2_hit (find_entry_none.mpr h1) hf, translate_l2_hit_flag]
      rfl
  · rw [tlb_translate_miss (find_entry_none.mpr h1) (find_entry_none.mpr h2)]
    rfl

/-- An operation that is not a double miss leaves `flag` where it was or adds
the `TLB_L1_SIZE - 1` probe steps of a promotion, as long as the `int` does not
overflow. -/
theorem flag_step_bounds (cfg : config) (o : operation) (s : tlb_state)
    (h : ¬ is_double_miss cfg o s) (hlo : -(2 ^ 31) ≤ s.flag)
    (hhi : s.flag + ((cfg.TLB_L1_SIZE - 1 : Nat) : Int) < 2 ^ 31) :
    s.flag ≤ (step cfg o s).flag ∧
      (step cfg o s).flag ≤ s.flag + ((cfg.TLB_L1_SIZE - 1 : Nat) : Int) := by
  have hnn : (0 : Int) ≤ ((cfg.TLB_L1_SIZE - 1 : Nat) : Int) := Int.ofNat_nonneg _
  cases o with
  | invalidate v =>
    show s.flag ≤ s.flag ∧ s.flag ≤ s.flag + _
    omega
  | translate c va op =>
    simp only [step]
    obtain ⟨a, b, _⟩ := tlb_translate_flag cfg c va op s
    by_cases h1 : holds_none s.tlb_l1 cfg.TLB_L1_SIZE (va >>> cfg.PAGE_SIZE_BITS)
    · have h2 : ¬ holds_none s.tlb_l2 cfg.TLB_L2_SIZE (va >>> cfg.PAGE_SIZE_BITS) :=
        fun h2 => h ⟨h1, h2⟩
      rw [b h1 h2]
      split
      · rw [flag_after_of_range hlo hhi]
        omega
      · omega
    · rw [a h1]
      omega

/-- A run without a double miss never lowers `flag` and adds at most
`TLB_L1_SIZE - 1` per operation, as long as the `int` does not overflow. -/
theorem flag_run_bounds (cfg : config) (os : List operation) :
    ∀ s, no_double_miss cfg os s → -(2 ^ 31) ≤ s.flag →
      s.flag + ((os.length * (cfg.TLB_L1_SIZE - 1) : Nat) : Int) < 2 ^ 31 →
      s.flag ≤ (run cfg os s).flag ∧
        (run cfg os s).flag ≤ s.flag + ((os.length * (cfg.TLB_L1_SIZE - 1) : Nat) : Int) := by
  induction os with
  | nil =>
    intro s _ _ _
    simp [run]
  | cons o os ih =>
    intro s h hlo hhi
    have e : (((o :: os).length * (cfg.TLB_L1_SIZE - 1) : Nat) : Int) =
        ((cfg.TLB_L1_SIZE - 1 : Nat) : Int) + ((os.length * (cfg.TLB_L1_SIZE - 1) : Nat) : Int) := by
      rw [List.length_cons, Nat.succ_mul]
      push_cast
      ring
    rw [e] at hhi ⊢
    have hnn : (0 : Int) ≤ ((os.length * (cfg.TLB_L1_SIZE - 1) : Nat) : Int) := Int.ofNat_nonneg _
    obtain ⟨s1, s2⟩ := flag_step_bounds cfg o s h.1 hlo (by omega)
    obtain ⟨r1, r2⟩ := ih (step cfg o s) h.2 (by omega) (by omega)
    have er : run cfg (o :: os) s = run cfg os (step cfg o s) := rfl
    rw [er]
    constructor <;> omega

/-! ## Frame numbers stay in range, for every page-size bit width -/

theorem page_align_frame_fits (cfg : config) (pa : Nat) :
    (page_align cfg pa >>> cfg.PAGE_SIZE_BITS) <<< cfg.PAGE_SIZE_BITS < WORD := by
  by_cases hb : cfg.PAGE_SIZE_BITS ≤ 64
  · exact lt_of_le_of_lt (shift_back_le _ _) (page_align_lt cfg pa hb)
  · have hge : 64 ≤ cfg.PAGE_SIZE_BITS := by omega
    have hpow : 2 ^ 64 ≤ 2 ^ cfg.PAGE_SIZE_BITS := Nat.pow_le_pow_right (by decide) hge
    have hx : (WORD - 1) ^^^ PAGE_OFFSET_MASK cfg < 2 ^ cfg.PAGE_SIZE_BITS := by
      apply Nat.xor_lt_two_pow
      · unfold WORD
        omega
      · unfold PAGE_OFFSET_MASK
        have : 0 < 2 ^ cfg.PAGE_SIZE_BITS := Nat.two_pow_pos _
        omega
    have hlt : page_align cfg pa < 2 ^ cfg.PAGE_SIZE_BITS :=
      lt_of_le_of_lt Nat.and_le_right hx
    have hz : page_align cfg pa >>> cfg.PAGE_SIZE_BITS = 0 := by
      rw [Nat.shiftRight_eq_div_pow]
      exact Nat.div_eq_of_lt hlt
    rw [hz]
    simp [WORD]

theorem frames_fit_insert_page (cfg : config) (lvl : level) (vpn pa : Nat) (op : op_t)
    (s : tlb_state) (h : frames_fit cfg (level_array lvl s)) :
    frames_fit cfg (level_array lvl (insert_entry cfg lvl vpn (page_align cfg pa) op s)) := by
  rw [insert_entry_level_array]
  apply frames_fit_set
  · exact frames_fit_of_pfn (evict_entry_pfn cfg lvl s) h
  · exact page_align_frame_fits cfg pa

/-- In every reachable state the frame numbers held in both levels are those of
64-bit physical addresses. -/
theorem frames_fit_of_reachable (cfg : config) {s : tlb_state} (h : reachable cfg s) :
    frames_fit cfg s.tlb_l1 ∧ frames_fit cfg s.tlb_l2 := by
  induction h with
  | init s => exact ⟨frames_fit_replicate cfg _, frames_fit_replicate cfg _⟩
  | invalidate v s _ ih =>
    exact ⟨frames_fit_invalidate_scan cfg _ _ _ _ _ ih.1,
      frames_fit_invalidate_scan cfg _ _ _ _ _ ih.2⟩
  | translate c va op s _ ih =>
    obtain ⟨ih1, ih2⟩ := ih
    cases h1 : find_entry s.tlb_l1 cfg.TLB_L1_SIZE (va >>> cfg.PAGE_SIZE_BITS) with
    | some i =>
      rw [tlb_translate_l1_hit h1, translate_l1_hit_tlb_l1, translate_l1_hit_tlb_l2]
      refine ⟨frames_fit_of_pfn (touch_pfn _ _ _ _) ih1, ?_⟩
      split
      · exact frames_fit_of_pfn (touch_pfn _ _ _ _) ih2
      · exact ih2
    | none =>
      cases h2 : find_entry s.tlb_l2 cfg.TLB_L2_SIZE (va >>> cfg.PAGE_SIZE_BITS) with
      | some j =>
        rw [tlb_translate_l2_hit h1 h2, translate_l2_hit_tlb_l1, translate_l2_hit_tlb_l2]
        constructor
        · apply frames_fit_set
          · have := evict_entry_pfn cfg level.L1
              { after_l1_miss cfg s with
                tlb_l2_hits := ((after_l1_miss cfg s).tlb_l2_hits + 1) % WORD,
                tlb_l2 := touch (after_l1_miss cfg s).tlb_l2 j (after_l1_miss cfg s).time op }
            exact frames_fit_of_pfn this ih1
          · exact lt_of_le_of_lt (shift_back_le _ _) (Nat.mod_lt _ (by decide))
        · apply frames_fit_of_pfn (evict_entry_L1_pfn_l2 cfg _)
          exact frames_fit_of_pfn (touch_pfn _ _ _ _) ih2
      | none =>
        rw [tlb_translate_miss h1 h2, translate_miss_tlb_l1, translate_miss_tlb_l2]
        have hl2 : frames_fit cfg (miss_l2_installed cfg c va (va >>> cfg.PAGE_SIZE_BITS) op
            (after_l2_miss cfg s)).tlb_l2 :=
          frames_fit_insert_page cfg level.L2 _ _ op (call_page_table c va op (after_l2_miss cfg s)).2
            ih2
        constructor
        · apply frames_fit_insert_page cfg level.L1 _ _ op _
          simp only [level_array, miss_written_back_tlb_l1, after_l2_miss_tlb_l1]
          exact ih1
        · apply frames_fit_of_pfn (evict_entry_L1_pfn_l2 cfg _)
          rw [miss_written_back_tlb_l2]
          exact hl2

/-! ## Cross-level coherence -/

theorem coherent_sub {a1 a2 b1 b2 : List tlb_entry_t} (h : coherent a1 a2)
    (h1 : ∀ m, (slot b1 m).valid = true → slot b1 m = slot a1 m)
    (h2 : ∀ m, (slot b2 m).valid = true → slot b2 m = slot a2 m) : coherent b1 b2 := by
  intro i j hi hj hv
  have e1 := h1 i hi
  have e2 := h2 j hj
  rw [e1] at hi hv ⊢
  rw [e2] at hj hv ⊢
  exact h i j hi hj hv

/-- Coherence after the entries of one page `v` have been written: the entries
of the other pages are as before, the entries of `v` agree with each other. -/
theorem coherent_update {a1 a2 b1 b2 : List tlb_entry_t} (v : Nat) (h : coherent a1 a2)
    (h1 : ∀ i, (slot b1 i).valid = true → (slot b1 i).virtual_page_number ≠ v →
      slot b1 i = slot a1 i)
    (h2 : ∀ j, (slot b2 j).valid = true → (slot b2 j).virtual_page_number ≠ v →
      slot b2 j = slot a2 j)
    (hv : ∀ i j, (slot b1 i).valid = true → (slot b2 j).valid = true →
      (slot b1 i).virtual_page_number = v → (slot b2 j).virtual_page_number = v →
      (slot b1 i).physical_page_number = (slot b2 j).physical_page_number ∧
        (slot b1 i).dirty = (slot b2 j).dirty) : coherent b1 b2 := by
  intro i j hi hj hvpn
  by_cases hiv : (slot b1 i).virtual_page_number = v
  · exact hv i j hi hj hiv (hvpn ▸ hiv)
  · have hjv : (slot b2 j).virtual_page_number ≠ v := fun e => hiv (hvpn.trans e)
    have e1 := h1 i hi hiv
    have e2 := h2 j hj hjv
    rw [e1] at hi hvpn ⊢
    rw [e2] at hj hvpn ⊢
    exact h i j hi hj hvpn

theorem coherent_replicate (n m : Nat) :
    coherent (List.replicate n zero_entry) (List.replicate m zero_entry) := by
  intro i j hi
  rw [slot_replicate] at hi
  simp [zero_entry] at hi

/-- With coherent levels the dirty propagation of `evict_entry` writes a flag
that is already set: L2 is left as it was. -/
theorem evict_entry_L1_tlb_l2_of_coherent (cfg : config) (s : tlb_state)
    (h : coherent s.tlb_l1 s.tlb_l2) : (evict_entry cfg level.L1 s).2.tlb_l2 = s.tlb_l2 := by
  apply list_eq_of_slot (evict_entry_length_l2 _ _ _)
  intro m
  rw [evict_entry_L1_slot_l2]
  split
  · rename_i hc
    obtain ⟨_, hvalid, hdirty, hfind⟩ := hc
    have hm := (find_entry_some hfind).2.1
    have := (h _ m hvalid hm.1 hm.2.symm).2
    rw [hdirty] at this
    cases he : slot s.tlb_l2 m
    rw [he] at this
    simp only at this
    simp [← this]
  · rfl

/-- A valid slot of a level after a write into the slot `evict_entry` returned
is the written entry or a slot that was there before. -/
theorem inserted_slot_cases (cfg : config) (lvl : level) (s : tlb_state) (e : tlb_entry_t)
    (m : Nat)
    (hv : (slot ((level_array lvl (evict_entry cfg lvl s).2).set (evict_entry cfg lvl s).1 e)
      m).valid = true) :
    slot ((level_array lvl (evict_entry cfg lvl s).2).set (evict_entry cfg lvl s).1 e) m = e ∨
    slot ((level_array lvl (evict_entry cfg lvl s).2).set (evict_entry cfg lvl s).1 e) m =
      slot (level_array lvl s) m := by
  rw [slot_set] at hv ⊢
  by_cases hc : (evict_entry cfg lvl s).1 = m ∧
      (evict_entry cfg lvl s).1 < (level_array lvl (evict_entry cfg lvl s).2).length
  · rw [if_pos hc]
    exact Or.inl rfl
  · rw [if_neg hc] at hv ⊢
    rw [evict_entry_slot] at hv ⊢
    by_cases hm : m = (evict_entry cfg lvl s).1
    · rw [if_pos hm] at hv
      simp at hv
    · rw [if_neg hm]
      exact Or.inr rfl

/-- In a level of the declared size, a valid slot is a slot the lookup scans. -/
theorem not_matches_of_miss {tlb : List tlb_entry_t} {size vpn : Nat}
    (hlen : tlb.length = size) (h : find_entry tlb size vpn = none) (m : Nat) :
    ¬ matches_vpn tlb vpn m := by
  intro hm
  exact find_entry_none.mp h m (hlen ▸ slot_valid_lt hm.1) hm

/-- In a level with unique page numbers, the lookup returns the only valid slot
for the page. -/
theorem eq_of_find_entry {tlb : List tlb_entry_t} {size vpn j m : Nat}
    (hu : unique_vpn tlb) (h : find_entry tlb size vpn = some j) (hm : matches_vpn tlb vpn m) :
    m = j := by
  have hj := (find_entry_some h).2.1
  exact hu m (slot_valid_lt hm.1) j (slot_valid_lt hj.1) hm.1 hj.1 (hm.2.trans hj.2.symm)

theorem matches_vpn_touch {tlb : List tlb_entry_t} {i now : Nat} {op : op_t} {vpn m : Nat} :
    matches_vpn (touch tlb i now op) vpn m ↔ matches_vpn tlb vpn m := by
  unfold matches_vpn
  rw [((same_tags_touch tlb i now op) m).1, ((same_tags_touch tlb i now op) m).2]

theorem slot_touch_of_ne {tlb : List tlb_entry_t} {i now : Nat} {op : op_t} {m : Nat}
    (h : m ≠ i) : slot (touch tlb i now op) m = slot tlb m := by
  rw [slot_touch]
  have : ¬ (m = i ∧ i < tlb.length) := fun hh => h hh.1
  rw [if_neg this]

/-- Touching the L2 entry of a page that L1 does not hold keeps the levels coherent. -/
theorem coherent_touch_l2 {l1 l2 : List tlb_entry_t} {size vpn j now : Nat} {op : op_t}
    (h : coherent l1 l2) (hlen : l1.length = size) (hmiss : find_entry l1 size vpn = none)
    (hj : (slot l2 j).virtual_page_number = vpn) : coherent l1 (touch l2 j now op) := by
  apply coherent_update vpn h (fun i _ _ => rfl)
  · intro m _ hne
    apply slot_touch_of_ne
    intro hmj
    apply hne
    rw [hmj, ((same_tags_touch l2 j now op) j).2]
    exact hj
  · intro i m hi _ hiv _
    exact absurd ⟨hi, hiv⟩ (not_matches_of_miss hlen hmiss i)

theorem coherent_invalidate (cfg : config) (v : Nat) (s : tlb_state)
    (h : coherent s.tlb_l1 s.tlb_l2) :
    coherent (tlb_invalidate cfg v s).tlb_l1 (tlb_invalidate cfg v s).tlb_l2 := by
  apply coherent_sub h
  · intro m hm
    rw [tlb_invalidate_slot_l1] at hm ⊢
    split at hm
    · simp [cleared] at hm
    · rename_i hc
      rw [if_neg hc]
  · intro m hm
    rw [tlb_invalidate_slot_l2] at hm ⊢
    split at hm
    · simp [cleared] at hm
    · rename_i hc
      rw [if_neg hc]

theorem touched_pair {e1 e2 : tlb_entry_t} (now : Nat) (op : op_t)
    (h : e1.physical_page_number = e2.physical_page_number ∧ e1.dirty = e2.dirty) :
    ({ e1 with last_access := now, dirty := e1.dirty || OP_IS_WRITE op } : tlb_entry_t).physical_page_number =
      ({ e2 with last_access := now, dirty := e2.dirty || OP_IS_WRITE op } : tlb_entry_t).physical_page_number ∧
    ({ e1 with last_access := now, dirty := e1.dirty || OP_IS_WRITE op } : tlb_entry_t).dirty =
      ({ e2 with last_access := now, dirty := e2.dirty || OP_IS_WRITE op } : tlb_entry_t).dirty := by
  simp only
  rw [h.1, h.2]
  exact ⟨rfl, rfl⟩

theorem coherent_l1_hit (cfg : config) (vpn offset : Nat) (op : op_t) (i : Nat) (s : tlb_state)
    (hinv : tlb_inv cfg s) (h : coherent s.tlb_l1 s.tlb_l2)
    (hf : find_entry s.tlb_l1 cfg.TLB_L1_SIZE vpn = some i) :
    coherent (translate_l1_hit cfg vpn offset op i s).2.tlb_l1
      (translate_l1_hit cfg vpn offset op i s).2.tlb_l2 := by
  obtain ⟨_, hlen2, hu1, hu2⟩ := hinv
  have hi := (find_entry_some hf).2.1
  rw [translate_l1_hit_tlb_l1, translate_l1_hit_tlb_l2]
  cases hf2 : find_entry s.tlb_l2 cfg.TLB_L2_SIZE vpn with
  | none =>
    simp only
    apply coherent_update vpn h
    · intro m _ hne
      apply slot_touch_of_ne
      intro hmi
      apply hne
      rw [hmi, ((same_tags_touch s.tlb_l1 i s.time op) i).2]
      exact hi.2
    · intro m _ _
      rfl
    · intro a b _ hb _ hbv
      exact absurd ⟨hb, hbv⟩ (not_matches_of_miss hlen2 hf2 b)
  | some j =>
    simp only
    have hj := (find_entry_some hf2).2.1
    apply coherent_update vpn h
    · intro m _ hne
      apply slot_touch_of_ne
      intro hmi
      apply hne
      rw [hmi, ((same_tags_touch s.tlb_l1 i s.time op) i).2]
      exact hi.2
    · intro m _ hne
      apply slot_touch_of_ne
      intro hmj
      apply hne
      rw [hmj, ((same_tags_touch s.tlb_l2 j s.time op) j).2]
      exact hj.2
    · intro a b ha hb hav hbv
      have ea : a = i := eq_of_find_entry hu1 hf (matches_vpn_touch.mp ⟨ha, hav⟩)
      have eb : b = j := eq_of_find_entry hu2 hf2 (matches_vpn_touch.mp ⟨hb, hbv⟩)
      subst ea
      subst eb
      rw [slot_touch_at _ _ _ _ _ (slot_valid_lt hi.1), slot_touch_at _ _ _ _ _ (slot_valid_lt hj.1)]
      simp only [if_true]
      exact touched_pair s.time op (h a b hi.1 hj.1 (hi.2.trans hj.2.symm))

theorem translate_l2_hit_arrays (cfg : config) (vpn offset : Nat) (op : op_t) (j : Nat)
    (s : tlb_state) :
    (translate_l2_hit cfg vpn offset op j s).2.tlb_l1 =
      (level_array level.L1 (evict_entry cfg level.L1 (l2_hit_touched op j s)).2).set
        (evict_entry cfg level.L1 (l2_hit_touched op j s)).1
        { valid := true
          dirty := (slot (evict_entry cfg level.L1 (l2_hit_touched op j s)).2.tlb_l2 j).dirty
            || OP_IS_WRITE op
          last_access := s.time
          virtual_page_number := vpn
          physical_page_number :=
            (((slot (touch s.tlb_l2 j s.time op) j).physical_page_number <<< cfg.PAGE_SIZE_BITS)
              % WORD) >>> cfg.PAGE_SIZE_BITS } ∧
    (translate_l2_hit cfg vpn offset op j s).2.tlb_l2 =
      (evict_entry cfg level.L1 (l2_hit_touched op j s)).2.tlb_l2 :=
  ⟨translate_l2_hit_tlb_l1 cfg vpn offset op j s, translate_l2_hit_tlb_l2 cfg vpn offset op j s⟩

/-- The state in which the L2-hit branch calls `evict_entry` is coherent. -/
theorem coherent_l2_hit_touched (cfg : config) (vpn : Nat) (op : op_t) (j : Nat) (s : tlb_state)
    (hinv : tlb_inv cfg s) (h : coherent s.tlb_l1 s.tlb_l2)
    (hmiss : find_entry s.tlb_l1 cfg.TLB_L1_SIZE vpn = none)
    (hf : find_entry s.tlb_l2 cfg.TLB_L2_SIZE vpn = some j) :
    coherent (l2_hit_touched op j s).tlb_l1 (l2_hit_touched op j s).tlb_l2 :=
  coherent_touch_l2 h hinv.1 hmiss (find_entry_some hf).2.1.2

theorem coherent_l2_hit (cfg : config) (vpn offset : Nat) (op : op_t) (j : Nat) (s : tlb_state)
    (hinv : tlb_inv cfg s) (hfit : frames_fit cfg s.tlb_l2) (h : coherent s.tlb_l1 s.tlb_l2)
    (hmiss : find_entry s.tlb_l1 cfg.TLB_L1_SIZE vpn = none)
    (hf : find_entry s.tlb_l2 cfg.TLB_L2_SIZE vpn = some j) :
    coherent (translate_l2_hit cfg vpn offset op j s).2.tlb_l1
      (translate_l2_hit cfg vpn offset op j s).2.tlb_l2 := by
  have hc2 := coherent_l2_hit_touched cfg vpn op j s hinv h hmiss hf
  have he : (evict_entry cfg level.L1 (l2_hit_touched op j s)).2.tlb_l2 =
      touch s.tlb_l2 j s.time op :=
    evict_entry_L1_tlb_l2_of_coherent cfg (l2_hit_touched op j s) hc2
  obtain ⟨hlen1, _, _, hu2⟩ := hinv
  have hj := (find_entry_some hf).2.1
  obtain ⟨e1, e2⟩ := translate_l2_hit_arrays cfg vpn offset op j s
  rw [e1, e2, he]
  have hjt : slot (touch s.tlb_l2 j s.time op) j =
      { slot s.tlb_l2 j with
        last_access := s.time, dirty := (slot s.tlb_l2 j).dirty || OP_IS_WRITE op } := by
    rw [slot_touch_at _ _ _ _ _ (slot_valid_lt hj.1)]
    simp
  apply coherent_update vpn h
  · intro m hm hne
    rcases inserted_slot_cases cfg level.L1 (l2_hit_touched op j s) _ m hm with hnew | hold
    · rw [hnew] at hne
      exact absurd rfl hne
    · exact hold
  · intro m _ hne
    apply slot_touch_of_ne
    intro hmj
    apply hne
    rw [hmj, ((same_tags_touch s.tlb_l2 j s.time op) j).2]
    exact hj.2
  · intro a b ha hb hav hbv
    have eb : b = j := eq_of_find_entry hu2 hf (matches_vpn_touch.mp ⟨hb, hbv⟩)
    rw [eb]
    rcases inserted_slot_cases cfg level.L1 (l2_hit_touched op j s) _ a ha with hnew | hold
    · rw [hnew, hjt]
      simp only [Bool.or_assoc, Bool.or_self, and_true]
      exact frame_round_trip (hfit j)
    · exfalso
      rw [hold] at ha hav
      exact not_matches_of_miss hlen1 hmiss a ⟨ha, hav⟩

theorem miss_l2_installed_array (cfg : config) (c : collaborators) (va vpn : Nat) (op : op_t)
    (s : tlb_state) :
    (miss_l2_installed cfg c va vpn op s).tlb_l2 =
      (level_array level.L2 (evict_entry cfg level.L2 (call_page_table c va op s).2).2).set
        (evict_entry cfg level.L2 (call_page_table c va op s).2).1
        { valid := true, dirty := OP_IS_WRITE op,
          last_access := (call_page_table c va op s).2.time,
          virtual_page_number := vpn,
          physical_page_number :=
            page_align cfg (c.page_table_translate va op) >>> cfg.PAGE_SIZE_BITS } :=
  insert_entry_level_array cfg level.L2 vpn (page_align cfg (c.page_table_translate va op)) op
    (call_page_table c va op s).2

theorem translate_miss_l1_array (cfg : config) (c : collaborators) (va vpn : Nat) (op : op_t)
    (s : tlb_state) :
    (translate_miss cfg c va vpn op s).2.tlb_l1 =
      (level_array level.L1 (evict_entry cfg level.L1 (miss_written_back cfg c va vpn op s)).2).set
        (evict_entry cfg level.L1 (miss_written_back cfg c va vpn op s)).1
        { valid := true, dirty := OP_IS_WRITE op,
          last_access := (miss_written_back cfg c va vpn op s).time,
          virtual_page_number := vpn,
          physical_page_number :=
            page_align cfg (c.page_table_translate va op) >>> cfg.PAGE_SIZE_BITS } := by
  rw [translate_miss_tlb_l1]
  exact insert_entry_level_array cfg level.L1 vpn (page_align cfg (c.page_table_translate va op))
    op (miss_written_back cfg c va vpn op s)

/-- The state in which the double-miss branch calls `evict_entry` on L1 is coherent. -/
theorem coherent_miss_written_back (cfg : config) (c : collaborators) (va vpn : Nat) (op : op_t)
    (s : tlb_state) (hinv : tlb_inv cfg s) (h : coherent s.tlb_l1 s.tlb_l2)
    (hm1 : find_entry s.tlb_l1 cfg.TLB_L1_SIZE vpn = none) :
    coherent (miss_written_back cfg c va vpn op s).tlb_l1
      (miss_written_back cfg c va vpn op s).tlb_l2 := by
  rw [miss_written_back_tlb_l1, miss_written_back_tlb_l2, miss_l2_installed_array]
  apply coherent_update vpn h (fun _ _ _ => rfl)
  · intro m hm hne
    rcases inserted_slot_cases cfg level.L2 (call_page_table c va op s).2 _ m hm with hnew | hold
    · rw [hnew] at hne
      exact absurd rfl hne
    · exact hold
  · intro a b ha _ hav _
    exact absurd ⟨ha, hav⟩ (not_matches_of_miss hinv.1 hm1 a)

theorem coherent_miss (cfg : config) (c : collaborators) (va vpn : Nat) (op : op_t)
    (s : tlb_state) (hinv : tlb_inv cfg s) (h : coherent s.tlb_l1 s.tlb_l2)
    (hm1 : find_entry s.tlb_l1 cfg.TLB_L1_SIZE vpn = none)
    (hm2 : find_entry s.tlb_l2 cfg.TLB_L2_SIZE vpn = none) :
    coherent (translate_miss cfg c va vpn op s).2.tlb_l1
      (translate_miss cfg c va vpn op s).2.tlb_l2 := by
  have hc3 := coherent_miss_written_back cfg c va vpn op s hinv h hm1
  have he := evict_entry_L1_tlb_l2_of_coherent cfg (miss_written_back cfg c va vpn op s) hc3
  rw [translate_miss_l1_array, translate_miss_tlb_l2, he]
  apply coherent_update vpn hc3
  · intro m hm hne
    rcases inserted_slot_cases cfg level.L1 (miss_written_back cfg c va vpn op s) _ m hm with
      hnew | hold
    · rw [hnew] at hne
      exact absurd rfl hne
    · exact hold
  · intro _ _ _
    rfl
  · intro a b ha hb hav hbv
    rw [miss_written_back_tlb_l2, miss_l2_installed_array] at hb hbv ⊢
    rcases inserted_slot_cases cfg level.L1 (miss_written_back cfg c va vpn op s) _ a ha with
      hnew | hold
    · rcases inserted_slot_cases cfg level.L2 (call_page_table c va op s).2 _ b hb with
        hnew2 | hold2
      · rw [hnew, hnew2]
        exact ⟨rfl, rfl⟩
      · exfalso
        rw [hold2] at hb hbv
        exact not_matches_of_miss hinv.2.1 hm2 b ⟨hb, hbv⟩
    · exfalso
      rw [hold] at ha hav
      simp only [level_array, miss_written_back_tlb_l1] at ha hav
      exact not_matches_of_miss hinv.1 hm1 a ⟨ha, hav⟩

theorem coherent_init (cfg : config) (s : tlb_state) :
    coherent (tlb_init cfg s).tlb_l1 (tlb_init cfg s).tlb_l2 :=
  coherent_replicate _ _

/-- Coherence holds in every reachable state. -/
theorem coherent_reachable (cfg : config) {s : tlb_state} (h : reachable cfg s) :
    coherent s.tlb_l1 s.tlb_l2 := by
  induction h with
  | init s => exact coherent_init cfg s
  | invalidate v s _ ih => exact coherent_invalidate cfg v s ih
  | translate c va op s hr ih =>
    have hinv := tlb_inv_reachable hr
    have hfit := (frames_fit_of_reachable cfg hr).2
    cases h1 : find_entry s.tlb_l1 cfg.TLB_L1_SIZE (va >>> cfg.PAGE_SIZE_BITS) with
    | some i =>
      rw [tlb_translate_l1_hit h1]
      exact coherent_l1_hit cfg _ _ op i _ hinv ih h1
    | none =>
      cases h2 : find_entry s.tlb_l2 cfg.TLB_L2_SIZE (va >>> cfg.PAGE_SIZE_BITS) with
      | some j =>
        rw [tlb_translate_l2_hit h1 h2]
        exact coherent_l2_hit cfg _ _ op j _ hinv hfit ih h1 h2
      | none =>
        rw [tlb_translate_miss h1 h2]
        exact coherent_miss cfg c va _ op _ hinv ih h1 h2

/-! ## Counting free slots -/

theorem slot_eq_getElem (tlb : List tlb_entry_t) (k : Nat) (h : k < tlb.length) :
    slot tlb k = tlb[k] := by
  unfold slot
  exact List.getD_eq_getElem _ _ h

theorem free_count_set (tlb : List tlb_entry_t) (k : Nat) (e : tlb_entry_t)
    (h : k < tlb.length) :
    free_count (tlb.set k e) + (if (slot tlb k).valid = true then 0 else 1) =
      free_count tlb + (if e.valid = true then 0 else 1) := by
  unfold free_count
  rw [List.countP_set _ _ _ _ h, slot_eq_getElem tlb k h]
  have hle := List.boole_getElem_le_countP (fun e : tlb_entry_t => !e.valid) tlb k h
  generalize tlb[k] = x at hle ⊢
  generalize List.countP (fun e : tlb_entry_t => !e.valid) tlb = n at hle ⊢
  cases hv : x.valid <;> cases he : e.valid <;> simp [hv, he] at hle ⊢ <;> omega

/-- Writing a valid entry into a slot frees nothing, and fills a slot when the
slot was invalid. -/
theorem free_count_set_valid (tlb : List tlb_entry_t) (k : Nat) (e : tlb_entry_t)
    (h : k < tlb.length) (he : e.valid = true) :
    free_count (tlb.set k e) ≤ free_count tlb ∧
    ((slot tlb k).valid = false → free_count (tlb.set k e) + 1 = free_count tlb) ∧
    ((slot tlb k).valid = true → free_count (tlb.set k e) = free_count tlb) := by
  have := free_count_set tlb k e h
  rw [he] at this
  simp only [if_true, add_zero] at this
  refine ⟨?_, fun hv => ?_, fun hv => ?_⟩
  · omega
  · rw [hv] at this
    simpa using this
  · rw [hv] at this
    simpa using this

theorem evict_entry_lru {cfg : config} {lvl : level} {s : tlb_state}
    (hn : 1 ≤ level_size cfg lvl) (hfull : is_full (level_array lvl s) (level_size cfg lvl)) :
    (evict_entry cfg lvl s).1 < level_size cfg lvl ∧
    ∀ j, j < level_size cfg lvl →
      (slot (level_array lvl s) (evict_entry cfg lvl s).1).last_access
        ≤ (slot (level_array lvl s) j).last_access := by
  have hidx := (evict_entry_of_full hfull).1
  obtain ⟨a, b, _, _⟩ := lru_scan_start (level_array lvl s) (level_size cfg lvl) s.flag hn
  rw [← hidx] at a b
  exact ⟨a, b⟩

theorem same_tags_symm {a b : List tlb_entry_t} (h : same_tags a b) : same_tags b a :=
  fun m => ⟨(h m).1.symm, (h m).2.symm⟩

theorem same_tags_trans {a b c : List tlb_entry_t} (h1 : same_tags a b) (h2 : same_tags b c) :
    same_tags a c :=
  fun m => ⟨(h1 m).1.trans (h2 m).1, (h1 m).2.trans (h2 m).2⟩

theorem is_full_same_tags {a b : List tlb_entry_t} {size : Nat} (h : same_tags a b)
    (hf : is_full b size) : is_full a size :=
  fun i hi => ((h i).1).trans (hf i hi)

theorem matches_vpn_same_tags {a b : List tlb_entry_t} {vpn m : Nat} (h : same_tags a b) :
    matches_vpn a vpn m ↔ matches_vpn b vpn m := by
  unfold matches_vpn
  rw [(h m).1, (h m).2]

theorem holds_none_same_tags {a b : List tlb_entry_t} {size vpn : Nat} (h : same_tags a b) :
    holds_none a size vpn ↔ holds_none b size vpn := by
  unfold holds_none
  constructor
  · intro hn i hi hm
    exact hn i hi ((matches_vpn_same_tags h).mpr hm)
  · intro hn i hi hm
    exact hn i hi ((matches_vpn_same_tags h).mp hm)

/-- An L2 hit with a full L1: the L1 slot with the oldest stamp gets the page,
stamped with the time of the lookup; the other L1 slots stay; L2 keeps its
valid flags and page numbers; `flag` goes through `TLB_L1_SIZE - 1` steps. -/
theorem promotion_effect (cfg : config) (c : collaborators) (va : Nat) (op : op_t)
    (s : tlb_state) (hinv : tlb_inv cfg s) (hn1 : 1 ≤ cfg.TLB_L1_SIZE)
    (hfull : is_full s.tlb_l1 cfg.TLB_L1_SIZE)
    (h1 : holds_none s.tlb_l1 cfg.TLB_L1_SIZE (va >>> cfg.PAGE_SIZE_BITS))
    (h2 : ¬ holds_none s.tlb_l2 cfg.TLB_L2_SIZE (va >>> cfg.PAGE_SIZE_BITS)) :
    ∃ k, k < cfg.TLB_L1_SIZE ∧
      (∀ m, m < cfg.TLB_L1_SIZE →
        (slot s.tlb_l1 k).last_access ≤ (slot s.tlb_l1 m).last_access) ∧
      matches_vpn (tlb_translate cfg c va op s).2.tlb_l1 (va >>> cfg.PAGE_SIZE_BITS) k ∧
      (slot (tlb_translate cfg c va op s).2.tlb_l1 k).last_access =
        s.time + cfg.TLB_L1_LATENCY_NS + cfg.TLB_L2_LATENCY_NS ∧
      (∀ m, m ≠ k → slot (tlb_translate cfg c va op s).2.tlb_l1 m = slot s.tlb_l1 m) ∧
      same_tags (tlb_translate cfg c va op s).2.tlb_l2 s.tlb_l2 ∧
      (tlb_translate cfg c va op s).2.time =
        s.time + cfg.TLB_L1_LATENCY_NS + cfg.TLB_L2_LATENCY_NS ∧
      (tlb_translate cfg c va op s).2.flag = flag_after (cfg.TLB_L1_SIZE - 1) s.flag := by
  have hflag := (tlb_translate_flag cfg c va op s).2.1 h1 h2
  rw [if_pos hfull] at hflag
  cases hf2 : find_entry s.tlb_l2 cfg.TLB_L2_SIZE (va >>> cfg.PAGE_SIZE_BITS) with
  | none => exact absurd (find_entry_none.mp hf2) h2
  | some j0 =>
    have hf1 := find_entry_none.mpr h1
    rw [tlb_translate_l2_hit hf1 hf2] at hflag ⊢
    obtain ⟨e1, e2⟩ := translate_l2_hit_arrays cfg (va >>> cfg.PAGE_SIZE_BITS)
      (va &&& PAGE_OFFSET_MASK cfg) op j0 (after_l1_miss cfg s)
    have hfull' : is_full (level_array level.L1 (l2_hit_touched op j0 (after_l1_miss cfg s)))
        (level_size cfg level.L1) := hfull
    obtain ⟨hk, hmin⟩ := @evict_entry_lru cfg level.L1
      (l2_hit_touched op j0 (after_l1_miss cfg s)) hn1 hfull'
    have hlen : (level_array level.L1
        (evict_entry cfg level.L1 (l2_hit_touched op j0 (after_l1_miss cfg s))).2).length =
        cfg.TLB_L1_SIZE := by
      rw [level_array_length]
      exact hinv.1
    have hkl : (evict_entry cfg level.L1 (l2_hit_touched op j0 (after_l1_miss cfg s))).1 <
        (level_array level.L1
          (evict_entry cfg level.L1 (l2_hit_touched op j0 (after_l1_miss cfg s))).2).length := by
      rw [hlen]
      exact hk
    refine ⟨_, hk, hmin, ?_, ?_, ?_, ?_, ?_, hflag⟩
    · rw [matches_vpn, e1, slot_set, if_pos ⟨rfl, hkl⟩]
      exact ⟨rfl, rfl⟩
    · rw [e1, slot_set, if_pos ⟨rfl, hkl⟩]
      rfl
    · intro m hm
      rw [e1, slot_set, if_neg (fun hh => hm hh.1.symm), evict_entry_slot, if_neg hm]
      rfl
    · rw [e2]
      exact same_tags_trans (same_tags_evict_entry_L1_l2 cfg _) (same_tags_touch _ _ _ _)
    · rw [translate_l2_hit_time]
      rfl

/-! ## The cycle of promotions -/

theorem cycle_va_page (k : Nat) : cycle_va k >>> example_config.PAGE_SIZE_BITS = cycle_page k := by
  show (cycle_page k <<< 12) >>> 12 = cycle_page k
  exact Nat.shiftLeft_shiftRight _ _

theorem cycle_page_ne (k : Nat) :
    cycle_page (k + 2) ≠ cycle_page (k + 1) ∧ cycle_page (k + 2) ≠ cycle_page k ∧
      cycle_page (k + 1) ≠ cycle_page k := by
  unfold cycle_page
  omega

theorem cycle_page_cases (k : Nat) : cycle_page k = 1 ∨ cycle_page k = 2 ∨ cycle_page k = 3 := by
  unfold cycle_page
  omega

/-- One step of the cycle: the read of the page of step `k + 2` misses L1, hits
L2, evicts the page of step `k` from the full L1 and adds one probe step to
`flag`. -/
theorem cycle_step (k : Nat) (s : tlb_state) (h : cycle_inv k s) :
    is_full s.tlb_l1 example_config.TLB_L1_SIZE ∧
    holds_none s.tlb_l1 example_config.TLB_L1_SIZE
      (cycle_va (k + 2) >>> example_config.PAGE_SIZE_BITS) ∧
    ¬ holds_none s.tlb_l2 example_config.TLB_L2_SIZE
      (cycle_va (k + 2) >>> example_config.PAGE_SIZE_BITS) ∧
    holds_none s.tlb_l1 example_config.TLB_L1_SIZE 9 ∧
    cycle_inv (k + 1)
      (tlb_translate example_config example_collaborators (cycle_va (k + 2)) op_t.OP_READ s).2 ∧
    (tlb_translate example_config example_collaborators (cycle_va (k + 2)) op_t.OP_READ s).2.flag =
      int_wrap (s.flag + 1) := by
  obtain ⟨hinv, hfull2, p1, p2, p3, p9, i, hi, j, hj, hij, hmi, hmj, hlt, hle⟩ := h
  obtain ⟨n1, n2, n3⟩ := cycle_page_ne k
  have hslots : ∀ m, m < 2 → m = i ∨ m = j := by
    intro m hm
    omega
  have hfull1 : is_full s.tlb_l1 example_config.TLB_L1_SIZE := by
    intro m hm
    rcases hslots m hm with e | e
    · rw [e]
      exact hmi.1
    · rw [e]
      exact hmj.1
  have hnone : ∀ v, v ≠ cycle_page (k + 1) → v ≠ cycle_page k →
      holds_none s.tlb_l1 example_config.TLB_L1_SIZE v := by
    intro v hv1 hv2 m hm hmm
    rcases hslots m hm with e | e
    · rw [e] at hmm
      exact hv1 (hmm.2.symm.trans hmi.2)
    · rw [e] at hmm
      exact hv2 (hmm.2.symm.trans hmj.2)
  have h1 : holds_none s.tlb_l1 example_config.TLB_L1_SIZE
      (cycle_va (k + 2) >>> example_config.PAGE_SIZE_BITS) := by
    rw [cycle_va_page]
    exact hnone _ n1 n2
  have h2 : ¬ holds_none s.tlb_l2 example_config.TLB_L2_SIZE
      (cycle_va (k + 2) >>> example_config.PAGE_SIZE_BITS) := by
    rw [cycle_va_page]
    rcases cycle_page_cases (k + 2) with e | e | e <;> rw [e] <;> assumption
  have h9 : holds_none s.tlb_l1 example_config.TLB_L1_SIZE 9 := by
    apply hnone
    · rcases cycle_page_cases (k + 1) with e | e | e <;> rw [e] <;> decide
    · rcases cycle_page_cases k with e | e | e <;> rw [e] <;> decide
  obtain ⟨v, hv, hmin, hnew, hla, hkeep, htags, htime, hflag⟩ :=
    promotion_effect example_config example_collaborators (cycle_va (k + 2)) op_t.OP_READ s hinv
      (by decide) hfull1 h1 h2
  rw [cycle_va_page] at hnew
  have hvj : v = j := by
    rcases hslots v hv with e | e
    · have := hmin j hj
      rw [e] at this
      omega
    · exact e
  rw [hvj] at hnew hla hkeep
  have hkeepi := hkeep i hij
  refine ⟨hfull1, h1, h2, h9, ?_, ?_⟩
  · refine ⟨tlb_inv_translate _ _ _ _ _ hinv, is_full_same_tags htags hfull2,
      fun hh => p1 ((holds_none_same_tags htags).mp hh),
      fun hh => p2 ((holds_none_same_tags htags).mp hh),
      fun hh => p3 ((holds_none_same_tags htags).mp hh),
      (holds_none_same_tags htags).mpr p9, j, hj, i, hi, fun e => hij e.symm, hnew, ?_, ?_, ?_⟩
    · rw [matches_vpn, hkeepi]
      exact hmi
    · rw [hkeepi, hla]
      have l1 : example_config.TLB_L1_LATENCY_NS = 1 := rfl
      omega
    · rw [hla, htime]
  · rw [hflag]
    rfl

/-- The cycle run for `n` steps. -/
theorem cycle_run (n : Nat) :
    ∀ (k : Nat) (s : tlb_state), cycle_inv k s →
      no_double_miss example_config (promotions (k + 2) n) s ∧
      cycle_inv (k + n) (run example_config (promotions (k + 2) n) s) ∧
      (run example_config (promotions (k + 2) n) s).flag = flag_after n s.flag := by
  induction n with
  | zero =>
    intro k s h
    exact ⟨trivial, h, rfl⟩
  | succ n ih =>
    intro k s h
    obtain ⟨_, h1, h2, _, hinv, hflag⟩ := cycle_step k s h
    obtain ⟨a, b, c⟩ := ih (k + 1) _ hinv
    have e : k + 1 + n = k + (n + 1) := by omega
    rw [e] at b
    refine ⟨⟨fun hdm => h2 hdm.2, a⟩, b, ?_⟩
    show (run example_config (promotions (k + 1 + 2) n)
      (tlb_translate example_config example_collaborators (cycle_va (k + 2)) op_t.OP_READ s).2).flag = _
    rw [c, hflag, flag_after_succ]

theorem cycle_inv_start : cycle_inv 0 example_cycle_start :=
  ⟨⟨by decide, by decide, by decide, by decide⟩, by decide, by decide, by decide, by decide,
    by decide, 1, by decide, 0, by decide, by decide, by decide, by decide, by decide, by decide⟩

/-! ## The write-back of a double-miss write -/

/-- A double-miss write entered with `flag = 1` calls `dram_access` exactly when
L2 is full, the sizes being `int` values. -/
theorem double_miss_write_calls (cfg : config) (h2 : 2 ≤ cfg.TLB_L2_SIZE)
    (hint : cfg.TLB_L2_SIZE < 2 ^ 31) (c : collaborators) (va : Nat) (s : tlb_state)
    (hflag : s.flag = 1) (hdm : double_miss cfg va s) :
    (tlb_translate cfg c va op_t.OP_WRITE s).2.calls =
      s.calls ++ [call.page_table_translate va op_t.OP_WRITE] ++
        (if is_full s.tlb_l2 cfg.TLB_L2_SIZE then
          [call.dram_access
            ((((page_align cfg (c.page_table_translate va op_t.OP_WRITE)
                >>> cfg.PAGE_SIZE_BITS + WORD - cfg.TLB_L2_SIZE % WORD) % WORD)
              <<< cfg.PAGE_SIZE_BITS) % WORD)
            op_t.OP_WRITE]
        else []) := by
  rw [tlb_translate_miss (find_entry_none.mpr hdm.1) (find_entry_none.mpr hdm.2),
    translate_miss_calls, miss_l2_installed_flag]
  have hfl : (after_l2_miss cfg s).flag = 1 := hflag
  simp only [after_l2_miss_tlb_l2, hfl]
  by_cases hf : is_full s.tlb_l2 cfg.TLB_L2_SIZE
  · have : flag_after (cfg.TLB_L2_SIZE - 1) 1 = (cfg.TLB_L2_SIZE : Int) := by
      rw [flag_after_of_range (by norm_num) (by omega)]
      omega
    simp only [hf, if_true, this, true_and]
    rfl
  · have : ¬ ((1 : Int) = (cfg.TLB_L2_SIZE : Int)) := by omega
    simp only [hf, if_false, this, false_and]
    rfl

/-- A double-miss write into a full L2 entered with `flag >= 2` makes the
page-table call only, as long as the probe steps of the L2 eviction do not
overflow the `int`. -/
theorem double_miss_write_quiet (cfg : config) (c : collaborators) (va : Nat) (s : tlb_state)
    (hlo : 2 ≤ s.flag) (hhi : s.flag + ((cfg.TLB_L2_SIZE - 1 : Nat) : Int) < 2 ^ 31)
    (h2 : 1 ≤ cfg.TLB_L2_SIZE)
    (hdm : double_miss cfg va s) (hfull : is_full s.tlb_l2 cfg.TLB_L2_SIZE) :
    (tlb_translate cfg c va op_t.OP_WRITE s).2.calls =
      s.calls ++ [call.page_table_translate va op_t.OP_WRITE] := by
  rw [tlb_translate_miss (find_entry_none.mpr hdm.1) (find_entry_none.mpr hdm.2),
    translate_miss_calls, miss_l2_installed_flag]
  have hfl : (after_l2_miss cfg s).flag = s.flag := rfl
  have hne : ¬ (flag_after (cfg.TLB_L2_SIZE - 1) s.flag = (cfg.TLB_L2_SIZE : Int)) := by
    rw [flag_after_of_range (by omega) hhi]
    omega
  simp only [after_l2_miss_tlb_l2, hfl, hfull, if_true, hne, false_and, if_false,
    List.append_nil]
  rfl

/-! ## Long runs -/

theorem reachable_run (cfg : config) (os : List operation) :
    ∀ s, reachable cfg s → reachable cfg (run cfg os s) := by
  induction os with
  | nil =>
    intro s h
    exact h
  | cons o os ih =>
    intro s h
    apply ih
    cases o with
    | translate c va op => exact reachable.translate c va op s h
    | invalidate v => exact reachable.invalidate v s h

/-- A page that L1 holds stays in L1 through `n` reads of it, each of them an
L1 hit that runs `tlb_l1_hits++`. -/
theorem hits_run (cfg : config) (c : collaborators) (va : Nat) (op : op_t)
    (hn1 : 1 ≤ cfg.TLB_L1_SIZE) (n : Nat) :
    ∀ s, tlb_inv cfg s → ¬ holds_none s.tlb_l1 cfg.TLB_L1_SIZE (va >>> cfg.PAGE_SIZE_BITS) →
      tlb_inv cfg (run cfg (List.replicate n (operation.translate c va op)) s) ∧
      ¬ holds_none (run cfg (List.replicate n (operation.translate c va op)) s).tlb_l1
        cfg.TLB_L1_SIZE (va >>> cfg.PAGE_SIZE_BITS) ∧
      (run cfg (List.replicate n (operation.translate c va op)) s).tlb_l1_hits =
        counter_after n s.tlb_l1_hits := by
  induction n with
  | zero =>
    intro s hinv h
    exact ⟨hinv, h, rfl⟩
  | succ n ih =>
    intro s hinv h
    have hinv' := tlb_inv_translate cfg c va op s hinv
    have hc := (tlb_translate_counters cfg c va op s).1 h
    have hh : (tlb_translate cfg c va op s).2.tlb_l1_hits = (s.tlb_l1_hits + 1) % WORD := by
      simp only [counters, get_total_tlb_l1_hits, List.cons.injEq] at hc
      exact hc.1
    have hin : ¬ holds_none (tlb_translate cfg c va op s).2.tlb_l1 cfg.TLB_L1_SIZE
        (va >>> cfg.PAGE_SIZE_BITS) := by
      obtain ⟨k, hk, hm⟩ := tlb_translate_installs_l1 cfg c va op s hn1 hinv.1
      exact fun hh => hh k hk hm
    obtain ⟨a, b, d⟩ := ih (tlb_translate cfg c va op s).2 hinv' hin
    refine ⟨a, b, ?_⟩
    show (run cfg (List.replicate n (operation.translate c va op))
      (tlb_translate cfg c va op s).2).tlb_l1_hits = _
    rw [d, hh, counter_after_succ]

/-- An L1 hit with the L1 hit counter at `2 ^ 64 - 1` leaves the counter at 0. -/
theorem hit_at_max (cfg : config) (c : collaborators) (va : Nat) (op : op_t) (s : tlb_state)
    (hin : ¬ holds_none s.tlb_l1 cfg.TLB_L1_SIZE (va >>> cfg.PAGE_SIZE_BITS))
    (hh : s.tlb_l1_hits = 18446744073709551615) :
    (tlb_translate cfg c va op s).2.tlb_l1_hits = 0 ∧
      ¬ counters_le s (tlb_translate cfg c va op s).2 := by
  have hc := (tlb_translate_counters cfg c va op s).1 hin
  simp only [counters, get_total_tlb_l1_hits, List.cons.injEq] at hc
  have hnext : (tlb_translate cfg c va op s).2.tlb_l1_hits = 0 := by
    rw [hc.1, hh]
    decide
  refine ⟨hnext, fun hle => ?_⟩
  have h1 := hle.1
  rw [hnext, hh] at h1
  exact absurd h1 (by decide)

/-- The LRU search of a full two-slot L1 with `flag` at `2 ^ 31 - 1` leaves
`flag` at `-2 ^ 31`. -/
theorem evict_at_max (cfg : config) (s : tlb_state) (hsz : cfg.TLB_L1_SIZE = 2)
    (hfull : is_full s.tlb_l1 cfg.TLB_L1_SIZE) (hf : s.flag = 2147483647) :
    (evict_entry cfg level.L1 s).2.flag = -2147483648 := by
  have hfull' : is_full (level_array level.L1 s) (level_size cfg level.L1) := hfull
  rw [(evict_entry_of_full hfull').2, hf]
  show flag_after (cfg.TLB_L1_SIZE - 1) 2147483647 = -2147483648
  rw [hsz]
  decide

/-- The dirty propagation of `evict_entry` on a full L1, in terms of the
returned index. -/
theorem evict_entry_L1_propagates (cfg : config) (s : tlb_state) (hn : 1 ≤ cfg.TLB_L1_SIZE)
    (hfull : is_full s.tlb_l1 cfg.TLB_L1_SIZE) :
    ((slot s.tlb_l1 (evict_entry cfg level.L1 s).1).dirty = true →
      (∀ j, j < cfg.TLB_L2_SIZE →
        matches_vpn s.tlb_l2 (slot s.tlb_l1 (evict_entry cfg level.L1 s).1).virtual_page_number j →
        (∀ m, m < j → ¬ matches_vpn s.tlb_l2
          (slot s.tlb_l1 (evict_entry cfg level.L1 s).1).virtual_page_number m) →
        slot (evict_entry cfg level.L1 s).2.tlb_l2 j = { slot s.tlb_l2 j with dirty := true }) ∧
      (unique_vpn s.tlb_l2 → ∀ j, j < cfg.TLB_L2_SIZE →
        matches_vpn s.tlb_l2 (slot s.tlb_l1 (evict_entry cfg level.L1 s).1).virtual_page_number j →
        (slot (evict_entry cfg level.L1 s).2.tlb_l2 j).dirty = true) ∧
      (∀ m, (slot s.tlb_l2 m).virtual_page_number ≠
          (slot s.tlb_l1 (evict_entry cfg level.L1 s).1).virtual_page_number →
        slot (evict_entry cfg level.L1 s).2.tlb_l2 m = slot s.tlb_l2 m)) ∧
    ((slot s.tlb_l1 (evict_entry cfg level.L1 s).1).dirty = false ∨
        holds_none s.tlb_l2 cfg.TLB_L2_SIZE
          (slot s.tlb_l1 (evict_entry cfg level.L1 s).1).virtual_page_number →
      (evict_entry cfg level.L1 s).2.tlb_l2 = s.tlb_l2) := by
  have hk : (evict_entry cfg level.L1 s).1 < cfg.TLB_L1_SIZE :=
    @evict_entry_lt cfg level.L1 s hn
  have hvalid := hfull _ hk
  constructor
  · intro hd
    have first : ∀ j, j < cfg.TLB_L2_SIZE →
        matches_vpn s.tlb_l2 (slot s.tlb_l1 (evict_entry cfg level.L1 s).1).virtual_page_number j →
        (∀ m, m < j → ¬ matches_vpn s.tlb_l2
          (slot s.tlb_l1 (evict_entry cfg level.L1 s).1).virtual_page_number m) →
        slot (evict_entry cfg level.L1 s).2.tlb_l2 j = { slot s.tlb_l2 j with dirty := true } := by
      intro j hj hm hfirst
      rw [evict_entry_L1_slot_l2, if_pos ⟨hfull, hvalid, hd, find_entry_first hj hm hfirst⟩]
    refine ⟨first, fun hu j hj hm => ?_, fun m hne => ?_⟩
    · obtain ⟨j0, h0⟩ := find_entry_of_holds ⟨j, hj, hm⟩
      obtain ⟨a, b, c⟩ := find_entry_some h0
      have : j0 = j :=
        hu j0 (slot_valid_lt b.1) j (slot_valid_lt hm.1) b.1 hm.1 (b.2.trans hm.2.symm)
      subst this
      rw [first j0 a b c]
    · rw [evict_entry_L1_slot_l2]
      split
      · rename_i h
        exact absurd (find_entry_some h.2.2.2).2.1.2 hne
      · rfl
  · intro h
    apply list_eq_of_slot (evict_entry_length_l2 _ _ _)
    intro m
    rw [evict_entry_L1_slot_l2]
    split
    · rename_i hc
      rcases h with h | h
      · rw [hc.2.2.1] at h
        cases h
      · have := find_entry_some hc.2.2.2
        exact absurd this.2.1 (h m this.1)
    · rfl

/-! ## Machine values -/

theorem flag_after_range (k : Nat) (flag : Int) (h1 : -(2 ^ 31) ≤ flag) (h2 : flag < 2 ^ 31) :
    -(2 ^ 31) ≤ flag_after k flag ∧ flag_after k flag < 2 ^ 31 := by
  unfold flag_after
  split
  · exact ⟨h1, h2⟩
  · exact int_wrap_range _

theorem counter_after_lt (k count : Nat) (h : count < WORD) : counter_after k count < WORD := by
  unfold counter_after
  split
  · exact h
  · exact Nat.mod_lt _ (by decide)

theorem machine_values_of_counters {t : tlb_state} {a b c d e f : Nat}
    (h : counters t = [a, b, c, d, e, f]) (ha : a < WORD) (hb : b < WORD) (hc : c < WORD)
    (hd : d < WORD) (he : e < WORD) (hf : f < WORD) (h1 : -(2 ^ 31) ≤ t.flag)
    (h2 : t.flag < 2 ^ 31) : machine_values t := by
  simp only [counters, get_total_tlb_l1_hits, get_total_tlb_l1_misses,
    get_total_tlb_l1_invalidations, get_total_tlb_l2_hits, get_total_tlb_l2_misses,
    get_total_tlb_l2_invalidations, List.cons.injEq, and_true] at h
  obtain ⟨e1, e2, e3, e4, e5, e6⟩ := h
  unfold machine_values
  rw [e1, e2, e3, e4, e5, e6]
  exact ⟨⟨ha, hb, hc, hd, he, hf⟩, h1, h2⟩

/-- Every reachable state holds `uint64_t` values in its counters and an `int`
value in `flag`. -/
theorem machine_values_reachable {cfg : config} {s : tlb_state} (h : reachable cfg s) :
    machine_values s := by
  induction h with
  | init s =>
    have z : (0 : Nat) < WORD := by decide
    exact ⟨⟨z, z, z, z, z, z⟩, show -(2 ^ 31) ≤ (1 : Int) by decide,
      show (1 : Int) < 2 ^ 31 by decide⟩
  | translate c va op s _ ih =>
    obtain ⟨⟨r1, r2, r3, r4, r5, r6⟩, f1, f2⟩ := ih
    have hm : ∀ x : Nat, (x + 1) % WORD < WORD := fun x => Nat.mod_lt _ (by decide)
    obtain ⟨a, b, d⟩ := tlb_translate_counters cfg c va op s
    obtain ⟨fa, fb, fd⟩ := tlb_translate_flag cfg c va op s
    by_cases h1 : holds_none s.tlb_l1 cfg.TLB_L1_SIZE (va >>> cfg.PAGE_SIZE_BITS)
    · by_cases h2 : holds_none s.tlb_l2 cfg.TLB_L2_SIZE (va >>> cfg.PAGE_SIZE_BITS)
      · refine machine_values_of_counters (d h1 h2) r1 (hm _) r3 r4 (hm _) r6 ?_ ?_
        · rw [fd h1 h2]
          decide
        · rw [fd h1 h2]
          decide
      · have hr : -(2 ^ 31) ≤ (tlb_translate cfg c va op s).2.flag ∧
            (tlb_translate cfg c va op s).2.flag < 2 ^ 31 := by
          rw [fb h1 h2]
          split
          · exact flag_after_range _ _ f1 f2
          · exact ⟨f1, f2⟩
        exact machine_values_of_counters (b h1 h2) r1 (hm _) r3 (hm _) r5 r6 hr.1 hr.2
    · refine machine_values_of_counters (a h1) (hm _) r2 r3 r4 r5 r6 ?_ ?_
      · rw [fa h1]
        exact f1
      · rw [fa h1]
        exact f2
  | invalidate v s _ ih =>
    obtain ⟨⟨r1, r2, r3, r4, r5, r6⟩, f1, f2⟩ := ih
    exact machine_values_of_counters (tlb_invalidate_counters cfg v s) r1 r2
      (counter_after_lt _ _ r3) r4 r5 (counter_after_lt _ _ r6) f1 f2

/-! ## Claims -/

/-- C1. Uniqueness invariant: in every state reachable from `tlb_init` by any
finite sequence of `tlb_translate` and `tlb_invalidate` calls, neither `tlb_l1`
nor `tlb_l2` has two distinct slots that are both valid and hold the same
virtual page number. -/
theorem C1_uniqueness (cfg : config) (s : tlb_state) (h : reachable cfg s) :
    (∀ i j, i < s.tlb_l1.length → j < s.tlb_l1.length → i ≠ j →
      ¬ ((slot s.tlb_l1 i).valid = true ∧ (slot s.tlb_l1 j).valid = true ∧
        (slot s.tlb_l1 i).virtual_page_number = (slot s.tlb_l1 j).virtual_page_number)) ∧
    (∀ i j, i < s.tlb_l2.length → j < s.tlb_l2.length → i ≠ j →
      ¬ ((slot s.tlb_l2 i).valid = true ∧ (slot s.tlb_l2 j).valid = true ∧
        (slot s.tlb_l2 i).virtual_page_number = (slot s.tlb_l2 j).virtual_page_number)) := by
  obtain ⟨_, _, h3, h4⟩ := tlb_inv_reachable h
  constructor
  · rintro i j hi hj hij ⟨a, b, c⟩
    exact hij (h3 i hi j hj a b c)
  · rintro i j hi hj hij ⟨a, b, c⟩
    exact hij (h4 i hi j hj a b c)

/-- C2. Hit correctness: with `vpn = va >> PAGE_SIZE_BITS` and
`offset = va & PAGE_OFFSET_MASK`, if L1 holds a valid entry for `vpn` with frame
number `F`, or L1 holds none and L2 holds a valid entry for `vpn` with frame
number `F`, then `tlb_translate(va, op)` returns `(F << PAGE_SIZE_BITS) | offset`,
the page-aligned part of that address is `F << PAGE_SIZE_BITS`, and no
collaborator is called: the page table is not consulted. -/
theorem C2_hit_correctness (cfg : config) (c : collaborators) (va : Nat) (op : op_t)
    (s : tlb_state) (F : Nat) (hva : va < WORD)
    (h : holds_entry s.tlb_l1 cfg.TLB_L1_SIZE (va >>> cfg.PAGE_SIZE_BITS) F ∨
      (holds_none s.tlb_l1 cfg.TLB_L1_SIZE (va >>> cfg.PAGE_SIZE_BITS) ∧
        holds_entry s.tlb_l2 cfg.TLB_L2_SIZE (va >>> cfg.PAGE_SIZE_BITS) F)) :
    (tlb_translate cfg c va op s).1 =
      ((F <<< cfg.PAGE_SIZE_BITS) % WORD) ||| (va &&& PAGE_OFFSET_MASK cfg) ∧
    page_align cfg (tlb_translate cfg c va op s).1 =
      (F <<< cfg.PAGE_SIZE_BITS) % WORD ∧
    (tlb_translate cfg c va op s).2.calls = s.calls := by
  have key : (tlb_translate cfg c va op s).1 =
      ((F <<< cfg.PAGE_SIZE_BITS) % WORD) ||| (va &&& PAGE_OFFSET_MASK cfg) ∧
      (tlb_translate cfg c va op s).2.calls = s.calls := by
    rcases h with h | ⟨hn, h⟩
    · obtain ⟨i, hi⟩ := find_entry_of_holds h.1
      have hF := h.2 i (find_entry_some hi).1 (find_entry_some hi).2.1
      rw [tlb_translate_l1_hit hi, translate_l1_hit_result, translate_l1_hit_calls]
      simp only [increment_time, hF, and_self]
    · obtain ⟨j, hj⟩ := find_entry_of_holds h.1
      have hF := h.2 j (find_entry_some hj).1 (find_entry_some hj).2.1
      rw [tlb_translate_l2_hit (find_entry_none.mpr hn) hj, translate_l2_hit_result,
        translate_l2_hit_calls]
      simp only [after_l1_miss_tlb_l2, hF, true_and]
      rfl
  refine ⟨key.1, ?_, key.2⟩
  rw [key.1]
  exact page_aligned_part F va cfg.PAGE_SIZE_BITS hva

/-- C3. LRU eviction: on a level of size `n >= 1` whose slots are all valid,
`evict_entry` returns the lowest index whose `last_access` is the minimum over
the level (index 0 when all timestamps are equal); that slot is marked invalid
and no other slot of the level is written; and an `insert_entry` that follows,
like an `insert_entry` run in place of the `evict_entry`, writes the new entry
into exactly that slot. -/
theorem C3_lru_eviction (cfg : config) (lvl : level) (s : tlb_state)
    (hn : 1 ≤ level_size cfg lvl) (hfull : is_full (level_array lvl s) (level_size cfg lvl)) :
    (evict_entry cfg lvl s).1 < level_size cfg lvl ∧
    (∀ j, j < level_size cfg lvl →
      (slot (level_array lvl s) (evict_entry cfg lvl s).1).last_access
        ≤ (slot (level_array lvl s) j).last_access) ∧
    (∀ j, j < (evict_entry cfg lvl s).1 →
      (slot (level_array lvl s) (evict_entry cfg lvl s).1).last_access
        < (slot (level_array lvl s) j).last_access) ∧
    ((∀ j, j < level_size cfg lvl →
        (slot (level_array lvl s) j).last_access = (slot (level_array lvl s) 0).last_access) →
      (evict_entry cfg lvl s).1 = 0) ∧
    (slot (level_array lvl (evict_entry cfg lvl s).2) (evict_entry cfg lvl s).1).valid = false ∧
    (∀ m, m ≠ (evict_entry cfg lvl s).1 →
      slot (level_array lvl (evict_entry cfg lvl s).2) m = slot (level_array lvl s) m) ∧
    (∀ vpn pa op m,
      slot (level_array lvl (insert_entry cfg lvl vpn pa op (evict_entry cfg lvl s).2)) m =
        if m = (evict_entry cfg lvl s).1 then
          { valid := true, dirty := OP_IS_WRITE op, last_access := s.time,
            virtual_page_number := vpn, physical_page_number := pa >>> cfg.PAGE_SIZE_BITS }
        else slot (level_array lvl s) m) ∧
    (∀ vpn pa op m,
      slot (level_array lvl (insert_entry cfg lvl vpn pa op s)) m =
        if m = (evict_entry cfg lvl s).1 then
          { valid := true, dirty := OP_IS_WRITE op, last_access := s.time,
            virtual_page_number := vpn, physical_page_number := pa >>> cfg.PAGE_SIZE_BITS }
        else slot (level_array lvl s) m) := by
  have hidx := (evict_entry_of_full hfull).1
  obtain ⟨a, b, c, _⟩ := lru_scan_start (level_array lvl s) (level_size cfg lvl) s.flag hn
  rw [← hidx] at a b c
  have hlen : (evict_entry cfg lvl s).1 < (level_array lvl s).length := slot_valid_lt (hfull _ a)
  have hinvalid :
      (slot (level_array lvl (evict_entry cfg lvl s).2) (evict_entry cfg lvl s).1).valid = false := by
    rw [evict_entry_slot]
    simp
  have hother : ∀ m, m ≠ (evict_entry cfg lvl s).1 →
      slot (level_array lvl (evict_entry cfg lvl s).2) m = slot (level_array lvl s) m := by
    intro m hm
    rw [evict_entry_slot]
    simp [hm]
  refine ⟨a, b, c, ?_, hinvalid, hother, ?_, ?_⟩
  · intro heq
    by_contra hne
    have h0 := c 0 (Nat.pos_of_ne_zero hne)
    rw [heq _ a] at h0
    exact lt_irrefl _ h0
  · intro vpn pa op m
    have hagain : evict_entry cfg lvl (evict_entry cfg lvl s).2 =
        ((evict_entry cfg lvl s).1, (evict_entry cfg lvl s).2) := by
      apply evict_entry_of_free_at a hinvalid
      intro m hm
      rw [hother m (by omega)]
      exact hfull m (by omega)
    rw [insert_entry_slot]
    · rw [hagain]
      simp only [evict_entry_time]
      by_cases hm : m = (evict_entry cfg lvl s).1
      · simp [hm]
      · simp only [hm, if_false]
        exact hother m hm
    · rw [hagain]
      simp only [level_array_length]
      exact hlen
  · intro vpn pa op m
    rw [insert_entry_slot _ _ _ _ _ _ _ hlen]

/-- C4. Invalidation: after `tlb_invalidate(v)` no slot of L1 or L2 is valid with
page number `v`; every slot that was valid with page number `v` is invalid and
not dirty (its other fields are kept); every slot that did not match `v` is
unchanged in all fields; and no collaborator is called, so `dram_access` is
never invoked. -/
theorem C4_invalidation (cfg : config) (v : Nat) (s : tlb_state) :
    (∀ i, i < cfg.TLB_L1_SIZE → ¬ matches_vpn (tlb_invalidate cfg v s).tlb_l1 v i) ∧
    (∀ i, i < cfg.TLB_L2_SIZE → ¬ matches_vpn (tlb_invalidate cfg v s).tlb_l2 v i) ∧
    (∀ i, i < cfg.TLB_L1_SIZE → matches_vpn s.tlb_l1 v i →
      (slot (tlb_invalidate cfg v s).tlb_l1 i).valid = false ∧
      (slot (tlb_invalidate cfg v s).tlb_l1 i).dirty = false ∧
      slot (tlb_invalidate cfg v s).tlb_l1 i =
        { slot s.tlb_l1 i with dirty := false, valid := false }) ∧
    (∀ i, i < cfg.TLB_L2_SIZE → matches_vpn s.tlb_l2 v i →
      (slot (tlb_invalidate cfg v s).tlb_l2 i).valid = false ∧
      (slot (tlb_invalidate cfg v s).tlb_l2 i).dirty = false ∧
      slot (tlb_invalidate cfg v s).tlb_l2 i =
        { slot s.tlb_l2 i with dirty := false, valid := false }) ∧
    (∀ i, ¬ matches_vpn s.tlb_l1 v i →
      slot (tlb_invalidate cfg v s).tlb_l1 i = slot s.tlb_l1 i) ∧
    (∀ i, ¬ matches_vpn s.tlb_l2 v i →
      slot (tlb_invalidate cfg v s).tlb_l2 i = slot s.tlb_l2 i) ∧
    (tlb_invalidate cfg v s).tlb_l1.length = s.tlb_l1.length ∧
    (tlb_invalidate cfg v s).tlb_l2.length = s.tlb_l2.length ∧
    (tlb_invalidate cfg v s).calls = s.calls := by
  obtain ⟨a1, b1, c1⟩ := cleared_slot_spec _ _ _ _ (tlb_invalidate_slot_l1 cfg v s)
  obtain ⟨a2, b2, c2⟩ := cleared_slot_spec _ _ _ _ (tlb_invalidate_slot_l2 cfg v s)
  refine ⟨a1, a2, fun i hi hm => ?_, fun i hi hm => ?_, c1, c2, ?_, ?_, rfl⟩
  · rw [b1 i hi hm]
    exact ⟨rfl, rfl, rfl⟩
  · rw [b2 i hi hm]
    exact ⟨rfl, rfl, rfl⟩
  · simp only [tlb_invalidate, increment_time]
    rw [(invalidate_scan_spec _ _ _ _ _).2.1]
  · simp only [tlb_invalidate, increment_time]
    rw [(invalidate_scan_spec _ _ _ _ _).2.1]

/-- C5. Dirty propagation on L1 eviction. Let L1 be full and let `k` be its LRU
victim: the slot whose `last_access` is the minimum over L1, the lowest such
index. Then `evict_entry` on L1 returns `k` and invalidates that slot; and when
the victim is dirty with page number `v`, the L2 entry for `v` (the first valid
L2 slot holding `v`, the only one when L2 page numbers are unique) is dirty
afterwards and keeps its other fields, and every L2 slot whose page number
differs from `v` is unchanged in every field; if the victim is not dirty, or L2
has no valid entry for `v`, L2 is unchanged entirely. -/
theorem C5_dirty_propagation (cfg : config) (s : tlb_state)
    (hfull : is_full s.tlb_l1 cfg.TLB_L1_SIZE) (k : Nat) (hk : k < cfg.TLB_L1_SIZE)
    (hmin : ∀ j, j < cfg.TLB_L1_SIZE →
      (slot s.tlb_l1 k).last_access ≤ (slot s.tlb_l1 j).last_access)
    (hlow : ∀ j, j < k → (slot s.tlb_l1 k).last_access < (slot s.tlb_l1 j).last_access) :
    (evict_entry cfg level.L1 s).1 = k ∧
    slot (evict_entry cfg level.L1 s).2.tlb_l1 k = { slot s.tlb_l1 k with valid := false } ∧
    ((slot s.tlb_l1 k).dirty = true →
      (∀ j, j < cfg.TLB_L2_SIZE →
        matches_vpn s.tlb_l2 (slot s.tlb_l1 k).virtual_page_number j →
        (∀ m, m < j → ¬ matches_vpn s.tlb_l2 (slot s.tlb_l1 k).virtual_page_number m) →
        slot (evict_entry cfg level.L1 s).2.tlb_l2 j = { slot s.tlb_l2 j with dirty := true }) ∧
      (unique_vpn s.tlb_l2 → ∀ j, j < cfg.TLB_L2_SIZE →
        matches_vpn s.tlb_l2 (slot s.tlb_l1 k).virtual_page_number j →
        (slot (evict_entry cfg level.L1 s).2.tlb_l2 j).dirty = true) ∧
      (∀ m, (slot s.tlb_l2 m).virtual_page_number ≠ (slot s.tlb_l1 k).virtual_page_number →
        slot (evict_entry cfg level.L1 s).2.tlb_l2 m = slot s.tlb_l2 m)) ∧
    ((slot s.tlb_l1 k).dirty = false ∨
        holds_none s.tlb_l2 cfg.TLB_L2_SIZE (slot s.tlb_l1 k).virtual_page_number →
      (evict_entry cfg level.L1 s).2.tlb_l2 = s.tlb_l2) := by
  have hn : 1 ≤ cfg.TLB_L1_SIZE := by omega
  have hfull' : is_full (level_array level.L1 s) (level_size cfg level.L1) := hfull
  have hidx : (evict_entry cfg level.L1 s).1 = k := by
    have e := (evict_entry_of_full hfull').1
    obtain ⟨a, b, c, _⟩ := lru_scan_start (level_array level.L1 s) (level_size cfg level.L1)
      s.flag hn
    rw [← e] at a b c
    have a' : (evict_entry cfg level.L1 s).1 < cfg.TLB_L1_SIZE := a
    have b' := b k hk
    have m' := hmin _ a'
    by_contra hne
    rcases Nat.lt_or_gt_of_ne hne with hlt | hgt
    · have := hlow _ hlt
      have b'' : (slot s.tlb_l1 (evict_entry cfg level.L1 s).1).last_access ≤
          (slot s.tlb_l1 k).last_access := b'
      omega
    · have := c k hgt
      have c' : (slot s.tlb_l1 (evict_entry cfg level.L1 s).1).last_access <
          (slot s.tlb_l1 k).last_access := this
      omega
  have hp := evict_entry_L1_propagates cfg s hn hfull
  have hs := evict_entry_slot cfg level.L1 s k
  rw [hidx] at hp hs
  rw [if_pos rfl] at hs
  exact ⟨hidx, hs, hp.1, hp.2⟩

/-- C6. Promotion preserves dirt: when `vpn` misses L1 and L2 holds a valid
entry for `vpn` (slot `j`, the first such slot), after `tlb_translate(va, op)`
L1 holds a valid entry for `vpn`, the only one, with the frame number of the L2
entry and with dirty = (dirty flag of the L2 entry before the call) or
(op is a write); so a read that hits a dirty L2 entry yields a dirty L1 entry.
The L1 array has its declared size, at least 1, and the frame number of the L2
entry is that of a 64-bit physical address. -/
theorem C6_promotion_preserves_dirt (cfg : config) (c : collaborators) (va : Nat) (op : op_t)
    (s : tlb_state) (j : Nat) (hn : 1 ≤ cfg.TLB_L1_SIZE)
    (hlen : s.tlb_l1.length = cfg.TLB_L1_SIZE)
    (hmiss : holds_none s.tlb_l1 cfg.TLB_L1_SIZE (va >>> cfg.PAGE_SIZE_BITS))
    (hj : j < cfg.TLB_L2_SIZE) (hm : matches_vpn s.tlb_l2 (va >>> cfg.PAGE_SIZE_BITS) j)
    (hfirst : ∀ m, m < j → ¬ matches_vpn s.tlb_l2 (va >>> cfg.PAGE_SIZE_BITS) m)
    (hF : (slot s.tlb_l2 j).physical_page_number <<< cfg.PAGE_SIZE_BITS < WORD) :
    ∃ k, k < cfg.TLB_L1_SIZE ∧
      matches_vpn (tlb_translate cfg c va op s).2.tlb_l1 (va >>> cfg.PAGE_SIZE_BITS) k ∧
      (slot (tlb_translate cfg c va op s).2.tlb_l1 k).physical_page_number =
        (slot s.tlb_l2 j).physical_page_number ∧
      (slot (tlb_translate cfg c va op s).2.tlb_l1 k).dirty =
        ((slot s.tlb_l2 j).dirty || OP_IS_WRITE op) ∧
      ((slot s.tlb_l2 j).dirty = true →
        (slot (tlb_translate cfg c va op s).2.tlb_l1 k).dirty = true) ∧
      (∀ m, m < cfg.TLB_L1_SIZE →
        matches_vpn (tlb_translate cfg c va op s).2.tlb_l1 (va >>> cfg.PAGE_SIZE_BITS) m → m = k) := by
  rw [tlb_translate_l2_hit (find_entry_none.mpr hmiss) (find_entry_first hj hm hfirst)]
  obtain ⟨k, hk, hs⟩ := translate_l2_hit_slot_l1 cfg (va >>> cfg.PAGE_SIZE_BITS)
    (va &&& PAGE_OFFSET_MASK cfg) op j (after_l1_miss cfg s) hn hlen hmiss hm
  simp only [after_l1_miss_tlb_l2, after_l1_miss_tlb_l1, frame_round_trip hF] at hs
  refine ⟨k, hk, ?_, ?_, ?_, ?_, ?_⟩
  · unfold matches_vpn
    rw [hs k]
    simp
  · rw [hs k]
    simp
  · rw [hs k]
    simp
  · intro hd
    rw [hs k]
    simp [hd]
  · intro m hm1 hm2
    by_contra hne
    unfold matches_vpn at hm2
    rw [hs m, if_neg hne] at hm2
    exact hmiss m hm1 hm2

/-- Not C7 as stated: the counters are `uint64_t` and `++` wraps. After
`tlb_init`, one read of address `0x1234` and `2 ^ 64 - 1` more reads of it (all
L1 hits), the L1 hit counter is `2 ^ 64 - 1`; the next read, an L1 hit again,
leaves it at 0: the counter did not grow by 1, it decreased. The same step
from the state `example_saturated`, which holds that counter value. -/
theorem C7_counterexample :
    reachable example_config
      (run example_config
        (List.replicate 18446744073709551615
          (operation.translate example_collaborators 0x1234 op_t.OP_READ)) example_warm) ∧
    ¬ holds_none
      (run example_config
        (List.replicate 18446744073709551615
          (operation.translate example_collaborators 0x1234 op_t.OP_READ)) example_warm).tlb_l1
      example_config.TLB_L1_SIZE (0x1234 >>> example_config.PAGE_SIZE_BITS) ∧
    (run example_config
        (List.replicate 18446744073709551615
          (operation.translate example_collaborators 0x1234 op_t.OP_READ))
        example_warm).tlb_l1_hits = 18446744073709551615 ∧
    ((tlb_translate example_config example_collaborators 0x1234 op_t.OP_READ
        (run example_config
          (List.replicate 18446744073709551615
            (operation.translate example_collaborators 0x1234 op_t.OP_READ))
          example_warm)).2.tlb_l1_hits = 0 ∧
      ¬ counters_le
        (run example_config
          (List.replicate 18446744073709551615
            (operation.translate example_collaborators 0x1234 op_t.OP_READ)) example_warm)
        (tlb_translate example_config example_collaborators 0x1234 op_t.OP_READ
          (run example_config
            (List.replicate 18446744073709551615
              (operation.translate example_collaborators 0x1234 op_t.OP_READ))
            example_warm)).2) ∧
    ¬ holds_none example_saturated.tlb_l1 example_config.TLB_L1_SIZE
      (0x1234 >>> example_config.PAGE_SIZE_BITS) ∧
    get_total_tlb_l1_hits example_saturated = 18446744073709551615 ∧
    get_total_tlb_l1_hits
      (tlb_translate example_config example_collaborators 0x1234 op_t.OP_READ
        example_saturated).2 = 0 :=
  have hr : reachable example_config example_warm :=
    reachable.translate _ _ _ _ (reachable.init _)
  have key := hits_run example_config example_collaborators 0x1234 op_t.OP_READ
    (by decide) 18446744073709551615 example_warm (tlb_inv_reachable hr) (by decide)
  have h0 : counter_after 18446744073709551615 example_warm.tlb_l1_hits =
      18446744073709551615 := by decide
  ⟨reachable_run example_config _ example_warm hr, key.2.1, key.2.2.trans h0,
    hit_at_max example_config example_collaborators 0x1234 op_t.OP_READ _ key.2.1
      (key.2.2.trans h0),
    by decide, by decide, by decide⟩

/-- C7, amended. Counter accounting on `uint64_t` counters. Every `tlb_translate`
call that hits L1 runs `++` on the L1 hit counter and changes no other counter;
every call that misses L1 runs `++` on the L1 miss counter and on exactly one
of the L2 hit and L2 miss counters (the hit counter when L2 holds the page, the
miss counter when not) and changes no other counter; `++` adds 1 modulo
`2 ^ 64`, so exactly 1 unless the counter is at `2 ^ 64 - 1`; no invalidation
counter changes. Every `tlb_invalidate(v)` call runs `++` on the L1 (resp. L2)
invalidation counter once per valid L1 (resp. L2) slot holding `v` and changes
no hit or miss counter. Hence the six counters are non-decreasing along a
sequence of operations as long as none wraps, which is the case when every
counter is at least `n * max(1, TLB_L1_SIZE, TLB_L2_SIZE)` below `2 ^ 64` at
the start of a sequence of `n` operations. -/
theorem C7_counter_accounting (cfg : config) :
    (∀ (c : collaborators) (va : Nat) (op : op_t) (s : tlb_state),
      (¬ holds_none s.tlb_l1 cfg.TLB_L1_SIZE (va >>> cfg.PAGE_SIZE_BITS) →
        counters (tlb_translate cfg c va op s).2 =
          [(s.tlb_l1_hits + 1) % 2 ^ 64, s.tlb_l1_misses, s.tlb_l1_invalidations,
           s.tlb_l2_hits, s.tlb_l2_misses, s.tlb_l2_invalidations]) ∧
      (holds_none s.tlb_l1 cfg.TLB_L1_SIZE (va >>> cfg.PAGE_SIZE_BITS) →
        ¬ holds_none s.tlb_l2 cfg.TLB_L2_SIZE (va >>> cfg.PAGE_SIZE_BITS) →
        counters (tlb_translate cfg c va op s).2 =
          [s.tlb_l1_hits, (s.tlb_l1_misses + 1) % 2 ^ 64, s.tlb_l1_invalidations,
           (s.tlb_l2_hits + 1) % 2 ^ 64, s.tlb_l2_misses, s.tlb_l2_invalidations]) ∧
      (holds_none s.tlb_l1 cfg.TLB_L1_SIZE (va >>> cfg.PAGE_SIZE_BITS) →
        holds_none s.tlb_l2 cfg.TLB_L2_SIZE (va >>> cfg.PAGE_SIZE_BITS) →
        counters (tlb_translate cfg c va op s).2 =
          [s.tlb_l1_hits, (s.tlb_l1_misses + 1) % 2 ^ 64, s.tlb_l1_invalidations,
           s.tlb_l2_hits, (s.tlb_l2_misses + 1) % 2 ^ 64, s.tlb_l2_invalidations])) ∧
    (∀ (v : Nat) (s : tlb_state),
      counters (tlb_invalidate cfg v s) =
        [s.tlb_l1_hits, s.tlb_l1_misses,
         counter_after (matching_slots s.tlb_l1 cfg.TLB_L1_SIZE v) s.tlb_l1_invalidations,
         s.tlb_l2_hits, s.tlb_l2_misses,
         counter_after (matching_slots s.tlb_l2 cfg.TLB_L2_SIZE v) s.tlb_l2_invalidations]) ∧
    (∀ (k count : Nat), count + k < 2 ^ 64 → counter_after k count = count + k) ∧
    (∀ (os : List operation) (s : tlb_state),
      counters_room (os.length * max_events cfg) s → counters_le s (run cfg os s)) :=
  ⟨tlb_translate_counters cfg, tlb_invalidate_counters cfg,
    fun _ _ h => counter_after_of_lt h, counters_le_run cfg⟩

/-- C8. Cold miss: `tlb_init` followed by `tlb_translate(va, op)` calls the page
table exactly once, with `(va, op)`, returns exactly the page table's result
`pa`, and leaves L1 misses = 1, L2 misses = 1 and every other counter 0, with
L1 and L2 both holding, in slot 0, a valid entry for `va >> PAGE_SIZE_BITS`
whose frame number is `pa >> PAGE_SIZE_BITS` and whose dirty flag is
(op is a write). The only other collaborator call is the `dram_access` of the
write-back statement, made when `TLB_L2_SIZE` is 1 and op is a write. Both
levels have a positive size and `pa` is a 64-bit value. -/
theorem C8_cold_miss (cfg : config) (c : collaborators) (va : Nat) (op : op_t) (s0 : tlb_state)
    (hn1 : 1 ≤ cfg.TLB_L1_SIZE) (hn2 : 1 ≤ cfg.TLB_L2_SIZE)
    (hpa : c.page_table_translate va op < WORD) :
    (tlb_translate cfg c va op (tlb_init cfg s0)).1 = c.page_table_translate va op ∧
    (tlb_translate cfg c va op (tlb_init cfg s0)).2.calls =
      s0.calls ++ [call.page_table_translate va op] ++
        (if cfg.TLB_L2_SIZE = 1 ∧ op = op_t.OP_WRITE then
          [call.dram_access
            ((((c.page_table_translate va op >>> cfg.PAGE_SIZE_BITS + WORD
              - cfg.TLB_L2_SIZE % WORD) % WORD) <<< cfg.PAGE_SIZE_BITS) % WORD) op_t.OP_WRITE]
        else []) ∧
    counters (tlb_translate cfg c va op (tlb_init cfg s0)).2 = [0, 1, 0, 0, 1, 0] ∧
    (slot (tlb_translate cfg c va op (tlb_init cfg s0)).2.tlb_l1 0).valid = true ∧
    (slot (tlb_translate cfg c va op (tlb_init cfg s0)).2.tlb_l1 0).virtual_page_number =
      va >>> cfg.PAGE_SIZE_BITS ∧
    (slot (tlb_translate cfg c va op (tlb_init cfg s0)).2.tlb_l1 0).physical_page_number =
      c.page_table_translate va op >>> cfg.PAGE_SIZE_BITS ∧
    (slot (tlb_translate cfg c va op (tlb_init cfg s0)).2.tlb_l1 0).dirty = OP_IS_WRITE op ∧
    (slot (tlb_translate cfg c va op (tlb_init cfg s0)).2.tlb_l2 0).valid = true ∧
    (slot (tlb_translate cfg c va op (tlb_init cfg s0)).2.tlb_l2 0).virtual_page_number =
      va >>> cfg.PAGE_SIZE_BITS ∧
    (slot (tlb_translate cfg c va op (tlb_init cfg s0)).2.tlb_l2 0).physical_page_number =
      c.page_table_translate va op >>> cfg.PAGE_SIZE_BITS ∧
    (slot (tlb_translate cfg c va op (tlb_init cfg s0)).2.tlb_l2 0).dirty = OP_IS_WRITE op := by
  have hm1 : find_entry (tlb_init cfg s0).tlb_l1 cfg.TLB_L1_SIZE (va >>> cfg.PAGE_SIZE_BITS)
      = none := find_entry_replicate _ _ _
  have hm2 : find_entry (tlb_init cfg s0).tlb_l2 cfg.TLB_L2_SIZE (va >>> cfg.PAGE_SIZE_BITS)
      = none := find_entry_replicate _ _ _
  have hcnt := (tlb_translate_counters cfg c va op (tlb_init cfg s0)).2.2
    (find_entry_none.mp hm1) (find_entry_none.mp hm2)
  have hframe := frame_of_page_align cfg (c.page_table_translate va op) hpa
  rw [tlb_translate_miss hm1 hm2] at hcnt ⊢
  obtain ⟨e2, i2⟩ := insert_entry_slot_zero cfg level.L2 (va >>> cfg.PAGE_SIZE_BITS)
    (page_align cfg (c.page_table_translate va op)) op
    (call_page_table c va op (after_l2_miss cfg (tlb_init cfg s0))).2 hn2
    (by simp [level_array, level_size, call_page_table, tlb_init])
    (by
      show (slot (List.replicate cfg.TLB_L2_SIZE zero_entry) 0).valid = false
      rw [slot_replicate]
      rfl)
  obtain ⟨e1, i1⟩ := insert_entry_slot_zero cfg level.L1 (va >>> cfg.PAGE_SIZE_BITS)
    (page_align cfg (c.page_table_translate va op)) op
    (miss_written_back cfg c va (va >>> cfg.PAGE_SIZE_BITS) op
      (after_l2_miss cfg (tlb_init cfg s0))) hn1
    (by simp [level_array, level_size, tlb_init])
    (by
      simp only [level_array, miss_written_back_tlb_l1]
      show (slot (List.replicate cfg.TLB_L1_SIZE zero_entry) 0).valid = false
      rw [slot_replicate]
      rfl)
  simp only [level_array] at i1 i2
  have hflag : (miss_l2_installed cfg c va (va >>> cfg.PAGE_SIZE_BITS) op
      (after_l2_miss cfg (tlb_init cfg s0))).flag = 1 := by
    rw [miss_l2_installed, insert_entry_flag, e2]
    rfl
  have hl2 : slot (translate_miss cfg c va (va >>> cfg.PAGE_SIZE_BITS) op
      (after_l2_miss cfg (tlb_init cfg s0))).2.tlb_l2 0 =
      { valid := true, dirty := OP_IS_WRITE op,
        last_access := (call_page_table c va op (after_l2_miss cfg (tlb_init cfg s0))).2.time,
        virtual_page_number := va >>> cfg.PAGE_SIZE_BITS,
        physical_page_number :=
          page_align cfg (c.page_table_translate va op) >>> cfg.PAGE_SIZE_BITS } := by
    rw [translate_miss_tlb_l2, e1, miss_written_back_tlb_l2, miss_l2_installed]
    exact i2
  have hl1 : slot (translate_miss cfg c va (va >>> cfg.PAGE_SIZE_BITS) op
      (after_l2_miss cfg (tlb_init cfg s0))).2.tlb_l1 0 =
      { valid := true, dirty := OP_IS_WRITE op,
        last_access := (miss_written_back cfg c va (va >>> cfg.PAGE_SIZE_BITS) op
          (after_l2_miss cfg (tlb_init cfg s0))).time,
        virtual_page_number := va >>> cfg.PAGE_SIZE_BITS,
        physical_page_number :=
          page_align cfg (c.page_table_translate va op) >>> cfg.PAGE_SIZE_BITS } := by
    rw [translate_miss_tlb_l1]
    exact i1
  refine ⟨rfl, ?_, ?_, ?_, ?_, ?_, ?_, ?_, ?_, ?_, ?_⟩
  · rw [translate_miss_calls]
    simp only [hflag, hframe, int_one_eq_size]
    rfl
  · rw [hcnt]
    rfl
  · rw [hl1]
  · rw [hl1]
  · rw [hl1]
    exact hframe
  · rw [hl1]
  · rw [hl2]
  · rw [hl2]
  · rw [hl2]
    exact hframe
  · rw [hl2]

/-- Not C10 as stated: with a page table that answers `0x5000` for the address
`0x1234`, the two calls return `0x5000` and `0x5234`. -/
theorem C10_counterexample :
    (tlb_translate example_config frame_start_collaborators 0x1234 op_t.OP_READ
        (tlb_init example_config example_boot)).1 = 0x5000 ∧
    (tlb_translate example_config frame_start_collaborators 0x1234 op_t.OP_READ
        (tlb_translate example_config frame_start_collaborators 0x1234 op_t.OP_READ
          (tlb_init example_config example_boot)).2).1 = 0x5234 ∧
    ¬ ((tlb_translate example_config frame_start_collaborators 0x1234 op_t.OP_READ
        (tlb_translate example_config frame_start_collaborators 0x1234 op_t.OP_READ
          (tlb_init example_config example_boot)).2).1 =
      (tlb_translate example_config frame_start_collaborators 0x1234 op_t.OP_READ
        (tlb_init example_config example_boot)).1) := by
  decide

/-- C10, amended. After `tlb_init`, two consecutive calls `tlb_translate(va, READ)`
return the identical physical address, the page table's result `pa`, when `pa`
is a 64-bit address with the page offset of `va`: the first call returns `pa`
unchanged, the second `(pfn << PAGE_SIZE_BITS) | (va & PAGE_OFFSET_MASK)` with
`pfn = pa >> PAGE_SIZE_BITS`. L1 has at least one slot. -/
theorem C10_repeat_same_address (cfg : config) (c1 c2 : collaborators) (va : Nat)
    (s0 : tlb_state) (hn1 : 1 ≤ cfg.TLB_L1_SIZE)
    (hpa : c1.page_table_translate va op_t.OP_READ < WORD)
    (hoff : c1.page_table_translate va op_t.OP_READ &&& PAGE_OFFSET_MASK cfg =
      va &&& PAGE_OFFSET_MASK cfg) :
    (tlb_translate cfg c1 va op_t.OP_READ (tlb_init cfg s0)).1 =
      c1.page_table_translate va op_t.OP_READ ∧
    (tlb_translate cfg c2 va op_t.OP_READ
        (tlb_translate cfg c1 va op_t.OP_READ (tlb_init cfg s0)).2).1 =
      ((((c1.page_table_translate va op_t.OP_READ >>> cfg.PAGE_SIZE_BITS)
        <<< cfg.PAGE_SIZE_BITS) % WORD) ||| (va &&& PAGE_OFFSET_MASK cfg)) ∧
    (tlb_translate cfg c2 va op_t.OP_READ
        (tlb_translate cfg c1 va op_t.OP_READ (tlb_init cfg s0)).2).1 =
      (tlb_translate cfg c1 va op_t.OP_READ (tlb_init cfg s0)).1 := by
  obtain ⟨h1, h2⟩ := cold_miss_l1 cfg c1 va op_t.OP_READ s0 hn1
  have hfind : find_entry (tlb_translate cfg c1 va op_t.OP_READ (tlb_init cfg s0)).2.tlb_l1
      cfg.TLB_L1_SIZE (va >>> cfg.PAGE_SIZE_BITS) = some 0 := by
    apply find_entry_first (by omega)
    · unfold matches_vpn
      rw [h2]
      exact ⟨rfl, rfl⟩
    · intro m hm
      omega
  have hsecond : (tlb_translate cfg c2 va op_t.OP_READ
        (tlb_translate cfg c1 va op_t.OP_READ (tlb_init cfg s0)).2).1 =
      ((((c1.page_table_translate va op_t.OP_READ >>> cfg.PAGE_SIZE_BITS)
        <<< cfg.PAGE_SIZE_BITS) % WORD) ||| (va &&& PAGE_OFFSET_MASK cfg)) := by
    rw [tlb_translate_l1_hit hfind, translate_l1_hit_result]
    simp only [increment_time]
    rw [h2]
    simp only
    rw [frame_of_page_align cfg _ hpa]
  refine ⟨h1, hsecond, ?_⟩
  rw [hsecond, h1, ← hoff]
  exact address_reassemble _ _ hpa

/-- C11. Latency charging. `tlb_translate` leaves the clock at the entry value
plus `TLB_L1_LATENCY_NS` when the page hits L1, and plus `TLB_L1_LATENCY_NS +
TLB_L2_LATENCY_NS` when it misses L1 and hits L2; on a double miss the page
table finds the clock at the entry value plus both latencies and the call ends
with the clock the collaborators leave, which is the entry value plus both
latencies when they add no time. The charges come before the lookups they pay
for: the entry hit in L1 is stamped with the entry value plus the L1 latency,
the entry hit in L2 with the entry value plus both latencies. `tlb_invalidate`
always leaves the clock at the entry value plus both latencies. -/
theorem C11_latency_charging (cfg : config) :
    (∀ (c : collaborators) (va : Nat) (op : op_t) (s : tlb_state),
      (¬ holds_none s.tlb_l1 cfg.TLB_L1_SIZE (va >>> cfg.PAGE_SIZE_BITS) →
        (tlb_translate cfg c va op s).2.time = s.time + cfg.TLB_L1_LATENCY_NS ∧
        ∀ i, i < cfg.TLB_L1_SIZE → matches_vpn s.tlb_l1 (va >>> cfg.PAGE_SIZE_BITS) i →
          (∀ m, m < i → ¬ matches_vpn s.tlb_l1 (va >>> cfg.PAGE_SIZE_BITS) m) →
          (slot (tlb_translate cfg c va op s).2.tlb_l1 i).last_access =
            s.time + cfg.TLB_L1_LATENCY_NS) ∧
      (holds_none s.tlb_l1 cfg.TLB_L1_SIZE (va >>> cfg.PAGE_SIZE_BITS) →
        ¬ holds_none s.tlb_l2 cfg.TLB_L2_SIZE (va >>> cfg.PAGE_SIZE_BITS) →
        (tlb_translate cfg c va op s).2.time =
          s.time + cfg.TLB_L1_LATENCY_NS + cfg.TLB_L2_LATENCY_NS ∧
        ∀ j, j < cfg.TLB_L2_SIZE → matches_vpn s.tlb_l2 (va >>> cfg.PAGE_SIZE_BITS) j →
          (∀ m, m < j → ¬ matches_vpn s.tlb_l2 (va >>> cfg.PAGE_SIZE_BITS) m) →
          (slot (tlb_translate cfg c va op s).2.tlb_l2 j).last_access =
            s.time + cfg.TLB_L1_LATENCY_NS + cfg.TLB_L2_LATENCY_NS) ∧
      (holds_none s.tlb_l1 cfg.TLB_L1_SIZE (va >>> cfg.PAGE_SIZE_BITS) →
        holds_none s.tlb_l2 cfg.TLB_L2_SIZE (va >>> cfg.PAGE_SIZE_BITS) →
        ((tlb_translate cfg c va op s).2.time =
            c.page_table_clock va op
              (s.time + cfg.TLB_L1_LATENCY_NS + cfg.TLB_L2_LATENCY_NS) ∨
          ∃ pa, (tlb_translate cfg c va op s).2.time =
            c.dram_clock pa op_t.OP_WRITE
              (c.page_table_clock va op
                (s.time + cfg.TLB_L1_LATENCY_NS + cfg.TLB_L2_LATENCY_NS))) ∧
        ((∀ t, c.page_table_clock va op t = t) → (∀ pa o t, c.dram_clock pa o t = t) →
          (tlb_translate cfg c va op s).2.time =
            s.time + cfg.TLB_L1_LATENCY_NS + cfg.TLB_L2_LATENCY_NS))) ∧
    (∀ (v : Nat) (s : tlb_state),
      (tlb_invalidate cfg v s).time =
        s.time + cfg.TLB_L1_LATENCY_NS + cfg.TLB_L2_LATENCY_NS) := by
  refine ⟨fun c va op s => ⟨fun h1 => ?_, fun h1 h2 => ?_, fun h1 h2 => ?_⟩,
    fun v s => tlb_invalidate_time cfg v s⟩
  · cases hf : find_entry s.tlb_l1 cfg.TLB_L1_SIZE (va >>> cfg.PAGE_SIZE_BITS) with
    | none => exact absurd (find_entry_none.mp hf) h1
    | some i0 =>
      rw [tlb_translate_l1_hit hf, translate_l1_hit_time, translate_l1_hit_tlb_l1]
      refine ⟨rfl, fun i hi hm hfirst => ?_⟩
      have hii : i0 = i := by
        have := find_entry_first hi hm hfirst
        rw [hf] at this
        exact Option.some.inj this
      subst hii
      exact touch_la_self _ _ _ _ (slot_valid_lt hm.1)
  · cases hf : find_entry s.tlb_l2 cfg.TLB_L2_SIZE (va >>> cfg.PAGE_SIZE_BITS) with
    | none => exact absurd (find_entry_none.mp hf) h2
    | some j0 =>
      rw [tlb_translate_l2_hit (find_entry_none.mpr h1) hf, translate_l2_hit_time,
        translate_l2_hit_tlb_l2]
      refine ⟨rfl, fun j hj hm hfirst => ?_⟩
      have hjj : j0 = j := by
        have := find_entry_first hj hm hfirst
        rw [hf] at this
        exact Option.some.inj this
      subst hjj
      rw [evict_entry_L1_la_l2]
      exact touch_la_self _ _ _ _ (slot_valid_lt hm.1)
  · rw [tlb_translate_miss (find_entry_none.mpr h1) (find_entry_none.mpr h2),
      translate_miss_time, after_l2_miss_time]
    constructor
    · split
      · exact Or.inr ⟨_, rfl⟩
      · exact Or.inl rfl
    · intro hp hd
      split
      · rw [hd, hp]
      · rw [hp]

/-- C12. L1 hit keeps L2 coherent and touches nothing else. On a
`tlb_translate(va, op)` that hits L1 in slot `i` (the first valid slot for the
page), that entry gets `last_access` = the clock after the L1 latency and
dirty := dirty or (op is a write); the L2 entry for the page (slot `j`, the
first valid one), when there is one, gets the same `last_access` and
dirty := dirty or (op is a write); every other slot of L1 and L2 and the
valid, page-number and frame-number fields of the two touched entries are
unchanged (L2 as a whole when it holds no entry for the page), `flag` is
unchanged, L1 hits grows by 1 (the `++` of a `uint64_t`, so modulo `2 ^ 64`)
and no other counter changes, and no collaborator is called. -/
theorem C12_l1_hit_frame (cfg : config) (c : collaborators) (va : Nat) (op : op_t)
    (s : tlb_state) (i : Nat) (hi : i < cfg.TLB_L1_SIZE)
    (hm : matches_vpn s.tlb_l1 (va >>> cfg.PAGE_SIZE_BITS) i)
    (hfirst : ∀ m, m < i → ¬ matches_vpn s.tlb_l1 (va >>> cfg.PAGE_SIZE_BITS) m) :
    (∀ m, slot (tlb_translate cfg c va op s).2.tlb_l1 m =
      if m = i then
        { slot s.tlb_l1 i with
          last_access := s.time + cfg.TLB_L1_LATENCY_NS
          dirty := (slot s.tlb_l1 i).dirty || OP_IS_WRITE op }
      else slot s.tlb_l1 m) ∧
    (∀ j, j < cfg.TLB_L2_SIZE → matches_vpn s.tlb_l2 (va >>> cfg.PAGE_SIZE_BITS) j →
      (∀ m, m < j → ¬ matches_vpn s.tlb_l2 (va >>> cfg.PAGE_SIZE_BITS) m) →
      ∀ m, slot (tlb_translate cfg c va op s).2.tlb_l2 m =
        if m = j then
          { slot s.tlb_l2 j with
            last_access := s.time + cfg.TLB_L1_LATENCY_NS
            dirty := (slot s.tlb_l2 j).dirty || OP_IS_WRITE op }
        else slot s.tlb_l2 m) ∧
    (holds_none s.tlb_l2 cfg.TLB_L2_SIZE (va >>> cfg.PAGE_SIZE_BITS) →
      (tlb_translate cfg c va op s).2.tlb_l2 = s.tlb_l2) ∧
    (tlb_translate cfg c va op s).2.tlb_l1.length = s.tlb_l1.length ∧
    (tlb_translate cfg c va op s).2.tlb_l2.length = s.tlb_l2.length ∧
    (tlb_translate cfg c va op s).2.flag = s.flag ∧
    counters (tlb_translate cfg c va op s).2 =
      [(s.tlb_l1_hits + 1) % WORD, s.tlb_l1_misses, s.tlb_l1_invalidations,
       s.tlb_l2_hits, s.tlb_l2_misses, s.tlb_l2_invalidations] ∧
    (tlb_translate cfg c va op s).2.calls = s.calls := by
  have hf := find_entry_first hi hm hfirst
  have hcnt := (tlb_translate_counters cfg c va op s).1 (fun h => h i hi hm)
  rw [tlb_translate_l1_hit hf] at hcnt ⊢
  rw [translate_l1_hit_tlb_l1, translate_l1_hit_tlb_l2, translate_l1_hit_flag,
    translate_l1_hit_calls]
  simp only [increment_time]
  refine ⟨fun m => ?_, fun j hj hmj hfj m => ?_, fun hn => ?_, ?_, ?_, trivial, hcnt, trivial⟩
  · rw [slot_touch_at _ _ _ _ _ (slot_valid_lt hm.1)]
  · have hfj2 : find_entry s.tlb_l2 cfg.TLB_L2_SIZE
        (va >>> cfg.PAGE_SIZE_BITS) = some j := find_entry_first hj hmj hfj
    simp only [hfj2]
    rw [slot_touch_at _ _ _ _ _ (slot_valid_lt hmj.1)]
  · have hfn : find_entry s.tlb_l2 cfg.TLB_L2_SIZE
        (va >>> cfg.PAGE_SIZE_BITS) = none := find_entry_none.mpr hn
    simp only [hfn]
  · rw [touch_length]
  · cases find_entry s.tlb_l2 cfg.TLB_L2_SIZE
        (va >>> cfg.PAGE_SIZE_BITS) with
    | none => rfl
    | some j =>
      simp only
      rw [touch_length]

/-- C13. Write-back heuristic. A `tlb_translate` call that hits L1 or L2 calls no
collaborator. A double miss calls the page table once and then `dram_access`
at most once: exactly when op is a write and `flag` equals `TLB_L2_SIZE` right
after the new mapping has been installed into L2. The access is
`dram_access((pfn - TLB_L2_SIZE mod 2^64) << PAGE_SIZE_BITS, OP_WRITE)`, the
shift on 64 bits, with `pfn` the frame number of the page-table result. So no
read, no L1 hit and no L2 hit invokes `dram_access`. -/
theorem C13_write_back_heuristic (cfg : config) (c : collaborators) (va : Nat) (op : op_t)
    (s : tlb_state) :
    (¬ holds_none s.tlb_l1 cfg.TLB_L1_SIZE (va >>> cfg.PAGE_SIZE_BITS) →
      (tlb_translate cfg c va op s).2.calls = s.calls) ∧
    (holds_none s.tlb_l1 cfg.TLB_L1_SIZE (va >>> cfg.PAGE_SIZE_BITS) →
      ¬ holds_none s.tlb_l2 cfg.TLB_L2_SIZE (va >>> cfg.PAGE_SIZE_BITS) →
      (tlb_translate cfg c va op s).2.calls = s.calls) ∧
    (holds_none s.tlb_l1 cfg.TLB_L1_SIZE (va >>> cfg.PAGE_SIZE_BITS) →
      holds_none s.tlb_l2 cfg.TLB_L2_SIZE (va >>> cfg.PAGE_SIZE_BITS) →
      (tlb_translate cfg c va op s).2.calls =
        s.calls ++ [call.page_table_translate va op] ++
          (if (miss_l2_installed cfg c va (va >>> cfg.PAGE_SIZE_BITS) op
                (after_l2_miss cfg s)).flag = (cfg.TLB_L2_SIZE : Int) ∧ op = op_t.OP_WRITE then
            [call.dram_access
              ((((page_align cfg (c.page_table_translate va op) >>> cfg.PAGE_SIZE_BITS + WORD
                - cfg.TLB_L2_SIZE % WORD) % WORD) <<< cfg.PAGE_SIZE_BITS) % WORD)
              op_t.OP_WRITE]
          else []) ∧
      (op = op_t.OP_READ →
        (tlb_translate cfg c va op s).2.calls =
          s.calls ++ [call.page_table_translate va op])) ∧
    ((((page_align cfg (c.page_table_translate va op) >>> cfg.PAGE_SIZE_BITS + WORD
        - cfg.TLB_L2_SIZE % WORD) % WORD : Nat) : Int) =
      (((page_align cfg (c.page_table_translate va op) >>> cfg.PAGE_SIZE_BITS : Nat) : Int)
        - (cfg.TLB_L2_SIZE : Int)) % (WORD : Int)) ∧
    (c.page_table_translate va op < WORD →
      page_align cfg (c.page_table_translate va op) >>> cfg.PAGE_SIZE_BITS =
        c.page_table_translate va op >>> cfg.PAGE_SIZE_BITS) := by
  refine ⟨fun h1 => ?_, fun h1 h2 => ?_, fun h1 h2 => ?_, evicted_pfn_eq _ _,
    frame_of_page_align cfg _⟩
  · cases hf : find_entry s.tlb_l1 cfg.TLB_L1_SIZE (va >>> cfg.PAGE_SIZE_BITS) with
    | none => exact absurd (find_entry_none.mp hf) h1
    | some i =>
      rw [tlb_translate_l1_hit hf, translate_l1_hit_calls]
      rfl
  · cases hf : find_entry s.tlb_l2 cfg.TLB_L2_SIZE (va >>> cfg.PAGE_SIZE_BITS) with
    | none => exact absurd (find_entry_none.mp hf) h2
    | some j =>
      rw [tlb_translate_l2_hit (find_entry_none.mpr h1) hf, translate_l2_hit_calls]
      rfl
  · rw [tlb_translate_miss (find_entry_none.mpr h1) (find_entry_none.mpr h2),
      translate_miss_calls]
    refine ⟨rfl, fun hr => ?_⟩
    have : ¬ ((miss_l2_installed cfg c va (va >>> cfg.PAGE_SIZE_BITS) op
        (after_l2_miss cfg s)).flag = (cfg.TLB_L2_SIZE : Int) ∧ op = op_t.OP_WRITE) := by
      rintro ⟨_, hw⟩
      rw [hr] at hw
      cases hw
    rw [if_neg this]
    simp
    rfl

/-- C14. Initialisation: from every state, `tlb_init` yields a state in which
every slot of L1 and L2 is the all-zero entry (invalid, not dirty,
`last_access` 0, page number 0, frame number 0), the arrays have their declared
sizes, the six counters read 0 through their accessors and `flag` is 1; so
`find_entry` returns not-found on either level for every page number, and
`tlb_init` is idempotent. -/
theorem C14_initialisation (cfg : config) (s : tlb_state) :
    (∀ i, slot (tlb_init cfg s).tlb_l1 i =
      { valid := false, dirty := false, last_access := 0, virtual_page_number := 0,
        physical_page_number := 0 }) ∧
    (∀ i, slot (tlb_init cfg s).tlb_l2 i =
      { valid := false, dirty := false, last_access := 0, virtual_page_number := 0,
        physical_page_number := 0 }) ∧
    (tlb_init cfg s).tlb_l1.length = cfg.TLB_L1_SIZE ∧
    (tlb_init cfg s).tlb_l2.length = cfg.TLB_L2_SIZE ∧
    get_total_tlb_l1_hits (tlb_init cfg s) = 0 ∧
    get_total_tlb_l1_misses (tlb_init cfg s) = 0 ∧
    get_total_tlb_l1_invalidations (tlb_init cfg s) = 0 ∧
    get_total_tlb_l2_hits (tlb_init cfg s) = 0 ∧
    get_total_tlb_l2_misses (tlb_init cfg s) = 0 ∧
    get_total_tlb_l2_invalidations (tlb_init cfg s) = 0 ∧
    (tlb_init cfg s).flag = 1 ∧
    (∀ vpn, find_entry (tlb_init cfg s).tlb_l1 cfg.TLB_L1_SIZE vpn = none) ∧
    (∀ vpn, find_entry (tlb_init cfg s).tlb_l2 cfg.TLB_L2_SIZE vpn = none) ∧
    tlb_init cfg (tlb_init cfg s) = tlb_init cfg s := by
  refine ⟨fun i => slot_replicate _ i, fun i => slot_replicate _ i, ?_, ?_, rfl, rfl, rfl, rfl,
    rfl, rfl, rfl, fun vpn => find_entry_replicate _ _ _, fun vpn => find_entry_replicate _ _ _,
    rfl⟩
  · simp [tlb_init]
  · simp [tlb_init]

/-- C15. Free-slot priority: for a level that contains an invalid slot,
`evict_entry` returns the invalid slot with the lowest index, whatever the
`last_access` values, and changes nothing at all: the state it leaves is the
state it was given (both arrays, the counters, the clock, `flag`, the call log). -/
theorem C15_free_slot_priority (cfg : config) (lvl : level) (s : tlb_state)
    (h : ∃ i, i < level_size cfg lvl ∧ (slot (level_array lvl s) i).valid = false) :
    (evict_entry cfg lvl s).1 < level_size cfg lvl ∧
    (slot (level_array lvl s) (evict_entry cfg lvl s).1).valid = false ∧
    (∀ m, m < (evict_entry cfg lvl s).1 → (slot (level_array lvl s) m).valid = true) ∧
    (evict_entry cfg lvl s).2 = s := by
  cases hs : scan_from (fun i => !(slot (level_array lvl s) i).valid) (level_size cfg lvl) 0 with
  | none =>
    obtain ⟨i, hi, hv⟩ := h
    have := first_free_none.mp hs i hi
    rw [hv] at this
    cases this
  | some k =>
    rw [evict_entry_free hs]
    obtain ⟨a, b, c⟩ := first_free_some hs
    exact ⟨a, b, c, rfl⟩

/-- C16. Eviction is pure victim selection: for every level and state,
`evict_entry` leaves the six statistics counters, the clock and the call log
unchanged, returns a slot that is invalid on return, and leaves every other
slot of the level unchanged in all fields; the returned slot changes only in
its valid flag. -/
theorem C16_eviction_is_pure (cfg : config) (lvl : level) (s : tlb_state) :
    counters (evict_entry cfg lvl s).2 = counters s ∧
    (evict_entry cfg lvl s).2.time = s.time ∧
    (evict_entry cfg lvl s).2.calls = s.calls ∧
    (slot (level_array lvl (evict_entry cfg lvl s).2) (evict_entry cfg lvl s).1).valid = false ∧
    slot (level_array lvl (evict_entry cfg lvl s).2) (evict_entry cfg lvl s).1 =
      { slot (level_array lvl s) (evict_entry cfg lvl s).1 with valid := false } ∧
    (∀ m, m ≠ (evict_entry cfg lvl s).1 →
      slot (level_array lvl (evict_entry cfg lvl s).2) m = slot (level_array lvl s) m) ∧
    (level_array lvl (evict_entry cfg lvl s).2).length = (level_array lvl s).length := by
  refine ⟨evict_entry_counters cfg lvl s, evict_entry_time cfg lvl s, evict_entry_calls cfg lvl s,
    ?_, ?_, fun m hm => ?_, level_array_length lvl cfg s⟩
  · rw [evict_entry_slot]
    simp
  · rw [evict_entry_slot]
    simp
  · rw [evict_entry_slot]
    simp [hm]

/-- Not C17 as stated: `flag` is an `int`, and `flag += 1` overflows at
`2 ^ 31 - 1`. In the state `example_flag_max` (a full L1 of two slots, `flag`
at `2 ^ 31 - 1`) `evict_entry` on L1 takes one probe step and leaves `flag` at
`-2 ^ 31`, not at `flag + 1`. The same happens in a reachable state: after
`tlb_init`, four double misses and `2 ^ 31 - 2` L2-hit promotions cycling
through pages 3, 1, 2, L1 is full and `flag` is `2 ^ 31 - 1`. -/
theorem C17_counterexample :
    is_full (level_array level.L1 example_flag_max) (level_size example_config level.L1) ∧
    example_flag_max.flag = 2147483647 ∧
    (evict_entry example_config level.L1 example_flag_max).2.flag = -2147483648 ∧
    ¬ ((evict_entry example_config level.L1 example_flag_max).2.flag =
      example_flag_max.flag + ((level_size example_config level.L1 - 1 : Nat) : Int)) ∧
    reachable example_config
      (run example_config (promotions 2 2147483646) example_cycle_start) ∧
    is_full (run example_config (promotions 2 2147483646) example_cycle_start).tlb_l1
      example_config.TLB_L1_SIZE ∧
    (run example_config (promotions 2 2147483646) example_cycle_start).flag = 2147483647 ∧
    (evict_entry example_config level.L1
      (run example_config (promotions 2 2147483646) example_cycle_start)).2.flag =
        -2147483648 :=
  have hr : reachable example_config example_cycle_start :=
    reachable.translate _ _ _ _ (reachable.translate _ _ _ _ (reachable.translate _ _ _ _
      (reachable.translate _ _ _ _ (reachable.init _))))
  have key := cycle_run 2147483646 0 example_cycle_start cycle_inv_start
  have hfull := (cycle_step _ _ key.2.1).1
  have h0 : flag_after 2147483646 example_cycle_start.flag = 2147483647 := by decide
  ⟨by decide, by decide, by decide, by decide,
    reachable_run example_config _ example_cycle_start hr, hfull, key.2.2.trans h0,
    evict_at_max example_config _ rfl hfull (key.2.2.trans h0)⟩

/-- C17, amended. Saturation counter accounting on the `int` `flag`:
`evict_entry` on a level of size `n` whose slots are all valid runs
`flag += 1` exactly `n - 1` times (one per step of the LRU loop, for L1 and L2
alike), which adds exactly `n - 1` to `flag` when `flag + (n - 1)` stays
below `2 ^ 31`, and wraps around in 32-bit two's complement when it does not;
`tlb_invalidate` and a `tlb_translate` that hits L1 leave `flag` unchanged; and
after every double-miss `tlb_translate` `flag` is exactly 1. -/
theorem C17_flag_accounting (cfg : config) :
    (∀ (lvl : level) (s : tlb_state), is_full (level_array lvl s) (level_size cfg lvl) →
      (evict_entry cfg lvl s).2.flag = flag_after (level_size cfg lvl - 1) s.flag) ∧
    (∀ (k : Nat) (flag : Int), -(2 ^ 31) ≤ flag → flag + k < 2 ^ 31 →
      flag_after k flag = flag + k) ∧
    (∀ (v : Nat) (s : tlb_state), (tlb_invalidate cfg v s).flag = s.flag) ∧
    (∀ (c : collaborators) (va : Nat) (op : op_t) (s : tlb_state),
      ¬ holds_none s.tlb_l1 cfg.TLB_L1_SIZE (va >>> cfg.PAGE_SIZE_BITS) →
      (tlb_translate cfg c va op s).2.flag = s.flag) ∧
    (∀ (c : collaborators) (va : Nat) (op : op_t) (s : tlb_state),
      holds_none s.tlb_l1 cfg.TLB_L1_SIZE (va >>> cfg.PAGE_SIZE_BITS) →
      holds_none s.tlb_l2 cfg.TLB_L2_SIZE (va >>> cfg.PAGE_SIZE_BITS) →
      (tlb_translate cfg c va op s).2.flag = 1) := by
  refine ⟨fun lvl s hf => (evict_entry_of_full hf).2,
    fun k flag h1 h2 => flag_after_of_range h1 h2, fun v s => rfl, fun c va op s h1 => ?_,
    fun c va op s h1 h2 => ?_⟩
  · cases hf : find_entry s.tlb_l1 cfg.TLB_L1_SIZE (va >>> cfg.PAGE_SIZE_BITS) with
    | none => exact absurd (find_entry_none.mp hf) h1
    | some i =>
      rw [tlb_translate_l1_hit hf, translate_l1_hit_flag]
      rfl
  · rw [tlb_translate_miss (find_entry_none.mpr h1) (find_entry_none.mpr h2)]
    rfl

/-- C19. Cross-level coherence: in every state reachable from `tlb_init` by
`tlb_translate` and `tlb_invalidate` calls, a valid L1 entry and a valid L2
entry for the same page have the same frame number and the same dirty flag.
So the dirty propagation of `evict_entry` on L1 changes no L2 dirty flag: run
on a reachable state it leaves L2 as it was, and so do the two `evict_entry`
calls that `tlb_translate` makes on L1 from a reachable state, in the L2-hit
branch (after the L2 entry has been touched) and in the double-miss branch
(after the install into L2 and the write-back statement). -/
theorem C19_cross_level_coherence (cfg : config) (s : tlb_state) (h : reachable cfg s) :
    (∀ i j, i < s.tlb_l1.length → j < s.tlb_l2.length →
      (slot s.tlb_l1 i).valid = true → (slot s.tlb_l2 j).valid = true →
      (slot s.tlb_l1 i).virtual_page_number = (slot s.tlb_l2 j).virtual_page_number →
      (slot s.tlb_l1 i).physical_page_number = (slot s.tlb_l2 j).physical_page_number ∧
        (slot s.tlb_l1 i).dirty = (slot s.tlb_l2 j).dirty) ∧
    (evict_entry cfg level.L1 s).2.tlb_l2 = s.tlb_l2 ∧
    (∀ (va : Nat) (op : op_t) (j : Nat),
      holds_none s.tlb_l1 cfg.TLB_L1_SIZE (va >>> cfg.PAGE_SIZE_BITS) →
      j < cfg.TLB_L2_SIZE → matches_vpn s.tlb_l2 (va >>> cfg.PAGE_SIZE_BITS) j →
      (∀ m, m < j → ¬ matches_vpn s.tlb_l2 (va >>> cfg.PAGE_SIZE_BITS) m) →
      (evict_entry cfg level.L1 (l2_hit_touched op j (after_l1_miss cfg s))).2.tlb_l2 =
        (l2_hit_touched op j (after_l1_miss cfg s)).tlb_l2) ∧
    (∀ (c : collaborators) (va : Nat) (op : op_t), double_miss cfg va s →
      (evict_entry cfg level.L1
          (miss_written_back cfg c va (va >>> cfg.PAGE_SIZE_BITS) op
            (after_l2_miss cfg s))).2.tlb_l2 =
        (miss_written_back cfg c va (va >>> cfg.PAGE_SIZE_BITS) op
          (after_l2_miss cfg s)).tlb_l2) := by
  have hc := coherent_reachable cfg h
  have hinv := tlb_inv_reachable h
  refine ⟨fun i j _ _ hi hj hv => hc i j hi hj hv,
    evict_entry_L1_tlb_l2_of_coherent cfg s hc, fun va op j hn hj hm hfirst => ?_,
    fun c va op hdm => ?_⟩
  · apply evict_entry_L1_tlb_l2_of_coherent
    exact coherent_l2_hit_touched cfg (va >>> cfg.PAGE_SIZE_BITS) op j (after_l1_miss cfg s)
      hinv hc (find_entry_none.mpr hn) (find_entry_first hj hm hfirst)
  · apply evict_entry_L1_tlb_l2_of_coherent
    exact coherent_miss_written_back cfg c va (va >>> cfg.PAGE_SIZE_BITS) op
      (after_l2_miss cfg s) hinv hc (find_entry_none.mpr hdm.1)

/-- Not C20 as stated: `flag` is an `int`, and probe steps keep adding to it
until it wraps. From the reachable state `example_cycle_start` (`flag` = 1,
both levels full), the read of page 3 is an L2-hit promotion that evicts from
the full L1 (`TLB_L1_SIZE` = 2); the `2 ^ 32 - 1` reads that follow, cycling
through pages 1, 2, 3, are L2-hit promotions too, none a double miss, and bring
`flag` back to 1; the double-miss write of page 9 into the full L2 that comes
next invokes `dram_access`. -/
theorem C20_counterexample :
    reachable example_config example_cycle_start ∧
    2 ≤ example_config.TLB_L1_SIZE ∧ 2 ≤ example_config.TLB_L2_SIZE ∧
    example_cycle_start.flag = 1 ∧
    holds_none example_cycle_start.tlb_l1 example_config.TLB_L1_SIZE
      (0x3000 >>> example_config.PAGE_SIZE_BITS) ∧
    ¬ holds_none example_cycle_start.tlb_l2 example_config.TLB_L2_SIZE
      (0x3000 >>> example_config.PAGE_SIZE_BITS) ∧
    is_full example_cycle_start.tlb_l1 example_config.TLB_L1_SIZE ∧
    no_double_miss example_config (promotions 3 4294967295)
      (tlb_translate example_config example_collaborators 0x3000 op_t.OP_READ
        example_cycle_start).2 ∧
    double_miss example_config 0x9000
      (run example_config (promotions 3 4294967295)
        (tlb_translate example_config example_collaborators 0x3000 op_t.OP_READ
          example_cycle_start).2) ∧
    is_full
      (run example_config (promotions 3 4294967295)
        (tlb_translate example_config example_collaborators 0x3000 op_t.OP_READ
          example_cycle_start).2).tlb_l2 example_config.TLB_L2_SIZE ∧
    (run example_config (promotions 3 4294967295)
        (tlb_translate example_config example_collaborators 0x3000 op_t.OP_READ
          example_cycle_start).2).flag = 1 ∧
    (tlb_translate example_config example_collaborators 0x9000 op_t.OP_WRITE
        (run example_config (promotions 3 4294967295)
          (tlb_translate example_config example_collaborators 0x3000 op_t.OP_READ
            example_cycle_start).2)).2.calls =
      (run example_config (promotions 3 4294967295)
          (tlb_translate example_config example_collaborators 0x3000 op_t.OP_READ
            example_cycle_start).2).calls ++
        [call.page_table_translate 0x9000 op_t.OP_WRITE,
         call.dram_access 0x15000 op_t.OP_WRITE] := by
  obtain ⟨hfull1, h1, h2, _, hinv1, hflag1⟩ := cycle_step 0 example_cycle_start cycle_inv_start
  obtain ⟨hnd, hinvN, hflagN⟩ := cycle_run 4294967295 1 _ hinv1
  obtain ⟨_, _, _, h9, _, _⟩ := cycle_step _ _ hinvN
  have hflag : (run example_config (promotions 3 4294967295)
      (tlb_translate example_config example_collaborators 0x3000 op_t.OP_READ
        example_cycle_start).2).flag = 1 := by
    have e : (tlb_translate example_config example_collaborators 0x3000 op_t.OP_READ
        example_cycle_start).2.flag = int_wrap (example_cycle_start.flag + 1) := hflag1
    have e2 := hflagN
    rw [hflag1, flag_after_succ] at e2
    rw [show (run example_config (promotions 3 4294967295)
      (tlb_translate example_config example_collaborators 0x3000 op_t.OP_READ
        example_cycle_start).2).flag = flag_after (4294967295 + 1) example_cycle_start.flag
      from e2]
    decide
  have hdm : double_miss example_config 0x9000
      (run example_config (promotions 3 4294967295)
        (tlb_translate example_config example_collaborators 0x3000 op_t.OP_READ
          example_cycle_start).2) := ⟨h9, hinvN.2.2.2.2.2.1⟩
  have hfullN : is_full
      (run example_config (promotions 3 4294967295)
        (tlb_translate example_config example_collaborators 0x3000 op_t.OP_READ
          example_cycle_start).2).tlb_l2 example_config.TLB_L2_SIZE := hinvN.2.1
  refine ⟨reachable.translate _ _ _ _ (reachable.translate _ _ _ _ (reachable.translate _ _ _ _
      (reachable.translate _ _ _ _ (reachable.init _)))),
    by decide, by decide, by decide, h1, h2, hfull1, hnd, hdm, hfullN, hflag, ?_⟩
  rw [double_miss_write_calls example_config (by decide) (by decide) example_collaborators 0x9000
    _ hflag hdm, if_pos hfullN, List.append_assoc]
  rfl

/-- C20, amended. When the write-back fires. With `2 <= TLB_L2_SIZE` (an `int`
value): a double-miss `tlb_translate` with a write that is entered with `flag`
= 1 (as right after `tlb_init` or a previous double miss) invokes `dram_access`
if and only if L2 had no invalid slot before the call. And if, since the last
reset of `flag`, an L2-hit promotion evicted from a full L1 with
`TLB_L1_SIZE >= 2`, a double-miss write into a full L2 does not invoke
`dram_access` (the only call it makes is the page-table call), provided the
probe steps since the reset cannot have overflowed `flag`: with `n` calls since
the reset, `1 + n * (TLB_L1_SIZE - 1) + (TLB_L2_SIZE - 1) < 2 ^ 31`. -/
theorem C20_write_back_fires (cfg : config) (h2 : 2 ≤ cfg.TLB_L2_SIZE)
    (hint : cfg.TLB_L2_SIZE < 2 ^ 31) :
    (∀ (c : collaborators) (va : Nat) (s : tlb_state), s.flag = 1 → double_miss cfg va s →
      (tlb_translate cfg c va op_t.OP_WRITE s).2.calls =
        s.calls ++ [call.page_table_translate va op_t.OP_WRITE] ++
          (if is_full s.tlb_l2 cfg.TLB_L2_SIZE then
            [call.dram_access
              ((((page_align cfg (c.page_table_translate va op_t.OP_WRITE)
                  >>> cfg.PAGE_SIZE_BITS + WORD - cfg.TLB_L2_SIZE % WORD) % WORD)
                <<< cfg.PAGE_SIZE_BITS) % WORD)
              op_t.OP_WRITE]
          else [])) ∧
    (∀ (s0 : tlb_state) (ops1 : List operation) (c1 : collaborators) (va1 : Nat) (op1 : op_t)
        (ops2 : List operation) (c : collaborators) (va : Nat),
      2 ≤ cfg.TLB_L1_SIZE → s0.flag = 1 → no_double_miss cfg ops1 s0 →
      holds_none (run cfg ops1 s0).tlb_l1 cfg.TLB_L1_SIZE (va1 >>> cfg.PAGE_SIZE_BITS) →
      ¬ holds_none (run cfg ops1 s0).tlb_l2 cfg.TLB_L2_SIZE (va1 >>> cfg.PAGE_SIZE_BITS) →
      is_full (run cfg ops1 s0).tlb_l1 cfg.TLB_L1_SIZE →
      no_double_miss cfg ops2 (tlb_translate cfg c1 va1 op1 (run cfg ops1 s0)).2 →
      double_miss cfg va (run cfg ops2 (tlb_translate cfg c1 va1 op1 (run cfg ops1 s0)).2) →
      is_full (run cfg ops2 (tlb_translate cfg c1 va1 op1 (run cfg ops1 s0)).2).tlb_l2
        cfg.TLB_L2_SIZE →
      1 + (ops1.length + 1 + ops2.length) * (cfg.TLB_L1_SIZE - 1) + (cfg.TLB_L2_SIZE - 1)
        < 2 ^ 31 →
      (tlb_translate cfg c va op_t.OP_WRITE
          (run cfg ops2 (tlb_translate cfg c1 va1 op1 (run cfg ops1 s0)).2)).2.calls =
        (run cfg ops2 (tlb_translate cfg c1 va1 op1 (run cfg ops1 s0)).2).calls ++
          [call.page_table_translate va op_t.OP_WRITE]) := by
  constructor
  · intro c va s hflag hdm
    exact double_miss_write_calls cfg h2 hint c va s hflag hdm
  · intro s0 ops1 c1 va1 op1 ops2 c va hn1 hflag hnd1 hl1 hl2 hfull1 hnd2 hdm hfull2 hb
    have hmul : (ops1.length + 1 + ops2.length) * (cfg.TLB_L1_SIZE - 1) =
        ops1.length * (cfg.TLB_L1_SIZE - 1) + (cfg.TLB_L1_SIZE - 1) +
          ops2.length * (cfg.TLB_L1_SIZE - 1) := by
      ring
    rw [hmul] at hb
    have hbi : (1 : Int) + ((ops1.length * (cfg.TLB_L1_SIZE - 1) : Nat) : Int) +
        ((cfg.TLB_L1_SIZE - 1 : Nat) : Int) + ((ops2.length * (cfg.TLB_L1_SIZE - 1) : Nat) : Int) +
        ((cfg.TLB_L2_SIZE - 1 : Nat) : Int) < 2 ^ 31 := by
      have : ((1 + (ops1.length * (cfg.TLB_L1_SIZE - 1) + (cfg.TLB_L1_SIZE - 1) +
          ops2.length * (cfg.TLB_L1_SIZE - 1)) + (cfg.TLB_L2_SIZE - 1) : Nat) : Int) <
          ((2 ^ 31 : Nat) : Int) := Int.ofNat_lt.mpr hb
      push_cast at this ⊢
      omega
    have n1 : (0 : Int) ≤ ((ops1.length * (cfg.TLB_L1_SIZE - 1) : Nat) : Int) :=
      Int.ofNat_nonneg _
    have n2 : (0 : Int) ≤ ((ops2.length * (cfg.TLB_L1_SIZE - 1) : Nat) : Int) :=
      Int.ofNat_nonneg _
    have n3 : (1 : Int) ≤ ((cfg.TLB_L1_SIZE - 1 : Nat) : Int) := by omega
    have n4 : (0 : Int) ≤ ((cfg.TLB_L2_SIZE - 1 : Nat) : Int) := Int.ofNat_nonneg _
    obtain ⟨a1, a2⟩ := flag_run_bounds cfg ops1 s0 hnd1 (by omega) (by omega)
    have e2 : (tlb_translate cfg c1 va1 op1 (run cfg ops1 s0)).2.flag =
        (run cfg ops1 s0).flag + ((cfg.TLB_L1_SIZE - 1 : Nat) : Int) := by
      rw [(tlb_translate_flag cfg c1 va1 op1 _).2.1 hl1 hl2, if_pos hfull1,
        flag_after_of_range (by omega) (by omega)]
    obtain ⟨b1, b2⟩ := flag_run_bounds cfg ops2 _ hnd2 (by omega) (by omega)
    exact double_miss_write_quiet cfg c va _ (by omega) (by omega) (by omega) hdm hfull2

/-! ## Witnesses -/

theorem C1_uniqueness_witness :
    reachable example_config example_warm ∧
    (∀ i j, i < example_warm.tlb_l1.length → j < example_warm.tlb_l1.length → i ≠ j →
      ¬ ((slot example_warm.tlb_l1 i).valid = true ∧ (slot example_warm.tlb_l1 j).valid = true ∧
        (slot example_warm.tlb_l1 i).virtual_page_number =
          (slot example_warm.tlb_l1 j).virtual_page_number)) :=
  ⟨reachable.translate _ _ _ _ (reachable.init _),
   (C1_uniqueness example_config example_warm
      (reachable.translate _ _ _ _ (reachable.init _))).1⟩

theorem C2_hit_correctness_witness :
    holds_entry example_warm.tlb_l1 example_config.TLB_L1_SIZE
      (0x1234 >>> example_config.PAGE_SIZE_BITS) 17 ∧
    (tlb_translate example_config example_collaborators 0x1234 op_t.OP_WRITE example_warm).1 =
      ((17 <<< example_config.PAGE_SIZE_BITS) % WORD) ||| (0x1234 &&& PAGE_OFFSET_MASK example_config) :=
  ⟨by decide,
   (C2_hit_correctness example_config example_collaborators 0x1234 op_t.OP_WRITE example_warm 17
      (by decide) (Or.inl (by decide))).1⟩

theorem C3_lru_eviction_witness :
    is_full (level_array level.L1 example_full) (level_size example_config level.L1) ∧
    (evict_entry example_config level.L1 example_full).1 < level_size example_config level.L1 :=
  ⟨by decide, (C3_lru_eviction example_config level.L1 example_full (by decide) (by decide)).1⟩

theorem C5_dirty_propagation_witness :
    is_full example_full.tlb_l1 example_config.TLB_L1_SIZE ∧
    (slot example_full.tlb_l1 0).dirty = true ∧
    matches_vpn example_full.tlb_l2 (slot example_full.tlb_l1 0).virtual_page_number 1 ∧
    (slot example_full.tlb_l2 1).dirty = false ∧
    (evict_entry example_config level.L1 example_full).1 = 0 ∧
    slot (evict_entry example_config level.L1 example_full).2.tlb_l2 1 =
      { slot example_full.tlb_l2 1 with dirty := true } :=
  ⟨by decide, by decide, by decide, by decide,
   (C5_dirty_propagation example_config example_full (by decide) 0 (by decide) (by decide)
      (by decide)).1,
   ((C5_dirty_propagation example_config example_full (by decide) 0 (by decide) (by decide)
      (by decide)).2.2.1 (by decide)).1 1 (by decide) (by decide) (by decide)⟩

theorem C6_promotion_preserves_dirt_witness :
    holds_none example_l2_only.tlb_l1 example_config.TLB_L1_SIZE
      (0x1234 >>> example_config.PAGE_SIZE_BITS) ∧
    matches_vpn example_l2_only.tlb_l2 (0x1234 >>> example_config.PAGE_SIZE_BITS) 0 ∧
    ∃ k, k < example_config.TLB_L1_SIZE ∧
      matches_vpn
        (tlb_translate example_config example_collaborators 0x1234 op_t.OP_READ
          example_l2_only).2.tlb_l1 (0x1234 >>> example_config.PAGE_SIZE_BITS) k ∧
      (slot (tlb_translate example_config example_collaborators 0x1234 op_t.OP_READ
          example_l2_only).2.tlb_l1 k).dirty = true :=
  ⟨by decide, by decide,
   (C6_promotion_preserves_dirt example_config example_collaborators 0x1234 op_t.OP_READ
      example_l2_only 0 (by decide) (by decide) (by decide) (by decide) (by decide) (by decide)
      (by decide)).elim
    (fun k hk => ⟨k, hk.1, hk.2.1, hk.2.2.2.2.1 (by decide)⟩)⟩

theorem C7_counter_accounting_witness :
    counters_room
      ([operation.translate example_collaborators 0x1234 op_t.OP_WRITE,
        operation.invalidate 1].length * max_events example_config) example_warm ∧
    counters_le example_warm
      (run example_config
        [operation.translate example_collaborators 0x1234 op_t.OP_WRITE,
         operation.invalidate 1] example_warm) :=
  ⟨by decide,
   (C7_counter_accounting example_config).2.2.2
      [operation.translate example_collaborators 0x1234 op_t.OP_WRITE, operation.invalidate 1]
      example_warm (by decide)⟩

theorem C8_cold_miss_witness :
    example_collaborators.page_table_translate 0x1234 op_t.OP_READ < WORD ∧
    (tlb_translate example_config example_collaborators 0x1234 op_t.OP_READ
      (tlb_init example_config example_boot)).1 =
        example_collaborators.page_table_translate 0x1234 op_t.OP_READ :=
  ⟨by decide,
   (C8_cold_miss example_config example_collaborators 0x1234 op_t.OP_READ example_boot
      (by decide) (by decide) (by decide)).1⟩

theorem C10_repeat_same_address_witness :
    example_collaborators.page_table_translate 0x1234 op_t.OP_READ &&&
        PAGE_OFFSET_MASK example_config = 0x1234 &&& PAGE_OFFSET_MASK example_config ∧
    (tlb_translate example_config example_collaborators 0x1234 op_t.OP_READ
        (tlb_translate example_config example_collaborators 0x1234 op_t.OP_READ
          (tlb_init example_config example_boot)).2).1 =
      (tlb_translate example_config example_collaborators 0x1234 op_t.OP_READ
        (tlb_init example_config example_boot)).1 :=
  ⟨by decide,
   (C10_repeat_same_address example_config example_collaborators example_collaborators 0x1234
      example_boot (by decide) (by decide) (by decide)).2.2⟩

theorem C11_latency_charging_witness :
    ¬ holds_none example_warm.tlb_l1 example_config.TLB_L1_SIZE
        (0x1234 >>> example_config.PAGE_SIZE_BITS) ∧
    (tlb_translate example_config example_collaborators 0x1234 op_t.OP_READ example_warm).2.time =
      example_warm.time + example_config.TLB_L1_LATENCY_NS :=
  ⟨by decide,
   (((C11_latency_charging example_config).1 example_collaborators 0x1234 op_t.OP_READ
      example_warm).1 (by decide)).1⟩

theorem C12_l1_hit_frame_witness :
    matches_vpn example_warm.tlb_l1 (0x1234 >>> example_config.PAGE_SIZE_BITS) 0 ∧
    (tlb_translate example_config example_collaborators 0x1234 op_t.OP_WRITE example_warm).2.calls =
      example_warm.calls :=
  ⟨by decide,
   (C12_l1_hit_frame example_config example_collaborators 0x1234 op_t.OP_WRITE example_warm 0
      (by decide) (by decide) (by decide)).2.2.2.2.2.2.2⟩

theorem C13_write_back_heuristic_witness :
    holds_none example_warm.tlb_l1 example_config.TLB_L1_SIZE
        (0x5000 >>> example_config.PAGE_SIZE_BITS) ∧
    holds_none example_warm.tlb_l2 example_config.TLB_L2_SIZE
        (0x5000 >>> example_config.PAGE_SIZE_BITS) ∧
    (tlb_translate example_config example_collaborators 0x5000 op_t.OP_READ example_warm).2.calls =
      example_warm.calls ++ [call.page_table_translate 0x5000 op_t.OP_READ] :=
  ⟨by decide, by decide,
   ((C13_write_back_heuristic example_config example_collaborators 0x5000 op_t.OP_READ
      example_warm).2.2.1 (by decide) (by decide)).2 rfl⟩

theorem C15_free_slot_priority_witness :
    (∃ i, i < level_size example_config level.L2 ∧
      (slot (level_array level.L2 example_l2_only) i).valid = false) ∧
    (evict_entry example_config level.L2 example_l2_only).2 = example_l2_only :=
  ⟨⟨1, by decide, by decide⟩,
   (C15_free_slot_priority example_config level.L2 example_l2_only
      ⟨1, by decide, by decide⟩).2.2.2⟩

theorem C17_flag_accounting_witness :
    is_full (level_array level.L1 example_full) (level_size example_config level.L1) ∧
    -(2 ^ 31) ≤ example_full.flag ∧
    example_full.flag + ((level_size example_config level.L1 - 1 : Nat) : Int) < 2 ^ 31 ∧
    (evict_entry example_config level.L1 example_full).2.flag =
      example_full.flag + ((level_size example_config level.L1 - 1 : Nat) : Int) :=
  ⟨by decide, by decide, by decide,
   ((C17_flag_accounting example_config).1 level.L1 example_full (by decide)).trans
    ((C17_flag_accounting example_config).2.1 (level_size example_config level.L1 - 1)
      example_full.flag (by decide) (by decide))⟩

theorem C19_cross_level_coherence_witness :
    reachable example_config example_warm ∧
    (evict_entry example_config level.L1 example_warm).2.tlb_l2 = example_warm.tlb_l2 :=
  ⟨reachable.translate _ _ _ _ (reachable.init _),
   (C19_cross_level_coherence example_config example_warm
      (reachable.translate _ _ _ _ (reachable.init _))).2.1⟩

theorem C20_write_back_fires_witness :
    (2 ≤ example_config.TLB_L2_SIZE ∧ example_config.TLB_L2_SIZE < 2 ^ 31) ∧
    (example_cycle_start.flag = 1 ∧
      double_miss example_config 0x9000 example_cycle_start ∧
      is_full example_cycle_start.tlb_l2 example_config.TLB_L2_SIZE ∧
      (tlb_translate example_config example_collaborators 0x9000 op_t.OP_WRITE
          example_cycle_start).2.calls =
        example_cycle_start.calls ++ [call.page_table_translate 0x9000 op_t.OP_WRITE] ++
          [call.dram_access 0x15000 op_t.OP_WRITE]) ∧
    (holds_none (run example_config [] example_cycle_start).tlb_l1 example_config.TLB_L1_SIZE
        (0x3000 >>> example_config.PAGE_SIZE_BITS) ∧
      ¬ holds_none (run example_config [] example_cycle_start).tlb_l2
        example_config.TLB_L2_SIZE (0x3000 >>> example_config.PAGE_SIZE_BITS) ∧
      is_full (run example_config [] example_cycle_start).tlb_l1 example_config.TLB_L1_SIZE ∧
      double_miss example_config 0x9000
        (run example_config []
          (tlb_translate example_config example_collaborators 0x3000 op_t.OP_READ
            (run example_config [] example_cycle_start)).2) ∧
      is_full
        (run example_config []
          (tlb_translate example_config example_collaborators 0x3000 op_t.OP_READ
            (run example_config [] example_cycle_start)).2).tlb_l2 example_config.TLB_L2_SIZE ∧
      (tlb_translate example_config example_collaborators 0x9000 op_t.OP_WRITE
          (run example_config []
            (tlb_translate example_config example_collaborators 0x3000 op_t.OP_READ
              (run example_config [] example_cycle_start)).2)).2.calls =
        (run example_config []
            (tlb_translate example_config example_collaborators 0x3000 op_t.OP_READ
              (run example_config [] example_cycle_start)).2).calls ++
          [call.page_table_translate 0x9000 op_t.OP_WRITE]) :=
  ⟨⟨by decide, by decide⟩,
   ⟨by decide, by decide, by decide,
    ((C20_write_back_fires example_config (by decide) (by decide)).1 example_collaborators
      0x9000 example_cycle_start (by decide) (by decide)).trans (by decide)⟩,
   ⟨by decide, by decide, by decide, by decide, by decide,
    (C20_write_back_fires example_config (by decide) (by decide)).2 example_cycle_start []
      example_collaborators 0x3000 op_t.OP_READ [] example_collaborators 0x9000 (by decide)
      (by decide) trivial (by decide) (by decide) (by decide) trivial (by decide) (by decide)
      (by decide)⟩⟩

end TLB
